import Mathlib

/-!
# daisy_dx11: batching render queue

Shallow embedding of `src/daisy_dx11.h`.

Conventions of the embedding:

* `uint32_t` / `uint16_t` values are naturals reduced explicitly with `u32` / `u16`
  wherever the source computes in that width;
* `float` values are rationals (exact arithmetic), `floorf` is `Int.floor`;
* pointers to D3D11 objects are natural-number handles, `0` being `nullptr`;
* a `unique_ptr<uint8_t[]>` block is `Option (List slot)`: `none` is the null pointer,
  `some l` a block of `l.length` slots (vertex slots of 28 bytes, index slots of 2 bytes);
* a store outside the owned block (undefined behaviour in the source) is dropped;
* a loop that does not terminate makes the enclosing operation return `none`;
* the calls `update` and `flush` make on the device and its context are collected, in order,
  in a list of `gpu_call`; `flush` is modelled for a live `daisy_t::s_context`, which it
  dereferences without a test.
-/

namespace daisy

/-- Reduction of a natural to the range of `uint32_t`. -/
def u32 (n : Nat) : Nat := n % 4294967296

/-- Reduction of a natural to the range of `uint16_t`. -/
def u16 (n : Nat) : Nat := n % 65536

/-- Conversion of an `int` to `uint32_t` (`static_cast< uint32_t >`). -/
def u32_of_int (z : Int) : Nat := Int.toNat (z % 4294967296)

/-- The colour value `color_t`: four 8-bit channels, constructor order `r, g, b, a`. -/
structure color_t where
  r : Nat := 255
  g : Nat := 255
  b : Nat := 255
  a : Nat := 255
deriving DecidableEq, Repr

/-- The packed member `bgra` of the union (little endian: `b` is the lowest byte). -/
def color_t.bgra (c : color_t) : Nat :=
  c.b % 256 + 256 * (c.g % 256) + 65536 * (c.r % 256) + 16777216 * (c.a % 256)

/-- The 2D value `point_t`. -/
structure point_t where
  x : ℚ := 0
  y : ℚ := 0
deriving DecidableEq, Repr

/-- The UV rectangle `uv_t` = `array<float, 4>`, as `(u_min, v_min, u_max, v_max)`. -/
abbrev uv_t := ℚ × ℚ × ℚ × ℚ

/-- The vertex `daisy_vtx_t`: position `x, y, z, w`, packed colour, UV. -/
structure daisy_vtx_t where
  m_pos : ℚ × ℚ × ℚ × ℚ
  m_col : Nat
  m_uv : ℚ × ℚ
deriving DecidableEq, Repr

/-- A zero-initialised vertex slot, as `make_unique< uint8_t[ ] >` produces. -/
def zero_vtx : daisy_vtx_t := ⟨(0, 0, 0, 0), 0, (0, 0)⟩

/-- The growable buffer `renderbuffer_t`, with slots of type `α`. -/
structure renderbuffer_t (α : Type) where
  m_data : Option (List α) := none
  m_capacity : Nat := 0
  m_size : Nat := 0
deriving DecidableEq, Repr

/-- The draw-call descriptor `daisy_drawcall_t`: the kind tag with the live member of the union. -/
inductive daisy_drawcall_t where
  | CALL_TRI (m_texture_srv m_primitives m_vertices m_indices : Nat)
  | CALL_VTXSHADER (m_shader_handle : Nat)
  | CALL_PIXSHADER (m_shader_handle : Nat)
  | CALL_SCISSOR (m_position m_size : point_t)
deriving DecidableEq, Repr

/-- The global state `daisy_t`, together with the behaviour of the external collaborators
(device, context, allocator, C math library) as functions. -/
structure daisy_t where
  s_device : Bool := true
  s_context : Bool := true
  s_vertex_shader : Nat := 0
  s_pixel_shader : Nat := 0
  s_input_layout : Nat := 0
  s_blend_state : Nat := 0
  s_rasterizer_state : Nat := 0
  s_depth_stencil_state : Nat := 0
  s_sampler_state : Nat := 0
  s_white_texture_srv : Nat := 0
  s_viewport_width : ℚ := 1920
  s_viewport_height : ℚ := 1080
  /-- Result of `ID3D11Device::CreateBuffer` for a bind flag and a byte width: the new handle,
  `0` when the call fails. -/
  CreateBuffer : Nat → Nat → Nat := fun _ _ => 1
  /-- Whether `ID3D11DeviceContext::Map` succeeds on a buffer handle. -/
  Map : Nat → Bool := fun _ => true
  /-- Result of `ID3D11Device::CreateTexture2D` for a width and a height: the new handle, `0`
  when the call fails. -/
  CreateTexture2D : Nat → Nat → Nat := fun _ _ => 1
  /-- Result of `ID3D11Device::CreateShaderResourceView` for a texture: the new handle, `0`
  when the call fails. -/
  CreateShaderResourceView : Nat → Nat := fun _ => 1
  /-- Whether the allocation `stl::make_unique< uint8_t[ ] >( bytes )` succeeds. The code tests
  the result for null (`if ( new_vtx )`, `if ( !glyph_sets_memory )`), which is what a failed
  allocation gives with a user-supplied `stl` (`DAISY_NO_STL`); with `stl = std` a failed
  allocation is the exception `std::bad_alloc` (`ensure_capacity_std`). -/
  make_unique : Nat → Bool := fun _ => true
  sqrtf : ℚ → ℚ := fun x => x
  cosf : ℚ → ℚ := fun _ => 1
  sinf : ℚ → ℚ := fun _ => 0

/-- The calls made on the device and its context. -/
inductive gpu_call where
  | Release (handle : Nat)
  | CreateBuffer (bind byte_width : Nat)
  | Map (handle : Nat)
  | CopyVertices (data : List daisy_vtx_t)
  | CopyIndices (data : List Nat)
  | CopyConstants (data : List ℚ)
  | Unmap (handle : Nat)
  | IASetVertexBuffers (buffer stride offset : Nat)
  | IASetIndexBuffer (buffer : Nat)
  | IASetInputLayout (layout : Nat)
  | IASetPrimitiveTopology
  | VSSetShader (shader : Nat)
  | PSSetShader (shader : Nat)
  | VSSetConstantBuffers (buffer : Nat)
  | PSSetSamplers (sampler : Nat)
  | OMSetBlendState (state : Nat)
  | RSSetState (state : Nat)
  | OMSetDepthStencilState (state : Nat)
  | PSSetShaderResources (srv : Nat)
  | DrawIndexed (index_count start_index base_vertex : Nat)
  | RSSetScissorRects (left top right bottom : Int)
deriving DecidableEq, Repr

/-- The class `c_renderqueue`. -/
structure c_renderqueue where
  m_vertex_buffer : Nat := 0
  m_index_buffer : Nat := 0
  m_constant_buffer : Nat := 0
  m_vtxs : renderbuffer_t daisy_vtx_t := {}
  m_idxs : renderbuffer_t Nat := {}
  m_drawcalls : List daisy_drawcall_t := []
  m_update : Bool := true
  m_realloc_vtx : Bool := false
  m_realloc_idx : Bool := false
deriving DecidableEq, Repr

/-- The loop `while ( need > capacity ) capacity = capacity * 2;` on `uint32_t` values, run for at
most `fuel` iterations; `none` when the loop is still running after them. -/
def grow_capacity (need : Nat) : Nat → Nat → Option Nat
  | 0, _ => none
  | fuel + 1, capacity =>
    if need > capacity then grow_capacity need fuel (u32 (capacity * 2)) else some capacity

/-- The loop `while ( need > capacity ) capacity = capacity * 2;` with the counters taken as
unbounded naturals (no 32-bit wrap), run for at most `fuel` iterations; `none` when the loop
is still running after them. -/
def grow_capacity_unbounded (need : Nat) : Nat → Nat → Option Nat
  | 0, _ => none
  | fuel + 1, capacity =>
    if need > capacity then grow_capacity_unbounded need fuel (capacity * 2) else some capacity

/-- Iterations given to the doubling loop: a 32-bit capacity is `0` after 32 doublings and stays
`0`, so a loop that has not stopped by then never stops (`grow_capacity_diverges`). -/
def grow_fuel : Nat := 33

/-- The block `make_unique` returns (zero-initialised, `capacity` slots) after the `memcpy` of
the first `size` slots of the old block. -/
def reallocated {α : Type} (zero : α) (capacity size : Nat) (old : Option (List α)) : List α :=
  (List.range capacity).map (fun i => if i < size then (old.getD []).getD i zero else zero)

/-- One of the two blocks of `ensure_buffers_capacity` (they differ in the buffer, the slot
size and the flag only): returns the buffer and its reallocation flag. The branch after a
null `make_unique` is the one the source has (`if ( new_vtx )`); it is taken with a
user-supplied `stl` whose allocation returns null, and `ensure_capacity_std` is the block as
it runs with `stl = std`, where a failed allocation throws. -/
def ensure_capacity {α : Type} (g : daisy_t) (zero : α) (slot_bytes : Nat)
    (buf : renderbuffer_t α) (realloc : Bool) (to_add : Nat) : Option (renderbuffer_t α × Bool) :=
  if u32 (buf.m_size + to_add) > buf.m_capacity then
    match grow_capacity (u32 (buf.m_size + to_add)) grow_fuel buf.m_capacity with
    | none => none
    | some capacity =>
      if g.make_unique (capacity * slot_bytes) then
        some ({ m_data := some (reallocated zero capacity buf.m_size buf.m_data),
                m_capacity := capacity, m_size := buf.m_size }, true)
      else
        some ({ buf with m_capacity := capacity }, realloc)
  else some (buf, realloc)

/-- The method `c_renderqueue::ensure_buffers_capacity`. -/
def ensure_buffers_capacity (g : daisy_t) (q : c_renderqueue)
    (vertices_to_add indices_to_add : Nat) : Option c_renderqueue :=
  match ensure_capacity g zero_vtx 28 q.m_vtxs q.m_realloc_vtx vertices_to_add with
  | none => none
  | some (vtxs, realloc_vtx) =>
    match ensure_capacity g 0 2 q.m_idxs q.m_realloc_idx indices_to_add with
    | none => none
    | some (idxs, realloc_idx) =>
      some { q with m_vtxs := vtxs, m_realloc_vtx := realloc_vtx,
                    m_idxs := idxs, m_realloc_idx := realloc_idx }

/-- One block of `ensure_buffers_capacity` as it runs with `stl = std`, the library's default
(`DAISY_NO_STL` not defined): `std::make_unique` never returns null, a failed allocation is
the exception `std::bad_alloc`, and `ensure_buffers_capacity` is `noexcept`, so the exception
ends the process through `std::terminate` and the call does not return (`none`). When the
allocation succeeds the block runs as `ensure_capacity`. -/
def ensure_capacity_std {α : Type} (g : daisy_t) (zero : α) (slot_bytes : Nat)
    (buf : renderbuffer_t α) (realloc : Bool) (to_add : Nat) : Option (renderbuffer_t α × Bool) :=
  if u32 (buf.m_size + to_add) > buf.m_capacity then
    match grow_capacity (u32 (buf.m_size + to_add)) grow_fuel buf.m_capacity with
    | none => none
    | some capacity =>
      if g.make_unique (capacity * slot_bytes) then
        some ({ m_data := some (reallocated zero capacity buf.m_size buf.m_data),
                m_capacity := capacity, m_size := buf.m_size }, true)
      else none
  else some (buf, realloc)

/-- The method `c_renderqueue::ensure_buffers_capacity` with `stl = std`: the vertex block,
then the index block. -/
def ensure_buffers_capacity_std (g : daisy_t) (q : c_renderqueue)
    (vertices_to_add indices_to_add : Nat) : Option c_renderqueue :=
  match ensure_capacity_std g zero_vtx 28 q.m_vtxs q.m_realloc_vtx vertices_to_add with
  | none => none
  | some (vtxs, realloc_vtx) =>
    match ensure_capacity_std g 0 2 q.m_idxs q.m_realloc_idx indices_to_add with
    | none => none
    | some (idxs, realloc_idx) =>
      some { q with m_vtxs := vtxs, m_realloc_vtx := realloc_vtx,
                    m_idxs := idxs, m_realloc_idx := realloc_idx }

/-- The method `c_renderqueue::begin_batch`: the vertex count of the last descriptor when it is
a triangle batch with the given texture, `0` otherwise. -/
def begin_batch (q : c_renderqueue) (texture_srv : Nat) : Nat :=
  match q.m_drawcalls.getLast? with
  | some (.CALL_TRI t _ v _) => if t = texture_srv then v else 0
  | _ => 0

/-- The method `c_renderqueue::end_batch`. The `else` branch updates `m_drawcalls.back( )`
through its `m_tri` member; every caller passes the value of `begin_batch`, which is non-zero
only when the last descriptor is a triangle batch. -/
def end_batch (q : c_renderqueue) (additional_indices vertices indices primitives : Nat)
    (texture_srv : Nat) : c_renderqueue :=
  if additional_indices = 0 then
    { q with m_drawcalls := q.m_drawcalls ++ [.CALL_TRI texture_srv primitives vertices indices],
             m_update := true }
  else
    match q.m_drawcalls.getLast? with
    | some (.CALL_TRI t p v i) =>
      { q with m_drawcalls := q.m_drawcalls.dropLast ++
                 [.CALL_TRI t (u32 (p + primitives)) (u32 (v + vertices)) (u32 (i + indices))],
               m_update := true }
    | _ => { q with m_update := true }

/-- Stores `vals` in consecutive slots from `offset` on (`ptr[ counter++ ] = value`). -/
def write_at {α : Type} : List α → Nat → List α → List α
  | l, _, [] => l
  | l, offset, v :: vs => write_at (l.set offset v) (offset + 1) vs

/-- Stores through a pointer into the block of a buffer, at slot `m_size` onwards. -/
def renderbuffer_t.store {α : Type} (buf : renderbuffer_t α) (vals : List α) :
    Option (List α) :=
  buf.m_data.map (fun l => write_at l buf.m_size vals)

/-- The four vertices `push_gradient_rectangle` stores, in the order of the stores. -/
def rectangle_vertices (position size : point_t) (c1 c2 c3 c4 : color_t)
    (uv_mins uv_maxs : point_t) : List daisy_vtx_t :=
  [ ⟨(⌊position.x⌋, ⌊position.y⌋, 0, 1), c1.bgra, (uv_mins.x, uv_mins.y)⟩,
    ⟨(⌊position.x + size.x⌋, ⌊position.y⌋, 0, 1), c2.bgra, (uv_maxs.x, uv_mins.y)⟩,
    ⟨(⌊position.x + size.x⌋, ⌊position.y + size.y⌋, 0, 1), c4.bgra, (uv_maxs.x, uv_maxs.y)⟩,
    ⟨(⌊position.x⌋, ⌊position.y + size.y⌋, 0, 1), c3.bgra, (uv_mins.x, uv_maxs.y)⟩ ]

/-- The six indices `push_gradient_rectangle` stores. The casts
`static_cast< uint16_t >( additional_indices + k )` reduce a `uint32_t` sum, and reducing
modulo 2^32 and then modulo 2^16 is reducing modulo 2^16. -/
def rectangle_indices (additional_indices : Nat) : List Nat :=
  [ u16 additional_indices, u16 (additional_indices + 1), u16 (additional_indices + 3),
    u16 (additional_indices + 3), u16 (additional_indices + 2), u16 (additional_indices + 1) ]

/-- The method `c_renderqueue::push_gradient_rectangle`. -/
def push_gradient_rectangle (g : daisy_t) (q : c_renderqueue) (position size : point_t)
    (c1 c2 c3 c4 : color_t) (texture_srv : Nat := 0)
    (uv_mins : point_t := ⟨0, 0⟩) (uv_maxs : point_t := ⟨1, 1⟩) : Option c_renderqueue :=
  match ensure_buffers_capacity g q 4 6 with
  | none => none
  | some q =>
    let additional_indices := begin_batch q texture_srv
    let vtx := rectangle_vertices position size c1 c2 c3 c4 uv_mins uv_maxs
    let idx := rectangle_indices additional_indices
    let q := { q with
      m_vtxs := { q.m_vtxs with m_data := q.m_vtxs.store vtx, m_size := u32 (q.m_vtxs.m_size + 4) },
      m_idxs := { q.m_idxs with m_data := q.m_idxs.store idx, m_size := u32 (q.m_idxs.m_size + 6) } }
    some (end_batch q additional_indices 4 6 2 texture_srv)

/-- The method `c_renderqueue::push_filled_rectangle`. -/
def push_filled_rectangle (g : daisy_t) (q : c_renderqueue) (position size : point_t)
    (col : color_t) (texture_srv : Nat := 0)
    (uv_mins : point_t := ⟨0, 0⟩) (uv_maxs : point_t := ⟨1, 1⟩) : Option c_renderqueue :=
  push_gradient_rectangle g q position size col col col col texture_srv uv_mins uv_maxs

/-- The method `c_renderqueue::push_scissor`. -/
def push_scissor (q : c_renderqueue) (position size : point_t) : c_renderqueue :=
  { q with m_drawcalls := q.m_drawcalls ++ [.CALL_SCISSOR position size] }

/-- The method `c_renderqueue::clear`. -/
def clear (q : c_renderqueue) : c_renderqueue :=
  { q with m_vtxs := { q.m_vtxs with m_size := 0 },
           m_idxs := { q.m_idxs with m_size := 0 },
           m_drawcalls := if q.m_drawcalls.isEmpty then q.m_drawcalls else [] }

/-- The method `c_renderqueue::create`: the result and the queue afterwards. A failed
`CreateBuffer` leaves a null handle. -/
def create (g : daisy_t) (q : c_renderqueue) (max_verts max_indices : Nat) :
    Bool × c_renderqueue :=
  if !g.s_device then (false, q) else
  let q := if q.m_vertex_buffer = 0 then
    { q with m_vertex_buffer := g.CreateBuffer 1 (u32 (28 * max_verts)) } else q
  if q.m_vertex_buffer = 0 then (false, q) else
  let q := if q.m_index_buffer = 0 then
    { q with m_index_buffer := g.CreateBuffer 2 (u32 (2 * max_indices)) } else q
  if q.m_index_buffer = 0 then (false, q) else
  let q := if q.m_constant_buffer = 0 then
    { q with m_constant_buffer := g.CreateBuffer 4 16 } else q
  if q.m_constant_buffer = 0 then (false, q) else
  let q := if q.m_vtxs.m_data.isNone then
    { q with m_vtxs := { m_data := if g.make_unique (28 * max_verts)
                                   then some (List.replicate max_verts zero_vtx) else none,
                         m_capacity := max_verts, m_size := 0 } } else q
  let q := if q.m_idxs.m_data.isNone then
    { q with m_idxs := { m_data := if g.make_unique (2 * max_indices)
                                   then some (List.replicate max_indices 0) else none,
                         m_capacity := max_indices, m_size := 0 } } else q
  if q.m_vtxs.m_data.isNone || q.m_idxs.m_data.isNone then (false, q) else (true, q)

/-- The method `c_renderqueue::reset`. -/
def reset (g : daisy_t) (q : c_renderqueue) (pre_reset : Bool) : Bool × c_renderqueue :=
  if !pre_reset then create g q q.m_vtxs.m_capacity q.m_idxs.m_capacity
  else (true, { q with m_vertex_buffer := 0, m_index_buffer := 0, m_constant_buffer := 0 })

/-- The method `c_renderqueue::update`: the queue afterwards and the calls made. A failed
`CreateBuffer` leaves a null handle in place of the released buffer. -/
def update (g : daisy_t) (q : c_renderqueue) : c_renderqueue × List gpu_call :=
  if !g.s_device || !g.s_context then (q, []) else
  let vb := g.CreateBuffer 1 (u32 (q.m_vtxs.m_capacity * 28))
  let calls_vtx : List gpu_call := if q.m_realloc_vtx then
    [.Release q.m_vertex_buffer, .CreateBuffer 1 (u32 (q.m_vtxs.m_capacity * 28))] else []
  if q.m_realloc_vtx && vb = 0 then ({ q with m_vertex_buffer := 0 }, calls_vtx) else
  let q := if q.m_realloc_vtx then { q with m_vertex_buffer := vb, m_realloc_vtx := false } else q
  let ib := g.CreateBuffer 2 (u32 (q.m_idxs.m_capacity * 2))
  let calls_idx : List gpu_call := if q.m_realloc_idx then
    [.Release q.m_index_buffer, .CreateBuffer 2 (u32 (q.m_idxs.m_capacity * 2))] else []
  if q.m_realloc_idx && ib = 0 then ({ q with m_index_buffer := 0 }, calls_vtx ++ calls_idx) else
  let q := if q.m_realloc_idx then { q with m_index_buffer := ib, m_realloc_idx := false } else q
  let map_vtx : List gpu_call := .Map q.m_vertex_buffer ::
    (if g.Map q.m_vertex_buffer then
      [.CopyVertices ((q.m_vtxs.m_data.getD []).take q.m_vtxs.m_size), .Unmap q.m_vertex_buffer]
     else [])
  let map_idx : List gpu_call := .Map q.m_index_buffer ::
    (if g.Map q.m_index_buffer then
      [.CopyIndices ((q.m_idxs.m_data.getD []).take q.m_idxs.m_size), .Unmap q.m_index_buffer]
     else [])
  let map_cb : List gpu_call := .Map q.m_constant_buffer ::
    (if g.Map q.m_constant_buffer then
      [.CopyConstants [g.s_viewport_width, g.s_viewport_height, 0, 0],
       .Unmap q.m_constant_buffer]
     else [])
  ({ q with m_update := false }, calls_vtx ++ calls_idx ++ map_vtx ++ map_idx ++ map_cb)

/-- The conversion `static_cast< LONG >( float )`: truncation toward zero. -/
def to_long (v : ℚ) : Int := if 0 ≤ v then ⌊v⌋ else ⌈v⌉

/-- The replay loop of `c_renderqueue::flush`, from the running offsets `vertex_idx` and
`index_idx`; the `switch` has no case for the two shader kinds. -/
def replay (g : daisy_t) : List daisy_drawcall_t → Nat → Nat → List gpu_call
  | [], _, _ => []
  | .CALL_TRI t _ v i :: rest, vertex_idx, index_idx =>
    .PSSetShaderResources (if t ≠ 0 then t else g.s_white_texture_srv) ::
    .DrawIndexed i index_idx vertex_idx ::
    replay g rest (u32 (vertex_idx + v)) (u32 (index_idx + i))
  | .CALL_SCISSOR position size :: rest, vertex_idx, index_idx =>
    .RSSetScissorRects (to_long position.x) (to_long position.y)
      (to_long (position.x + size.x)) (to_long (position.y + size.y)) ::
    replay g rest vertex_idx index_idx
  | _ :: rest, vertex_idx, index_idx => replay g rest vertex_idx index_idx

/-- The pipeline state `c_renderqueue::flush` binds before the replay. -/
def bind_pipeline (g : daisy_t) (q : c_renderqueue) : List gpu_call :=
  [ .IASetVertexBuffers q.m_vertex_buffer 28 0, .IASetIndexBuffer q.m_index_buffer,
    .IASetInputLayout g.s_input_layout, .IASetPrimitiveTopology,
    .VSSetShader g.s_vertex_shader, .PSSetShader g.s_pixel_shader,
    .VSSetConstantBuffers q.m_constant_buffer, .PSSetSamplers g.s_sampler_state,
    .OMSetBlendState g.s_blend_state, .RSSetState g.s_rasterizer_state,
    .OMSetDepthStencilState g.s_depth_stencil_state ]

/-- The method `c_renderqueue::flush`: the queue afterwards and the calls made. -/
def flush (g : daisy_t) (q : c_renderqueue) : c_renderqueue × List gpu_call :=
  if q.m_drawcalls.isEmpty then (q, []) else
  let u := if q.m_update then update g q else (q, [])
  (u.1, u.2 ++ bind_pipeline g u.1 ++ replay g u.1.m_drawcalls 0 0)

/-- Slot `i` of the block a buffer owns, when there is one. -/
def renderbuffer_t.slot {α : Type} (buf : renderbuffer_t α) (i : Nat) : Option α :=
  (buf.m_data.getD [])[i]?

/-- The arguments of one `push_filled_rectangle` call, the texture apart. -/
structure rectangle_args where
  position : point_t
  size : point_t
  col : color_t
  uv_mins : point_t := ⟨0, 0⟩
  uv_maxs : point_t := ⟨1, 1⟩

/-- Consecutive `push_filled_rectangle` calls with one texture handle. -/
def push_filled_rectangles (g : daisy_t) (texture_srv : Nat) :
    c_renderqueue → List rectangle_args → Option c_renderqueue
  | q, [] => some q
  | q, a :: rest =>
    match push_filled_rectangle g q a.position a.size a.col texture_srv a.uv_mins a.uv_maxs with
    | none => none
    | some q1 => push_filled_rectangles g texture_srv q1 rest

/-- The block of the buffer is live and has as many slots as the recorded capacity. -/
def renderbuffer_t.owns {α : Type} (buf : renderbuffer_t α) : Prop :=
  ∃ l, buf.m_data = some l ∧ l.length = buf.m_capacity

/-- A queue with a full two-slot vertex buffer and an empty eight-slot index buffer. -/
def sample_full_queue : c_renderqueue :=
  { m_vtxs := { m_data := some [⟨(1, 2, 0, 1), 7, (0, 0)⟩, ⟨(3, 4, 0, 1), 8, (1, 1)⟩],
                m_capacity := 2, m_size := 2 },
    m_idxs := { m_data := some (List.replicate 8 0), m_capacity := 8, m_size := 0 },
    m_update := false }

/-- An empty queue with two-slot buffers, as `create( 2, 2 )` leaves it. -/
def sample_empty_queue : c_renderqueue :=
  { m_vertex_buffer := 1, m_index_buffer := 1, m_constant_buffer := 1,
    m_vtxs := { m_data := some (List.replicate 2 zero_vtx), m_capacity := 2, m_size := 0 },
    m_idxs := { m_data := some (List.replicate 2 0), m_capacity := 2, m_size := 0 } }

/-- Three rectangles with different positions, sizes and colours. -/
def sample_rectangles : List rectangle_args :=
  [ { position := ⟨10, 10⟩, size := ⟨20, 20⟩, col := {} },
    { position := ⟨5 / 2, 0⟩, size := ⟨1, 7⟩, col := { r := 0 } },
    { position := ⟨-3, 4⟩, size := ⟨8, 1 / 3⟩, col := { a := 128 }, uv_maxs := ⟨1 / 2, 1 / 2⟩ } ]

/-- Vertex count of a triangle batch, `0` for the other descriptors. -/
def tri_vertex_count : daisy_drawcall_t → Nat
  | .CALL_TRI _ _ v _ => v
  | _ => 0

/-- Index count of a triangle batch, `0` for the other descriptors. -/
def tri_index_count : daisy_drawcall_t → Nat
  | .CALL_TRI _ _ _ i => i
  | _ => 0

/-- The calls the specification prescribes for one descriptor, given the descriptors before it
in the sequence: for a triangle batch the texture binding (the default white texture for a
null handle) and one indexed draw whose start index and base vertex are the sums of the index
and vertex counts of the earlier triangle batches; for a scissor one scissor update. -/
def descriptor_calls (g : daisy_t) (earlier : List daisy_drawcall_t) :
    daisy_drawcall_t → List gpu_call
  | .CALL_TRI t _ _ i =>
    [ .PSSetShaderResources (if t = 0 then g.s_white_texture_srv else t),
      .DrawIndexed i (earlier.map tri_index_count).sum (earlier.map tri_vertex_count).sum ]
  | .CALL_SCISSOR position size =>
    [ .RSSetScissorRects (to_long position.x) (to_long position.y)
        (to_long (position.x + size.x)) (to_long (position.y + size.y)) ]
  | _ => []

/-- The calls the specification prescribes for the descriptors `rest` that follow the
descriptors `earlier`, in sequence order. -/
def prescribed_calls (g : daisy_t) :
    List daisy_drawcall_t → List daisy_drawcall_t → List gpu_call
  | _, [] => []
  | earlier, d :: rest => descriptor_calls g earlier d ++ prescribed_calls g (earlier ++ [d]) rest

/-- The calls made by the replay loop: texture bindings, indexed draws, scissor updates. -/
def is_replay_call : gpu_call → Bool
  | .PSSetShaderResources _ => true
  | .DrawIndexed _ _ _ => true
  | .RSSetScissorRects _ _ _ _ => true
  | _ => false

/-- A queue holding an untextured batch, a scissor and a batch with texture 7. -/
def sample_recorded_queue : c_renderqueue :=
  { m_vertex_buffer := 1, m_index_buffer := 2, m_constant_buffer := 3,
    m_vtxs := { m_data := some (List.replicate 8 zero_vtx), m_capacity := 8, m_size := 7 },
    m_idxs := { m_data := some (List.replicate 16 0), m_capacity := 16, m_size := 9 },
    m_drawcalls := [.CALL_TRI 0 2 4 6, .CALL_SCISSOR ⟨0, 0⟩ ⟨64, 48⟩, .CALL_TRI 7 1 3 3] }

/-- The indexed draws among the calls. -/
def is_draw_call : gpu_call → Bool
  | .DrawIndexed _ _ _ => true
  | _ => false

/-- The method `c_renderqueue::push_filled_triangle`. -/
def push_filled_triangle (g : daisy_t) (q : c_renderqueue) (p1 p2 p3 : point_t)
    (c1 c2 c3 : color_t) (texture_srv : Nat := 0) (uv1 : point_t := ⟨0, 0⟩)
    (uv2 : point_t := ⟨0, 0⟩) (uv3 : point_t := ⟨0, 0⟩) : Option c_renderqueue :=
  match ensure_buffers_capacity g q 3 3 with
  | none => none
  | some q =>
    let additional_indices := begin_batch q texture_srv
    let vtx : List daisy_vtx_t :=
      [ ⟨(p1.x, p1.y, 0, 1), c1.bgra, (uv1.x, uv1.y)⟩,
        ⟨(p2.x, p2.y, 0, 1), c2.bgra, (uv2.x, uv2.y)⟩,
        ⟨(p3.x, p3.y, 0, 1), c3.bgra, (uv3.x, uv3.y)⟩ ]
    let idx : List Nat :=
      [ u16 additional_indices, u16 (additional_indices + 1), u16 (additional_indices + 2) ]
    let q := { q with
      m_vtxs := { q.m_vtxs with m_data := q.m_vtxs.store vtx, m_size := u32 (q.m_vtxs.m_size + 3) },
      m_idxs := { q.m_idxs with m_data := q.m_idxs.store idx, m_size := u32 (q.m_idxs.m_size + 3) } }
    some (end_batch q additional_indices 3 3 1 texture_srv)

/-- The constant `FLT_EPSILON`, 2^-23. -/
def FLT_EPSILON : ℚ := 1 / 8388608

/-- The method `c_renderqueue::push_line`. -/
def push_line (g : daisy_t) (q : c_renderqueue) (p1 p2 : point_t) (col : color_t)
    (width : ℚ := 1) : Option c_renderqueue :=
  match ensure_buffers_capacity g q 4 6 with
  | none => none
  | some q =>
    let additional_indices := begin_batch q 0
    let delta : point_t := ⟨p2.x - p1.x, p2.y - p1.y⟩
    let length := g.sqrtf (delta.x * delta.x + delta.y * delta.y) + FLT_EPSILON
    let scale := width / (2 * length)
    let radius : point_t := ⟨-scale * delta.y, scale * delta.x⟩
    let vtx : List daisy_vtx_t :=
      [ ⟨(p1.x - radius.x, p1.y - radius.y, 0, 1), col.bgra, (0, 0)⟩,
        ⟨(p1.x + radius.x, p1.y + radius.y, 0, 1), col.bgra, (1, 0)⟩,
        ⟨(p2.x - radius.x, p2.y - radius.y, 0, 1), col.bgra, (1, 1)⟩,
        ⟨(p2.x + radius.x, p2.y + radius.y, 0, 1), col.bgra, (0, 1)⟩ ]
    let idx : List Nat :=
      [ u16 additional_indices, u16 (additional_indices + 1), u16 (additional_indices + 2),
        u16 (additional_indices + 2), u16 (additional_indices + 3), u16 (additional_indices + 1) ]
    let q := { q with
      m_vtxs := { q.m_vtxs with m_data := q.m_vtxs.store vtx, m_size := u32 (q.m_vtxs.m_size + 4) },
      m_idxs := { q.m_idxs with m_data := q.m_idxs.store idx, m_size := u32 (q.m_idxs.m_size + 6) } }
    some (end_batch q additional_indices 4 6 2 0)

/-- The constant `Pi` of `push_filled_circle`, the decimal value of its literal. -/
def Pi : ℚ := 314159265358979323846 / 100000000000000000000

/-- The constant `Pi2` of `push_filled_circle`: `Pi * Pi`. -/
def Pi2 : ℚ := Pi * Pi

/-- One iteration `i` of the loop of `push_filled_circle`, on the vertices and indices stored
so far (`vtx_counter` and `idx_counter` are the lengths of the two lists). A zero `segments`
makes the quotient `theta` 0 here (the source divides floats). -/
def circle_step (g : daisy_t) (center : point_t) (radius : ℚ) (segments : Int)
    (outer_color : color_t) (additional_indices : Nat)
    (acc : List daisy_vtx_t × List Nat) (i : Nat) : List daisy_vtx_t × List Nat :=
  let theta : ℚ := (2 * Pi2 * i) / segments
  let x := center.x + radius * g.cosf theta
  let y := center.y + radius * g.sinf theta
  let last_iteration : Bool := ((i : Int) = segments)
  let vtx := if !last_iteration
    then acc.1 ++ [(⟨(x, y, 0, 1), outer_color.bgra, (0, 0)⟩ : daisy_vtx_t)] else acc.1
  let idx := if i ≠ 0 then
      (if last_iteration
       then acc.2 ++ [u16 additional_indices, u16 (additional_indices + i),
                      u16 (additional_indices + 1)]
       else acc.2 ++ [u16 additional_indices, u16 (additional_indices + i),
                      u16 (additional_indices + i + 1)])
    else acc.2
  (vtx, idx)

/-- The method `c_renderqueue::push_filled_circle`; `segments` is an `int`, and the loop
`for ( int i = 0; i <= segments; ++i )` runs for `i` in `0 .. segments`, not at all when
`segments` is negative. -/
def push_filled_circle (g : daisy_t) (q : c_renderqueue) (center : point_t) (radius : ℚ)
    (segments : Int) (center_color outer_color : color_t) : Option c_renderqueue :=
  match ensure_buffers_capacity g q (u32_of_int (segments + 1)) (u32_of_int (segments * 3)) with
  | none => none
  | some q =>
    let additional_indices := begin_batch q 0
    let first : List daisy_vtx_t := [⟨(center.x, center.y, 0, 1), center_color.bgra, (0, 0)⟩]
    let stored := (List.range (Int.toNat (segments + 1))).foldl
      (circle_step g center radius segments outer_color additional_indices) (first, [])
    let vtx_counter := stored.1.length
    let idx_counter := stored.2.length
    let q := { q with
      m_vtxs := { q.m_vtxs with m_data := q.m_vtxs.store stored.1,
                                m_size := u32 (q.m_vtxs.m_size + vtx_counter) },
      m_idxs := { q.m_idxs with m_data := q.m_idxs.store stored.2,
                                m_size := u32 (q.m_idxs.m_size + idx_counter) } }
    some (end_batch q additional_indices (u32 vtx_counter) (u32 idx_counter)
      (u32_of_int segments) 0)

/-- The rim vertex the loop of `push_filled_circle` stores at its iteration `i`. -/
def rim_vertex (g : daisy_t) (center : point_t) (radius : ℚ) (segments : Int)
    (outer_color : color_t) (i : Nat) : daisy_vtx_t :=
  ⟨(center.x + radius * g.cosf ((2 * Pi2 * i) / segments),
    center.y + radius * g.sinf ((2 * Pi2 * i) / segments), 0, 1), outer_color.bgra, (0, 0)⟩

/-- The triangles of a fan of `n` segments over the batch base index `b`: the triangle
`(b, b + i, b + i + 1)` for `1 ≤ i < n`, then the closing triangle `(b, b + n, b + 1)`. -/
def fan_triangles (b n : Nat) : List (Nat × Nat × Nat) :=
  (List.range (n - 1)).map (fun j => (b, b + (j + 1), b + (j + 1) + 1)) ++ [(b, b + n, b + 1)]

/-- The class `c_fontwrapper`; `m_coords` is the `unordered_map< wchar_t, uv_t >` as a
partial function on character codes, the family name is kept as a list of codes. -/
structure c_fontwrapper where
  m_coords : Nat → Option uv_t := fun _ => none
  m_family : List Nat := []
  m_texture : Nat := 0
  m_texture_srv : Nat := 0
  m_scale : ℚ := 0
  m_width : Nat := 0
  m_height : Nat := 0
  m_spacing : Nat := 0
  m_size : Nat := 0
  m_quality : Nat := 0
  m_flags : Nat := 0

/-- Conversion of a character value to the 16-bit `wchar_t` key of the map. A text is the
list of its character values: `0 .. 65535` for a wide string, `-128 .. 127` for the `char`
of a narrow string. -/
def wchar_key (c : Int) : Nat := Int.toNat (c % 65536)

/-- The method `c_fontwrapper::coords`: the recorded rectangle, or the static `null_uv`;
the glyph is converted to the `wchar_t` key. -/
def c_fontwrapper.coords (font : c_fontwrapper) (glyph : Int) : uv_t :=
  match font.m_coords (wchar_key glyph) with
  | some uv => uv
  | none => (0, 0, 0, 0)

/-- The access `m_coords[ key ]`: the rectangle read, and the map afterwards, in which a
missing key has been inserted with a zero rectangle. -/
def coords_index (m : Nat → Option uv_t) (key : Nat) : uv_t × (Nat → Option uv_t) :=
  match m key with
  | some uv => (uv, m)
  | none => ((0, 0, 0, 0), fun k => if k = key then some (0, 0, 0, 0) else m k)

/-- The local variables of the loop of `text_extent`, with the map its accesses update. -/
structure extent_state where
  row_width : ℚ
  width : ℚ
  height : ℚ
  m_coords : Nat → Option uv_t

/-- One iteration of the loop of `c_fontwrapper::text_extent`, for the character `c`. -/
def text_extent_step (font : c_fontwrapper) (row_height : ℚ) (st : extent_state) (c : Int) :
    extent_state :=
  let st := if c = 10 then { st with row_width := 0, height := st.height + row_height } else st
  if c < 32 then st else
  let r := coords_index st.m_coords (wchar_key c)
  let tx1 := r.1.1
  let tx2 := r.1.2.2.1
  let row_width := st.row_width + ((tx2 - tx1) * font.m_width - 2 * font.m_spacing + 1)
  { row_width := row_width, width := if row_width > st.width then row_width else st.width,
    height := st.height, m_coords := r.2 }

/-- The method `c_fontwrapper::text_extent`: the extent and the font afterwards (the accesses
`m_coords[ key ]` insert the keys they miss). -/
def c_fontwrapper.text_extent (font : c_fontwrapper) (text : List Int) :
    point_t × c_fontwrapper :=
  let r := coords_index font.m_coords 32
  let row_height : ℚ := (r.1.2.2.2 - r.1.2.1) * font.m_height
  let st := text.foldl (text_extent_step font row_height)
    { row_width := 0, width := 0, height := row_height, m_coords := r.2 }
  (⟨st.width, st.height⟩, { font with m_coords := st.m_coords })

/-- The local variables of the loop of `push_text`: the cursor, the vertices and indices
stored so far, the three counters and the two buffer sizes. -/
structure text_state where
  corrected_position : point_t
  vtx : List daisy_vtx_t := []
  idx : List Nat := []
  cont_vertices : Nat := 0
  cont_indices : Nat := 0
  cont_primitives : Nat := 0
  vtx_size : Nat
  idx_size : Nat

/-- One iteration of the loop of `c_renderqueue::push_text`, for the character `c`. A zero
`m_scale` makes the quotients `0` here (the source divides floats). -/
def push_text_step (font : c_fontwrapper) (color : color_t) (additional_indices : Nat)
    (start_x : ℚ) (space_coords : uv_t) (st : text_state) (c : Int) : text_state :=
  if c = 10 then
    { st with corrected_position :=
        ⟨start_x, st.corrected_position.y
          + (space_coords.2.2.2 - space_coords.2.1) * font.m_height⟩ }
  else
    let is_space : Bool := (c = 32)
    let coords := font.coords c
    let tx1 := coords.1
    let ty1 := coords.2.1
    let tx2 := coords.2.2.1
    let ty2 := coords.2.2.2
    let w : ℚ := (tx2 - tx1) * font.m_width / font.m_scale
    let h : ℚ := (ty2 - ty1) * font.m_height / font.m_scale
    let x := st.corrected_position.x
    let y := st.corrected_position.y
    let a := additional_indices + st.cont_vertices
    let st := if !is_space then
      { st with
        vtx := st.vtx ++ [ ⟨(x, y + h, 0, 1), color.bgra, (tx1, ty2)⟩,
                           ⟨(x, y, 0, 1), color.bgra, (tx1, ty1)⟩,
                           ⟨(x + w, y + h, 0, 1), color.bgra, (tx2, ty2)⟩,
                           ⟨(x + w, y, 0, 1), color.bgra, (tx2, ty1)⟩ ],
        idx := st.idx ++ [ u16 a, u16 (a + 1), u16 (a + 2), u16 (a + 3), u16 (a + 2),
                           u16 (a + 1) ],
        vtx_size := u32 (st.vtx_size + 4), idx_size := u32 (st.idx_size + 6),
        cont_vertices := u32 (st.cont_vertices + 4), cont_indices := u32 (st.cont_indices + 6),
        cont_primitives := u32 (st.cont_primitives + 2) }
      else st
    { st with corrected_position := ⟨x + (w - 2 * font.m_spacing + 1), y⟩ }

/-- The method `c_renderqueue::push_text`: the queue and the font afterwards. The alignment bits are `TEXT_ALIGNX_CENTER = 1 << 1`, `TEXT_ALIGNX_RIGHT =
1 << 2`, `TEXT_ALIGNY_CENTER = 1 << 4`, `TEXT_ALIGNY_BOTTOM = 1 << 5`. -/
def push_text (g : daisy_t) (q : c_renderqueue) (font : c_fontwrapper) (position : point_t)
    (text : List Int) (color : color_t) (alignment : Nat := 0) :
    Option (c_renderqueue × c_fontwrapper) :=
  match ensure_buffers_capacity g q (u32 (text.length * 4)) (u32 (text.length * 6)) with
  | none => none
  | some q =>
    let additional_indices := begin_batch q font.m_texture_srv
    let measured := font.text_extent text
    let size := measured.1
    let x1 : ℚ := if alignment = 0 then position.x
      else if alignment.testBit 1 then position.x - ⌊(1 / 2 : ℚ) * size.x⌋
      else if alignment.testBit 2 then position.x - ⌊size.x⌋ else position.x
    let y1 : ℚ := if alignment = 0 then position.y
      else if alignment.testBit 4 then position.y - ⌊(1 / 2 : ℚ) * size.y⌋
      else if alignment.testBit 5 then position.y - ⌊size.y⌋ else position.y
    let font := if alignment = 0 then font else measured.2
    let start_x : ℚ := x1 - font.m_spacing
    let space_coords := font.coords 65
    let st := text.foldl (push_text_step font color additional_indices start_x space_coords)
      { corrected_position := ⟨start_x, y1⟩,
        vtx_size := q.m_vtxs.m_size, idx_size := q.m_idxs.m_size }
    let q := { q with
      m_vtxs := { q.m_vtxs with m_data := q.m_vtxs.store st.vtx, m_size := st.vtx_size },
      m_idxs := { q.m_idxs with m_data := q.m_idxs.store st.idx, m_size := st.idx_size } }
    some (end_batch q additional_indices st.cont_vertices st.cont_indices st.cont_primitives
      font.m_texture_srv, font)

/-- The cursor `corrected_position` of `c_renderqueue::push_text` when its loop ends, for the
default alignment (the position is then corrected by the spacing only), on the queue `q` as
it is after `ensure_buffers_capacity`. -/
def push_text_cursor (q : c_renderqueue) (font : c_fontwrapper) (position : point_t)
    (text : List Int) (color : color_t) : point_t :=
  let additional_indices := begin_batch q font.m_texture_srv
  let start_x : ℚ := position.x - font.m_spacing
  let space_coords := font.coords 65
  (text.foldl (push_text_step font color additional_indices start_x space_coords)
    { corrected_position := ⟨start_x, position.y⟩,
      vtx_size := q.m_vtxs.m_size, idx_size := q.m_idxs.m_size }).corrected_position

/-- The x-advance that `push_text` accumulates over a text: the final cursor x minus the
starting cursor x `start_x`. -/
def push_text_advance (q : c_renderqueue) (font : c_fontwrapper) (position : point_t)
    (text : List Int) (color : color_t) : ℚ :=
  (push_text_cursor q font position text color).x - (position.x - font.m_spacing)

/-- A built font with texture handle 7 whose table holds the glyph `A` only. -/
def sample_font : c_fontwrapper :=
  { m_texture := 6, m_texture_srv := 7, m_scale := 1, m_width := 128, m_height := 128,
    m_spacing := 3,
    m_coords := fun k => if k = 65 then some (3 / 128, 0, 16 / 128, 10 / 128) else none }

/-! ### Texture atlas -/

/-- The class `c_texatlas`; `m_coords` is the `unordered_map< uint32_t, uv_t >` as a partial
function on ids. -/
structure c_texatlas where
  m_cursor : point_t := ⟨0, 0⟩
  m_dimensions : point_t := ⟨0, 0⟩
  m_texture : Nat := 0
  m_texture_srv : Nat := 0
  m_max_height : ℚ := 0
  m_coords : Nat → Option uv_t := fun _ => none

/-- One pixel copied by `c_texatlas::append`: the destination row and column in the texture
and the offset of the four source bytes read. -/
structure pixel_copy where
  row : Nat
  column : Nat
  source_offset : Nat
deriving DecidableEq, Repr

/-- The iterations of the two nested loops of `append`, in order: `y` below `dimensions.y`,
and for each `y` the `x` below `dimensions.x` (an `int` counter compared with a `float`). -/
def pixel_iterations (dimensions : point_t) : List (Nat × Nat) :=
  (List.range (Int.toNat ⌈dimensions.y⌉)).flatMap
    (fun y => (List.range (Int.toNat ⌈dimensions.x⌉)).map (fun x => (y, x)))

/-- The body of the nested loops of `append` over the remaining iterations: whether the loops
run to their end, and the pixels copied. The loops stop, and `append` returns `false`, at the
first pixel for which `static_cast< uint32_t >( dimensions.x ) * 4 * y + x * 4 > tex_size`. -/
def copy_pixels (cursor dimensions : point_t) (tex_size : Nat) :
    List (Nat × Nat) → Bool × List pixel_copy
  | [] => (true, [])
  | (y, x) :: rest =>
    let offset := u32 (u32 (Int.toNat ⌊dimensions.x⌋) * 4 * y + x * 4)
    if offset > tex_size then (false, [])
    else
      let r := copy_pixels cursor dimensions tex_size rest
      (r.1, ⟨u32 (Int.toNat ⌊cursor.y⌋) + y, u32 (Int.toNat ⌊cursor.x⌋) + x, offset⟩ :: r.2)

/-- The cursor and the row height after the row wrap at the start of `append`. -/
def c_texatlas.wrapped (a : c_texatlas) (dimensions : point_t) : c_texatlas :=
  if a.m_cursor.x + dimensions.x > a.m_dimensions.x then
    { a with m_cursor := ⟨0, a.m_cursor.y + a.m_max_height⟩, m_max_height := 0 }
  else a

/-- The row height after `if ( m_max_height < dimensions.y ) m_max_height = dimensions.y`. -/
def c_texatlas.raised (a : c_texatlas) (dimensions : point_t) : c_texatlas :=
  if a.m_max_height < dimensions.y then { a with m_max_height := dimensions.y } else a

/-- The method `c_texatlas::append`: the result, the atlas afterwards and the pixels copied
into the mapped texture. `tex_data` tells whether the pointer is non-null. -/
def c_texatlas.append (g : daisy_t) (a : c_texatlas) (uuid : Nat) (dimensions : point_t)
    (tex_data : Bool) (tex_size : Nat) : Bool × c_texatlas × List pixel_copy :=
  if !tex_data || tex_size = 0 then (false, a, []) else
  let a := a.wrapped dimensions
  if a.m_cursor.y + dimensions.y > a.m_dimensions.y then (false, a, []) else
  let a := a.raised dimensions
  if !g.Map a.m_texture then (false, a, []) else
  let copied := copy_pixels a.m_cursor dimensions tex_size (pixel_iterations dimensions)
  if !copied.1 then (false, a, copied.2) else
    let start_uv : point_t :=
      ⟨a.m_cursor.x / a.m_dimensions.x, a.m_cursor.y / a.m_dimensions.y⟩
    let end_uv : point_t :=
      ⟨start_uv.x + dimensions.x / a.m_dimensions.x, start_uv.y + dimensions.y / a.m_dimensions.y⟩
    (true,
     { a with
       m_coords := fun k => if k = uuid then some (start_uv.x, start_uv.y, end_uv.x, end_uv.y)
                            else a.m_coords k,
       m_cursor := ⟨a.m_cursor.x + dimensions.x, a.m_cursor.y⟩ },
     copied.2)

/-- The method `c_texatlas::coords`. -/
def c_texatlas.coords (a : c_texatlas) (uuid : Nat) : uv_t :=
  match a.m_coords uuid with
  | some uv => uv
  | none => (0, 0, 0, 0)

/-- The method `c_texatlas::create`: the result and the atlas afterwards; the map of entries
is not touched. -/
def c_texatlas.create (g : daisy_t) (a : c_texatlas) (dimensions : point_t) :
    Bool × c_texatlas :=
  if !g.s_device then (false, a) else
  let a := { a with m_dimensions := dimensions, m_cursor := ⟨0, 0⟩, m_max_height := 0 }
  let texture := g.CreateTexture2D (u32 (Int.toNat ⌊dimensions.x⌋)) (u32 (Int.toNat ⌊dimensions.y⌋))
  let a := { a with m_texture := texture }
  if texture = 0 then (false, a) else
  let srv := g.CreateShaderResourceView texture
  let a := { a with m_texture_srv := srv }
  if srv = 0 then (false, a) else (true, a)

/-- The method `c_texatlas::reset`. -/
def c_texatlas.reset (g : daisy_t) (a : c_texatlas) (pre_reset : Bool) : Bool × c_texatlas :=
  if !pre_reset then a.create g a.m_dimensions
  else (true, { a with m_texture_srv := 0, m_texture := 0 })

/-- The arguments of one `c_texatlas::append` call. -/
structure atlas_item where
  uuid : Nat
  dimensions : point_t
  tex_data : Bool := true
  tex_size : Nat

/-- Consecutive `append` calls: the atlas after the last one. -/
def append_all (g : daisy_t) : c_texatlas → List atlas_item → c_texatlas
  | a, [] => a
  | a, it :: rest =>
    append_all g (a.append g it.uuid it.dimensions it.tex_data it.tex_size).2.1 rest

/-- The UV rectangle of a rectangle of size `d` placed at `p` in an atlas of `W` by `H`. -/
def uv_at (W H : ℚ) (p d : point_t) : uv_t :=
  (p.x / W, p.y / H, p.x / W + d.x / W, p.y / H + d.y / H)

/-- An atlas of 100 by 100 whose first row holds one rectangle of 90 by 10 with id 1, as
`create( { 100, 100 } )` and `append( 1, { 90, 10 }, data, 3600 )` leave it. -/
def sample_atlas : c_texatlas :=
  { m_cursor := ⟨90, 0⟩, m_dimensions := ⟨100, 100⟩, m_texture := 1, m_texture_srv := 1,
    m_max_height := 10,
    m_coords := fun k => if k = 1 then some (0, 0, 9 / 10, 1 / 10) else none }

/-- The cursor and the row height of the atlas are whole numbers. -/
def c_texatlas.integral (a : c_texatlas) : Prop :=
  ∃ x y m : Nat, a.m_cursor = ⟨(x : ℚ), (y : ℚ)⟩ ∧ a.m_max_height = (m : ℚ)

/-- The pixel lies in the part of the atlas the cursor has left behind: in a row above the
current one, or in the current row to the left of the cursor. -/
def c_texatlas.behind (a : c_texatlas) (p : pixel_copy) : Prop :=
  (p.row : ℚ) < a.m_cursor.y ∨
  ((p.row : ℚ) < a.m_cursor.y + a.m_max_height ∧ (p.column : ℚ) < a.m_cursor.x)

/-- An empty atlas of 100 by 100, as `create( { 100, 100 } )` leaves it. -/
def sample_new_atlas : c_texatlas :=
  { m_dimensions := ⟨100, 100⟩, m_texture := 1, m_texture_srv := 1 }

/-- Three rectangles for an atlas of 100 by 100: the third one starts the second row. -/
def sample_items : List atlas_item :=
  [ { uuid := 1, dimensions := ⟨60, 10⟩, tex_size := 2400 },
    { uuid := 2, dimensions := ⟨30, 20⟩, tex_size := 2400 },
    { uuid := 3, dimensions := ⟨50, 5⟩, tex_size := 1000 } ]

/-! ### Double-buffered queue -/

/-- The class `c_doublebuffer_queue`; the toggle is an `atomic< bool >` without initialiser,
so both values are possible from the start. -/
structure c_doublebuffer_queue where
  m_front_queue : c_renderqueue := {}
  m_back_queue : c_renderqueue := {}
  m_swap_drawlists : Bool := false
deriving DecidableEq

/-- The two member queues of a `c_doublebuffer_queue`, as the targets of a pointer. -/
inductive queue_member where
  | m_front_queue
  | m_back_queue
deriving DecidableEq, Repr

/-- The member queue a `queue_member` names. -/
def c_doublebuffer_queue.member (d : c_doublebuffer_queue) : queue_member → c_renderqueue
  | .m_front_queue => d.m_front_queue
  | .m_back_queue => d.m_back_queue

/-- The method `c_doublebuffer_queue::swap`. -/
def c_doublebuffer_queue.swap (d : c_doublebuffer_queue) : c_doublebuffer_queue :=
  { d with m_swap_drawlists := !d.m_swap_drawlists }

/-- The method `c_doublebuffer_queue::queue`: the member whose address is returned. -/
def c_doublebuffer_queue.queue (d : c_doublebuffer_queue) : queue_member :=
  if !d.m_swap_drawlists then .m_front_queue else .m_back_queue

/-- The member on which `c_doublebuffer_queue::flush` calls `flush`. -/
def c_doublebuffer_queue.flushed (d : c_doublebuffer_queue) : queue_member :=
  if d.m_swap_drawlists then .m_front_queue else .m_back_queue

/-- The method `c_doublebuffer_queue::flush`: the object afterwards and the calls made. -/
def c_doublebuffer_queue.flush (g : daisy_t) (d : c_doublebuffer_queue) :
    c_doublebuffer_queue × List gpu_call :=
  if d.m_swap_drawlists then
    ({ d with m_front_queue := (daisy.flush g d.m_front_queue).1 },
      (daisy.flush g d.m_front_queue).2)
  else
    ({ d with m_back_queue := (daisy.flush g d.m_back_queue).1 },
      (daisy.flush g d.m_back_queue).2)

/-- The method `c_doublebuffer_queue::create`. -/
def c_doublebuffer_queue.create (g : daisy_t) (d : c_doublebuffer_queue)
    (max_verts max_indices : Nat) : Bool × c_doublebuffer_queue :=
  let f := daisy.create g d.m_front_queue max_verts max_indices
  if !f.1 then (false, { d with m_front_queue := f.2 }) else
  let b := daisy.create g d.m_back_queue max_verts max_indices
  (b.1, { d with m_front_queue := f.2, m_back_queue := b.2 })

/-- The method `c_doublebuffer_queue::reset`; the `&&` skips the back queue when the reset
of the front queue fails. -/
def c_doublebuffer_queue.reset (g : daisy_t) (d : c_doublebuffer_queue) (pre_reset : Bool) :
    Bool × c_doublebuffer_queue :=
  let f := daisy.reset g d.m_front_queue pre_reset
  if !f.1 then (false, { d with m_front_queue := f.2 }) else
  let b := daisy.reset g d.m_back_queue pre_reset
  (b.1, { d with m_front_queue := f.2, m_back_queue := b.2 })

/-! ### Glyph atlas build -/

/-- The GDI device context of `create_ex` with a font selected into it, as the answers of the
three GDI calls `paint_or_measure_alphabet` makes on it. -/
structure gdi_font where
  /-- Result of `GetTextExtentPoint32W` for one character: `(cx, cy)`, `none` on failure. -/
  GetTextExtentPoint32W : Nat → Option (Nat × Nat) := fun _ => none
  /-- Result of `GetFontUnicodeRanges( context, nullptr )`: the bytes the glyph set needs. -/
  ranges_bytes : Nat := 0
  /-- Result of `GetFontUnicodeRanges( context, glyph_sets )`: the ranges as pairs
  `(wcLow, cGlyphs)`, `none` on failure. -/
  GetFontUnicodeRanges : Option (List (Nat × Nat)) := none
  /-- Whether `ExtTextOutW` succeeds for a position `x`, `y` and a character. -/
  ExtTextOutW : Nat → Nat → Nat → Bool := fun _ _ _ => true

/-- The GDI calls of `create_ex` that depend on their arguments. -/
structure gdi_t where
  /-- The font `CreateFontA` creates for a height, a weight, the italic flag, a quality and a
  family name, as the device context with that font selected. -/
  CreateFontA : Nat → Nat → Bool → Nat → List Nat → gdi_font := fun _ _ _ _ _ => {}
  /-- Whether `CreateDIBSection` succeeds for a width and a height. -/
  CreateDIBSection : Nat → Nat → Bool := fun _ _ => true

/-- The method `c_fontwrapper::create_gdi_font`, with the selection of the font into the
context: the weight is `FW_BOLD = 700` or `FW_NORMAL = 400`. The height passed is `m_size`. -/
def create_gdi_font (gdi : gdi_t) (font : c_fontwrapper) : gdi_font :=
  gdi.CreateFontA font.m_size (if font.m_flags.testBit 0 then 700 else 400)
    (font.m_flags.testBit 1) font.m_quality font.m_family

/-- The characters the two nested loops of `paint_or_measure_alphabet` visit, in order: for
each range the codes `wcLow .. wcLow + cGlyphs - 1`. The loop variable of the source is the
16-bit `wchar_t` of the range and its bound an `int`: this is the walk for ranges with
`wcLow + cGlyphs` at most 0xFFFF; past that the variable wraps to 0 before it reaches the
bound, and the source loop is left only by a `return`. -/
def glyph_codes (ranges : List (Nat × Nat)) : List Nat :=
  ranges.flatMap (fun r => (List.range r.2).map (fun i => r.1 + i))

/-- The number of low bits a natural number loses when it is rounded to the 24 significant
bits of a `float`: the least `s` with `n / 2 ^ s` below 2^24 (for `n` below 2^88). -/
def float_shift : Nat → Nat → Nat
  | 0, _ => 0
  | fuel + 1, n => if n < 16777216 then 0 else 1 + float_shift fuel (n / 2)

/-- Rounding of a natural number to the nearest number with 24 significant bits, ties to the
even one: the value of the conversion of an integer to `float`, and of a `float` operation
whose exact result is the number times a power of two. -/
def float_round (n : Nat) : Nat :=
  let s := float_shift 64 n
  let q := n / 2 ^ s
  let r := n % 2 ^ s
  let up : Bool := 2 * r > 2 ^ s || (2 * r == 2 ^ s && q % 2 == 1)
  (if up then q + 1 else q) * 2 ^ s

/-- The spacing `static_cast< uint32_t >( ceil( size.cy * 0.3f ) )` for a line height `cy`,
in the single precision of the source: `size.cy` is converted to `float`, the literal `0.3f`
is 10066330 / 2^25, the product is rounded to `float`, and `ceil` is exact. The result can
exceed the ceiling of three tenths of the height by one (16 at `cy = 50`). -/
def spacing_of (cy : Nat) : Nat :=
  (float_round (float_round cy * 10066330) + 33554431) / 33554432

/-- The glyph loop of `paint_or_measure_alphabet` over the remaining characters, from the
layout position `x`, `y`: the return code (`0` done, `1` failure, `2` overflow) and the
character table. Sums of positions and glyph sizes are taken without 32-bit wrap. -/
def layout_glyphs (dc : gdi_font) (font : c_fontwrapper) (measure : Bool) :
    List Nat → Nat → Nat → (Nat → Option uv_t) → Nat × (Nat → Option uv_t)
  | [], _, _, m => (0, m)
  | ch :: rest, x, y, m =>
    match dc.GetTextExtentPoint32W ch with
    | none => layout_glyphs dc font measure rest x y m
    | some (cx, cy) =>
      let wrap : Bool := x + cx + font.m_spacing > font.m_width
      let x := if wrap then font.m_spacing else x
      let y := if wrap then y + cy + 1 else y
      if y + cy > font.m_height then (2, m)
      else if measure then
        layout_glyphs dc font measure rest (x + cx + 2 * font.m_spacing) y m
      else if !dc.ExtTextOutW x y ch then (1, m)
      else
        let uv : uv_t :=
          ( ((x - font.m_spacing : Nat) : ℚ) / font.m_width, ((y : Nat) : ℚ) / font.m_height,
            ((x + cx + font.m_spacing : Nat) : ℚ) / font.m_width,
            ((y + cy : Nat) : ℚ) / font.m_height )
        layout_glyphs dc font measure rest (x + cx + 2 * font.m_spacing) y
          (fun k => if k = u16 ch then some uv else m k)

/-- The method `c_fontwrapper::paint_or_measure_alphabet`: the return code and the font
wrapper afterwards. The character `x` has code 120. -/
def paint_or_measure_alphabet (g : daisy_t) (dc : gdi_font) (font : c_fontwrapper)
    (measure : Bool) : Nat × c_fontwrapper :=
  match dc.GetTextExtentPoint32W 120 with
  | none => (1, font)
  | some (_, cy) =>
    if dc.ranges_bytes = 0 then (1, font)
    else if !g.make_unique dc.ranges_bytes then (1, font)
    else match dc.GetFontUnicodeRanges with
      | none => (1, font)
      | some ranges =>
        let font := { font with m_spacing := spacing_of cy }
        let r := layout_glyphs dc font measure (glyph_codes ranges) font.m_spacing 0 font.m_coords
        (r.1, { font with m_coords := r.2 })

/-- The loop `while ( paint_or_measure_alphabet( gdi_ctx, true ) == 2 )` of `create_ex`, which
doubles `m_width` and `m_height`, run for at most `fuel` measure passes; `none` when it is
still running after them. -/
def measure_doubling (g : daisy_t) (dc : gdi_font) : Nat → c_fontwrapper → Option c_fontwrapper
  | 0, _ => none
  | fuel + 1, font =>
    let r := paint_or_measure_alphabet g dc font true
    if r.1 = 2 then
      measure_doubling g dc fuel
        { r.2 with m_width := u32 (r.2.m_width * 2), m_height := u32 (r.2.m_height * 2) }
    else some r.2

/-- The texture sizes at which the loop `while ( paint_or_measure_alphabet( gdi_ctx, true )
== 2 )` of `create_ex` runs its measure pass, in order, for at most `fuel` passes. -/
def measured_sizes (g : daisy_t) (dc : gdi_font) : Nat → c_fontwrapper → List (Nat × Nat)
  | 0, _ => []
  | fuel + 1, font =>
    let r := paint_or_measure_alphabet g dc font true
    (font.m_width, font.m_height) ::
      (if r.1 = 2 then
        measured_sizes g dc fuel
          { r.2 with m_width := u32 (r.2.m_width * 2), m_height := u32 (r.2.m_height * 2) }
       else [])

/-- The `do ... while ( paint_or_measure_alphabet( gdi_ctx, true ) == 2 )` loop of `create_ex`
at the ceiling dimensions, run for at most `fuel` iterations; `first_iteration` is the local
flag. Every iteration but the first multiplies `m_scale` by `0.9f`, and every iteration
creates the font anew with `create_gdi_font`. -/
def shrink_retry (g : daisy_t) (gdi : gdi_t) :
    Nat → Bool → c_fontwrapper → Option c_fontwrapper
  | 0, _, _ => none
  | fuel + 1, first_iteration, font =>
    let font := if !first_iteration then { font with m_scale := font.m_scale * (9 / 10) } else font
    let dc := create_gdi_font gdi font
    let r := paint_or_measure_alphabet g dc font true
    if r.1 = 2 then shrink_retry g gdi fuel false r.2 else some r.2

/-- The constant `max_texture_size` of `create_ex`. -/
def max_texture_size : Nat := 16384

/-- The method `c_fontwrapper::create_ex`, its two loops run for at most `fuel` passes each:
the result and the font wrapper afterwards, `none` when a loop does not end within the fuel.
The conversion of the rendered bitmap into the texture is not part of the model. -/
def create_ex (g : daisy_t) (gdi : gdi_t) (fuel : Nat) (font : c_fontwrapper) :
    Option (Bool × c_fontwrapper) :=
  if !g.s_device then some (false, font) else
  let font := { font with m_texture_srv := 0, m_texture := 0 }
  let dc := create_gdi_font gdi font
  match measure_doubling g dc fuel { font with m_width := 128, m_height := 128 } with
  | none => none
  | some font =>
    let shrunk :=
      if font.m_width > max_texture_size then
        shrink_retry g gdi fuel true
          { font with m_scale := (max_texture_size : ℚ) / font.m_width,
                      m_width := max_texture_size, m_height := max_texture_size }
      else some font
    match shrunk with
    | none => none
    | some font =>
      let dc := create_gdi_font gdi font
      let font := { font with m_texture := g.CreateTexture2D font.m_width font.m_height }
      if font.m_texture = 0 then some (false, font) else
      let font := { font with m_texture_srv := g.CreateShaderResourceView font.m_texture }
      if font.m_texture_srv = 0 then some (false, font) else
      if !gdi.CreateDIBSection font.m_width font.m_height then some (false, font) else
      let r := paint_or_measure_alphabet g dc font false
      if r.1 ≠ 0 then some (false, r.2) else
      if !g.Map r.2.m_texture then some (false, r.2) else
      some (true, r.2)

/-- The method `c_fontwrapper::create`. -/
def c_fontwrapper.create (g : daisy_t) (gdi : gdi_t) (fuel : Nat) (font : c_fontwrapper)
    (family : List Nat) (height quality flags : Nat) : Option (Bool × c_fontwrapper) :=
  create_ex g gdi fuel
    { font with m_family := family, m_size := height, m_flags := flags, m_quality := quality,
                m_scale := 1, m_spacing := 0 }

/-- The method `c_fontwrapper::reset`. -/
def c_fontwrapper.reset (g : daisy_t) (gdi : gdi_t) (fuel : Nat) (font : c_fontwrapper)
    (pre_reset : Bool) : Option (Bool × c_fontwrapper) :=
  if !pre_reset then create_ex g gdi fuel font
  else some (true, { font with m_texture_srv := 0, m_texture := 0 })

/-- The method `c_fontwrapper::erase`. -/
def c_fontwrapper.erase (font : c_fontwrapper) : c_fontwrapper :=
  { font with m_texture_srv := 0, m_texture := 0, m_coords := fun _ => none,
              m_size := 0, m_spacing := 0, m_flags := 0, m_scale := 1, m_family := [] }

/-- A rasterizer whose fonts have the three glyphs `A`, `B`, `x` (one range `A .. B`, one
range `x`), each `height / 2` wide and `height` high at font height `height`. -/
def sample_gdi : gdi_t :=
  { CreateFontA := fun height _ _ _ _ =>
      { GetTextExtentPoint32W := fun ch =>
          if ch = 65 ∨ ch = 66 ∨ ch = 120 then some (height / 2, height) else none,
        ranges_bytes := 24,
        GetFontUnicodeRanges := some [(65, 2), (120, 1)] } }

/-- A rasterizer whose fonts have two glyphs of height `height`: `W` (code 87), ten times as
wide as it is high, and `x`, half as wide as it is high. -/
def sample_wide_gdi : gdi_t :=
  { CreateFontA := fun height _ _ _ _ =>
      { GetTextExtentPoint32W := fun ch =>
          if ch = 87 then some (10 * height, height)
          else if ch = 120 then some (height / 2, height) else none,
        ranges_bytes := 24,
        GetFontUnicodeRanges := some [(87, 1), (120, 1)] } }

/-- The device context of `sample_gdi` with the font of height 20 selected: the glyphs `A`,
`B`, `x` are 10 wide and 20 high, the spacing is 6. -/
def sample_dc : gdi_font := sample_gdi.CreateFontA 20 400 false 0 []

/-- A font wrapper at the start of the commit pass for `sample_dc`: texture of 128 by 128,
spacing 6, empty table. -/
def sample_commit_font : c_fontwrapper :=
  { m_size := 20, m_scale := 1, m_width := 128, m_height := 128, m_spacing := 6,
    m_texture := 1, m_texture_srv := 1 }

/-- Two font wrappers agree on what the font creation and the measure pass read: the
configuration and the texture dimensions. -/
def same_layout_inputs (a b : c_fontwrapper) : Prop :=
  a.m_size = b.m_size ∧ a.m_flags = b.m_flags ∧ a.m_quality = b.m_quality ∧
  a.m_family = b.m_family ∧ a.m_width = b.m_width ∧ a.m_height = b.m_height

/-- One call on a render queue with its arguments: one of the geometry pushes, `push_scissor`
or `clear`. -/
inductive queue_op where
  | gradient_rectangle (position size : point_t) (c1 c2 c3 c4 : color_t) (texture_srv : Nat)
      (uv_mins uv_maxs : point_t)
  | filled_rectangle (position size : point_t) (col : color_t) (texture_srv : Nat)
      (uv_mins uv_maxs : point_t)
  | filled_triangle (p1 p2 p3 : point_t) (c1 c2 c3 : color_t) (texture_srv : Nat)
      (uv1 uv2 uv3 : point_t)
  | line (p1 p2 : point_t) (col : color_t) (width : ℚ)
  | filled_circle (center : point_t) (radius : ℚ) (segments : Int)
      (center_color outer_color : color_t)
  | text (font : c_fontwrapper) (position : point_t) (text : List Int) (color : color_t)
      (alignment : Nat)
  | scissor (position size : point_t)
  | clear

/-- The queue after one call; `none` when the call does not return. -/
def run_op (g : daisy_t) (q : c_renderqueue) : queue_op → Option c_renderqueue
  | .gradient_rectangle position size c1 c2 c3 c4 texture_srv uv_mins uv_maxs =>
    push_gradient_rectangle g q position size c1 c2 c3 c4 texture_srv uv_mins uv_maxs
  | .filled_rectangle position size col texture_srv uv_mins uv_maxs =>
    push_filled_rectangle g q position size col texture_srv uv_mins uv_maxs
  | .filled_triangle p1 p2 p3 c1 c2 c3 texture_srv uv1 uv2 uv3 =>
    push_filled_triangle g q p1 p2 p3 c1 c2 c3 texture_srv uv1 uv2 uv3
  | .line p1 p2 col width => push_line g q p1 p2 col width
  | .filled_circle center radius segments center_color outer_color =>
    push_filled_circle g q center radius segments center_color outer_color
  | .text font position text color alignment =>
    (push_text g q font position text color alignment).map (fun r => r.1)
  | .scissor position size => some (push_scissor q position size)
  | .clear => some (clear q)

/-- The queue after a sequence of calls, made one after the other; `none` when one of them
does not return. -/
def run_ops (g : daisy_t) : c_renderqueue → List queue_op → Option c_renderqueue
  | q, [] => some q
  | q, op :: rest =>
    match run_op g q op with
    | none => none
    | some q1 => run_ops g q1 rest

/-- The number of vertices the stores of a call can write: 4 for a rectangle or a line, 3 for
a triangle, the centre and one per segment for a circle, 4 per character for a text. -/
def op_vertices : queue_op → Nat
  | .gradient_rectangle _ _ _ _ _ _ _ _ _ => 4
  | .filled_rectangle _ _ _ _ _ _ => 4
  | .filled_triangle _ _ _ _ _ _ _ _ _ _ => 3
  | .line _ _ _ _ => 4
  | .filled_circle _ _ segments _ _ => 1 + Int.toNat segments
  | .text _ _ text _ _ => 4 * text.length
  | .scissor _ _ => 0
  | .clear => 0

/-- The number of indices the stores of a call can write: 6 for a rectangle or a line, 3 for
a triangle, 3 per segment for a circle, 6 per character for a text. -/
def op_indices : queue_op → Nat
  | .gradient_rectangle _ _ _ _ _ _ _ _ _ => 6
  | .filled_rectangle _ _ _ _ _ _ => 6
  | .filled_triangle _ _ _ _ _ _ _ _ _ _ => 3
  | .line _ _ _ _ => 6
  | .filled_circle _ _ segments _ _ => 3 * Int.toNat segments
  | .text _ _ text _ _ => 6 * text.length
  | .scissor _ _ => 0
  | .clear => 0

/-- Every index found in the index range of a descriptor (the slots from the sum of the index
counts of the descriptors before it, as many as its own index count) is below the vertex
count of that descriptor. -/
def c_renderqueue.indices_in_batch (q : c_renderqueue) : Prop :=
  ∀ pre d post, q.m_drawcalls = pre ++ d :: post →
    ∀ s v, (pre.map tri_index_count).sum ≤ s →
      s < (pre.map tri_index_count).sum + tri_index_count d →
      q.m_idxs.slot s = some v → v < tri_vertex_count d

/-- The counts of the descriptors add up to the sizes of the two buffers, the indices of each
batch are below its vertex count, and a batch with indices has vertices. -/
def c_renderqueue.consistent (q : c_renderqueue) : Prop :=
  (q.m_drawcalls.map tri_vertex_count).sum = q.m_vtxs.m_size ∧
  (q.m_drawcalls.map tri_index_count).sum = q.m_idxs.m_size ∧
  q.indices_in_batch ∧
  ∀ d ∈ q.m_drawcalls, tri_index_count d ≠ 0 → tri_vertex_count d ≠ 0

/-- A rectangle, a scissor, a triangle with texture 7, a circle of 5 segments and a line. -/
def sample_ops : List queue_op :=
  [ .filled_rectangle ⟨10, 10⟩ ⟨20, 20⟩ {} 0 ⟨0, 0⟩ ⟨1, 1⟩,
    .scissor ⟨0, 0⟩ ⟨64, 48⟩,
    .filled_triangle ⟨0, 0⟩ ⟨8, 0⟩ ⟨0, 8⟩ {} {} {} 7 ⟨0, 0⟩ ⟨1, 0⟩ ⟨0, 1⟩,
    .filled_circle ⟨30, 30⟩ 5 5 {} {},
    .line ⟨0, 0⟩ ⟨5, 5⟩ {} 1 ]

theorem u32_le (n : Nat) : u32 n ≤ n := Nat.mod_le _ _

theorem u32_of_lt {n : Nat} (h : n < 4294967296) : u32 n = n := Nat.mod_eq_of_lt h

/-- The doubling loop stops at once when the capacity already suffices. -/
theorem grow_capacity_of_le {need capacity : Nat} (fuel : Nat) (h : need ≤ capacity) :
    grow_capacity need (fuel + 1) capacity = some capacity := by
  simp [grow_capacity, Nat.not_lt.mpr h]

/-- For a non-zero capacity and a requirement of at most 2^31 the doubling loop stops, at the
capacity times the least power of two that reaches the requirement. -/
theorem grow_capacity_spec (need : Nat) (hneed : need ≤ 2147483648) :
    ∀ (fuel capacity : Nat), 1 ≤ capacity → need ≤ capacity * 2 ^ fuel →
      ∃ k, k ≤ fuel ∧ grow_capacity need (fuel + 1) capacity = some (capacity * 2 ^ k) ∧
        need ≤ capacity * 2 ^ k ∧ ∀ j, j < k → capacity * 2 ^ j < need := by
  intro fuel
  induction fuel with
  | zero =>
    intro capacity _ h
    refine ⟨0, le_refl _, ?_, by simpa using h, by intro j hj; omega⟩
    simp only [pow_zero, Nat.mul_one] at h ⊢
    exact grow_capacity_of_le 0 h
  | succ fuel ih =>
    intro capacity hc h
    by_cases hle : need ≤ capacity
    · exact ⟨0, Nat.zero_le _, by simpa using grow_capacity_of_le (fuel + 1) hle,
        by simpa using hle, by intro j hj; omega⟩
    · have hlt : capacity < need := Nat.lt_of_not_le hle
      have hdouble : u32 (capacity * 2) = capacity * 2 := u32_of_lt (by omega)
      have h2 : need ≤ capacity * 2 * 2 ^ fuel := by
        have : capacity * 2 ^ (fuel + 1) = capacity * 2 * 2 ^ fuel := by ring
        omega
      obtain ⟨k, hk, hrun, hreach, hmin⟩ := ih (capacity * 2) (by omega) h2
      have hpow : capacity * 2 * 2 ^ k = capacity * 2 ^ (k + 1) := by ring
      refine ⟨k + 1, by omega, ?_, by omega, ?_⟩
      · rw [grow_capacity, if_pos hlt, hdouble, hrun, hpow]
      · intro j hj
        cases j with
        | zero => simpa using hlt
        | succ j =>
          have := hmin j (by omega)
          have hj2 : capacity * 2 * 2 ^ j = capacity * 2 ^ (j + 1) := by ring
          omega

/-- When the doubling loop stops, the capacity it leaves reaches the requirement. -/
theorem grow_capacity_reaches (need : Nat) :
    ∀ (fuel capacity result : Nat), grow_capacity need fuel capacity = some result →
      need ≤ result := by
  intro fuel
  induction fuel with
  | zero => intro capacity result h; simp [grow_capacity] at h
  | succ fuel ih =>
    intro capacity result h
    rw [grow_capacity] at h
    by_cases hlt : need > capacity
    · rw [if_pos hlt] at h
      exact ih _ _ h
    · rw [if_neg hlt] at h
      have : capacity = result := by simpa using h
      omega

/-- The doubling loop runs out of `fuel` exactly when the requirement exceeds each of the
first `fuel` capacities the loop goes through. -/
theorem grow_capacity_none_iff (need : Nat) :
    ∀ (fuel capacity : Nat), grow_capacity need fuel capacity = none ↔
      ∀ j, j < fuel → need > (fun c => u32 (c * 2))^[j] capacity := by
  intro fuel
  induction fuel with
  | zero => intro capacity; simp [grow_capacity]
  | succ fuel ih =>
    intro capacity
    rw [grow_capacity]
    by_cases hgt : need > capacity
    · rw [if_pos hgt, ih]
      constructor
      · intro h j hj
        cases j with
        | zero => simpa using hgt
        | succ j => simpa [Function.iterate_succ_apply] using h j (by omega)
      · intro h j hj
        simpa [Function.iterate_succ_apply] using h (j + 1) (by omega)
    · rw [if_neg hgt]
      constructor
      · intro h; simp at h
      · intro h; exact absurd (by simpa using h 0 (by omega)) hgt

/-- The capacity after `j ≥ 1` doublings in 32 bits. -/
theorem doubled_capacity (capacity : Nat) :
    ∀ j, 1 ≤ j → (fun c => u32 (c * 2))^[j] capacity = u32 (capacity * 2 ^ j) := by
  intro j hj
  induction j with
  | zero => omega
  | succ j ih =>
    rw [Function.iterate_succ_apply']
    by_cases h0 : j = 0
    · subst h0; simp
    · rw [ih (by omega)]
      have e : capacity * 2 ^ (j + 1) = capacity * 2 ^ j * 2 := by ring
      rw [e]
      generalize capacity * 2 ^ j = m
      simp only [u32]
      omega

/-- A doubling loop still running after `grow_fuel` iterations never stops: the capacity is 0
from the 32nd doubling on. -/
theorem grow_capacity_diverges (need capacity : Nat)
    (h : grow_capacity need grow_fuel capacity = none) :
    ∀ fuel, grow_capacity need fuel capacity = none := by
  intro fuel
  rw [grow_capacity_none_iff] at h ⊢
  intro j hj
  by_cases hlt : j < grow_fuel
  · exact h j hlt
  · have h32 := h 32 (by decide)
    have hz : ∀ k, 32 ≤ k → (fun c => u32 (c * 2))^[k] capacity = 0 := by
      intro k hk
      rw [doubled_capacity capacity k (by omega)]
      obtain ⟨d, rfl⟩ := Nat.exists_eq_add_of_le hk
      have : capacity * 2 ^ (32 + d) = 4294967296 * (capacity * 2 ^ d) := by
        rw [pow_add]; ring
      simp [u32, this]
    have hj32 : 32 ≤ j := by
      have : grow_fuel = 33 := rfl
      omega
    rw [hz j hj32]
    rw [hz 32 (le_refl _)] at h32
    exact h32

/-- A doubling loop that stops within some fuel stops with the same capacity under more. -/
theorem grow_capacity_mono (need : Nat) :
    ∀ (fuel capacity result : Nat), grow_capacity need fuel capacity = some result →
      grow_capacity need (fuel + 1) capacity = some result := by
  intro fuel
  induction fuel with
  | zero => intro capacity result h; simp [grow_capacity] at h
  | succ fuel ih =>
    intro capacity result h
    rw [grow_capacity] at h ⊢
    by_cases hgt : need > capacity
    · rw [if_pos hgt] at h ⊢
      exact ih _ _ h
    · rw [if_neg hgt] at h ⊢
      exact h

/-- Slots below `size` of the reallocated block are those of the old block. -/
theorem reallocated_slot {α : Type} (zero : α) (capacity size : Nat) (old : Option (List α))
    (i : Nat) (v : α) (hi : i < size) (hcap : i < capacity) (hold : (old.getD [])[i]? = some v) :
    (reallocated zero capacity size old)[i]? = some v := by
  simp [reallocated, List.getElem?_map, List.getElem?_range hcap, hi,
    List.getD_eq_getElem?_getD, hold]

theorem reallocated_length {α : Type} (zero : α) (capacity size : Nat) (old : Option (List α)) :
    (reallocated zero capacity size old).length = capacity := by
  simp [reallocated]

/-- What one block of `ensure_buffers_capacity` leaves when it returns. -/
theorem ensure_capacity_frame {α : Type} (g : daisy_t) (zero : α) (slot_bytes : Nat)
    (buf : renderbuffer_t α) (realloc : Bool) (to_add : Nat) (r : renderbuffer_t α × Bool)
    (h : ensure_capacity g zero slot_bytes buf realloc to_add = some r) :
    r.1.m_size = buf.m_size ∧ u32 (buf.m_size + to_add) ≤ r.1.m_capacity ∧
    (u32 (buf.m_size + to_add) ≤ buf.m_capacity → r = (buf, realloc)) ∧
    (buf.m_capacity < u32 (buf.m_size + to_add) →
      (g.make_unique (r.1.m_capacity * slot_bytes) = true →
        r.2 = true ∧
        r.1.m_data = some (reallocated zero r.1.m_capacity buf.m_size buf.m_data)) ∧
      (g.make_unique (r.1.m_capacity * slot_bytes) = false →
        r.2 = realloc ∧ r.1.m_data = buf.m_data)) := by
  unfold ensure_capacity at h
  by_cases hgt : u32 (buf.m_size + to_add) > buf.m_capacity
  · rw [if_pos hgt] at h
    cases hrun : grow_capacity (u32 (buf.m_size + to_add)) grow_fuel buf.m_capacity with
    | none => simp [hrun] at h
    | some capacity =>
      have hreach := grow_capacity_reaches _ _ _ _ hrun
      simp only [hrun] at h
      by_cases hal : g.make_unique (capacity * slot_bytes) = true
      · rw [if_pos hal] at h
        have hr := (Option.some.inj h).symm
        subst hr
        refine ⟨rfl, hreach, fun hle => absurd hgt (Nat.not_lt.mpr hle), fun _ => ⟨fun _ => ⟨rfl, rfl⟩, ?_⟩⟩
        intro hfalse
        simp [hal] at hfalse
      · rw [if_neg hal] at h
        have hr := (Option.some.inj h).symm
        subst hr
        refine ⟨rfl, hreach, fun hle => absurd hgt (Nat.not_lt.mpr hle), fun _ => ⟨?_, fun _ => ⟨rfl, rfl⟩⟩⟩
        intro htrue
        exact absurd htrue hal
  · rw [if_neg hgt] at h
    have hr := (Option.some.inj h).symm
    subst hr
    exact ⟨rfl, Nat.not_lt.mp hgt, fun _ => rfl, fun hlt => absurd hlt hgt⟩

/-- For a non-zero capacity and a requirement below 2^31, one block of
`ensure_buffers_capacity` returns, with the capacity times the least sufficient power of two. -/
theorem ensure_capacity_total {α : Type} (g : daisy_t) (zero : α) (slot_bytes : Nat)
    (buf : renderbuffer_t α) (realloc : Bool) (to_add : Nat)
    (hc : 1 ≤ buf.m_capacity) (hn : buf.m_size + to_add < 2147483648) :
    ∃ r k, ensure_capacity g zero slot_bytes buf realloc to_add = some r ∧
      r.1.m_capacity = buf.m_capacity * 2 ^ k ∧ buf.m_size + to_add ≤ buf.m_capacity * 2 ^ k ∧
      ∀ j, j < k → buf.m_capacity * 2 ^ j < buf.m_size + to_add := by
  have hu : u32 (buf.m_size + to_add) = buf.m_size + to_add := u32_of_lt (by omega)
  have hbig : buf.m_size + to_add ≤ buf.m_capacity * 2 ^ 32 := by
    have : buf.m_capacity * 1 ≤ buf.m_capacity * 2 ^ 32 := Nat.mul_le_mul_left _ (by norm_num)
    omega
  obtain ⟨k, _, hrun, hreach, hmin⟩ :=
    grow_capacity_spec (buf.m_size + to_add) (by omega) 32 buf.m_capacity hc hbig
  unfold ensure_capacity
  rw [hu]
  by_cases hgt : buf.m_size + to_add > buf.m_capacity
  · rw [if_pos hgt]
    have hfuel : grow_fuel = 32 + 1 := rfl
    rw [hfuel, hrun]
    by_cases hal : g.make_unique (buf.m_capacity * 2 ^ k * slot_bytes) = true
    · simp only [hal, if_true]
      exact ⟨_, k, rfl, rfl, hreach, hmin⟩
    · simp only [hal]
      exact ⟨_, k, rfl, rfl, hreach, hmin⟩
  · rw [if_neg hgt]
    refine ⟨_, 0, rfl, by simp, by simpa using Nat.not_lt.mp hgt, by intro j hj; omega⟩

/-- With a working allocator, one block of `ensure_buffers_capacity` keeps the block in step
with the capacity and keeps every slot below `m_size`. -/
theorem ensure_capacity_owns {α : Type} (g : daisy_t) (zero : α) (slot_bytes : Nat)
    (buf : renderbuffer_t α) (realloc : Bool) (to_add : Nat) (r : renderbuffer_t α × Bool)
    (h : ensure_capacity g zero slot_bytes buf realloc to_add = some r)
    (hal : ∀ n, g.make_unique n = true) (hown : buf.owns)
    (hn : buf.m_size + to_add < 4294967296) :
    r.1.owns ∧ ∀ i v, i < buf.m_size → buf.slot i = some v → r.1.slot i = some v := by
  obtain ⟨_, hreach, hsame, hgrow⟩ := ensure_capacity_frame g zero slot_bytes buf realloc to_add r h
  have hu : u32 (buf.m_size + to_add) = buf.m_size + to_add := u32_of_lt hn
  rw [hu] at hreach hsame hgrow
  by_cases hle : buf.m_size + to_add ≤ buf.m_capacity
  · rw [hsame hle]
    exact ⟨hown, fun i v _ hv => hv⟩
  · obtain ⟨_, hdata⟩ := (hgrow (Nat.lt_of_not_le hle)).1 (hal _)
    refine ⟨⟨_, hdata, reallocated_length _ _ _ _⟩, ?_⟩
    intro i v hi hv
    simp only [renderbuffer_t.slot, hdata, Option.getD_some]
    exact reallocated_slot zero _ _ _ i v hi (by omega) hv

/-- For non-zero capacities and requirements below 2^31, `ensure_buffers_capacity` returns; it
touches the capacities, the blocks and the reallocation flags only. -/
theorem ensure_buffers_capacity_total (g : daisy_t) (q : c_renderqueue) (va ia : Nat)
    (hcv : 1 ≤ q.m_vtxs.m_capacity) (hci : 1 ≤ q.m_idxs.m_capacity)
    (hv : q.m_vtxs.m_size + va < 2147483648) (hi : q.m_idxs.m_size + ia < 2147483648) :
    ∃ q1, ensure_buffers_capacity g q va ia = some q1 ∧
      ensure_capacity g zero_vtx 28 q.m_vtxs q.m_realloc_vtx va
        = some (q1.m_vtxs, q1.m_realloc_vtx) ∧
      ensure_capacity g 0 2 q.m_idxs q.m_realloc_idx ia = some (q1.m_idxs, q1.m_realloc_idx) ∧
      q1.m_drawcalls = q.m_drawcalls ∧ q1.m_update = q.m_update ∧
      q1.m_vertex_buffer = q.m_vertex_buffer ∧ q1.m_index_buffer = q.m_index_buffer ∧
      q1.m_constant_buffer = q.m_constant_buffer ∧
      q1.m_vtxs.m_size = q.m_vtxs.m_size ∧ q1.m_idxs.m_size = q.m_idxs.m_size ∧
      1 ≤ q1.m_vtxs.m_capacity ∧ 1 ≤ q1.m_idxs.m_capacity ∧
      q.m_vtxs.m_size + va ≤ q1.m_vtxs.m_capacity ∧
      q.m_idxs.m_size + ia ≤ q1.m_idxs.m_capacity := by
  obtain ⟨rv, kv, hrv, hcapv, hreachv, _⟩ :=
    ensure_capacity_total g zero_vtx 28 q.m_vtxs q.m_realloc_vtx va hcv hv
  obtain ⟨ri, ki, hri, hcapi, hreachi, _⟩ :=
    ensure_capacity_total g 0 2 q.m_idxs q.m_realloc_idx ia hci hi
  have hsv := (ensure_capacity_frame _ _ _ _ _ _ _ hrv).1
  have hsi := (ensure_capacity_frame _ _ _ _ _ _ _ hri).1
  have hpv : 1 ≤ q.m_vtxs.m_capacity * 2 ^ kv := Nat.mul_pos hcv (Nat.pos_pow_of_pos _ (by norm_num))
  have hpi : 1 ≤ q.m_idxs.m_capacity * 2 ^ ki := Nat.mul_pos hci (Nat.pos_pow_of_pos _ (by norm_num))
  refine ⟨{ q with m_vtxs := rv.1, m_realloc_vtx := rv.2, m_idxs := ri.1, m_realloc_idx := ri.2 },
    ?_, hrv, hri, rfl, rfl, rfl, rfl, rfl, hsv, hsi, ?_, ?_, ?_, ?_⟩
  · simp [ensure_buffers_capacity, hrv, hri]
  · simpa [hcapv] using hpv
  · simpa [hcapi] using hpi
  · simpa [hcapv] using hreachv
  · simpa [hcapi] using hreachi

/-- A returning `ensure_buffers_capacity` is the two blocks run one after the other. -/
theorem ensure_buffers_capacity_inv (g : daisy_t) (q q1 : c_renderqueue) (va ia : Nat)
    (h : ensure_buffers_capacity g q va ia = some q1) :
    ensure_capacity g zero_vtx 28 q.m_vtxs q.m_realloc_vtx va
      = some (q1.m_vtxs, q1.m_realloc_vtx) ∧
    ensure_capacity g 0 2 q.m_idxs q.m_realloc_idx ia = some (q1.m_idxs, q1.m_realloc_idx) ∧
    q1.m_drawcalls = q.m_drawcalls ∧ q1.m_update = q.m_update ∧
    q1.m_vertex_buffer = q.m_vertex_buffer ∧ q1.m_index_buffer = q.m_index_buffer ∧
    q1.m_constant_buffer = q.m_constant_buffer := by
  unfold ensure_buffers_capacity at h
  cases hrv : ensure_capacity g zero_vtx 28 q.m_vtxs q.m_realloc_vtx va with
  | none => simp [hrv] at h
  | some rv =>
    cases hri : ensure_capacity g 0 2 q.m_idxs q.m_realloc_idx ia with
    | none => simp [hrv, hri] at h
    | some ri =>
      simp only [hrv, hri] at h
      have hq := (Option.some.inj h).symm
      subst hq
      exact ⟨rfl, rfl, rfl, rfl, rfl, rfl, rfl⟩

/-- No growth is needed: `ensure_buffers_capacity` returns the queue as it is. -/
theorem ensure_buffers_capacity_of_le (g : daisy_t) (q : c_renderqueue) (va ia : Nat)
    (hv : q.m_vtxs.m_size + va ≤ q.m_vtxs.m_capacity)
    (hi : q.m_idxs.m_size + ia ≤ q.m_idxs.m_capacity) :
    ensure_buffers_capacity g q va ia = some q := by
  have h1 : ¬ u32 (q.m_vtxs.m_size + va) > q.m_vtxs.m_capacity := by
    have := u32_le (q.m_vtxs.m_size + va); omega
  have h2 : ¬ u32 (q.m_idxs.m_size + ia) > q.m_idxs.m_capacity := by
    have := u32_le (q.m_idxs.m_size + ia); omega
  simp [ensure_buffers_capacity, ensure_capacity, h1, h2]

/-- C8: for capacities of at least 1 and requests with `size + request` below 2^31 (for the
vertex buffer and for the index buffer, each on its own values), `ensure_buffers_capacity`
returns with the capacity equal to the old capacity times `2 ^ k` for the least `k` such that
`size + request` is at most that product; so the request fits on return, and the capacity grows
by doubling, not to the exact requirement. The precondition `size ≤ capacity` is not needed. -/
theorem ensure_buffers_capacity_doubles (g : daisy_t) (q : c_renderqueue) (va ia : Nat)
    (hcv : 1 ≤ q.m_vtxs.m_capacity) (hci : 1 ≤ q.m_idxs.m_capacity)
    (hv : q.m_vtxs.m_size + va < 2 ^ 31) (hi : q.m_idxs.m_size + ia < 2 ^ 31) :
    ∃ q1 kv ki, ensure_buffers_capacity g q va ia = some q1 ∧
      q1.m_vtxs.m_capacity = q.m_vtxs.m_capacity * 2 ^ kv ∧
      q.m_vtxs.m_size + va ≤ q1.m_vtxs.m_capacity ∧
      (∀ j, j < kv → q.m_vtxs.m_capacity * 2 ^ j < q.m_vtxs.m_size + va) ∧
      q1.m_idxs.m_capacity = q.m_idxs.m_capacity * 2 ^ ki ∧
      q.m_idxs.m_size + ia ≤ q1.m_idxs.m_capacity ∧
      (∀ j, j < ki → q.m_idxs.m_capacity * 2 ^ j < q.m_idxs.m_size + ia) := by
  obtain ⟨rv, kv, hrv, hcapv, hreachv, hminv⟩ :=
    ensure_capacity_total g zero_vtx 28 q.m_vtxs q.m_realloc_vtx va hcv (by simpa using hv)
  obtain ⟨ri, ki, hri, hcapi, hreachi, hmini⟩ :=
    ensure_capacity_total g 0 2 q.m_idxs q.m_realloc_idx ia hci (by simpa using hi)
  refine ⟨{ q with m_vtxs := rv.1, m_realloc_vtx := rv.2, m_idxs := ri.1, m_realloc_idx := ri.2 },
    kv, ki, ?_, hcapv, ?_, hminv, hcapi, ?_, hmini⟩
  · simp [ensure_buffers_capacity, hrv, hri]
  · simpa [hcapv] using hreachv
  · simpa [hcapi] using hreachi

/-- Witness of C8: a vertex buffer of capacity 3 holding 2 slots asked for 5 more grows to 12
(3, 6, 12), an index buffer of capacity 5 holding 5 slots asked for 6 more grows to 20. -/
theorem ensure_buffers_capacity_doubles_witness :
    ∃ q1 kv ki, ensure_buffers_capacity {}
        { m_vtxs := { m_capacity := 3, m_size := 2 },
          m_idxs := { m_capacity := 5, m_size := 5 } } 5 6 = some q1 ∧
      q1.m_vtxs.m_capacity = 3 * 2 ^ kv ∧ 2 + 5 ≤ q1.m_vtxs.m_capacity ∧
      (∀ j, j < kv → 3 * 2 ^ j < 2 + 5) ∧
      q1.m_idxs.m_capacity = 5 * 2 ^ ki ∧ 5 + 6 ≤ q1.m_idxs.m_capacity ∧
      (∀ j, j < ki → 5 * 2 ^ j < 5 + 6) :=
  ensure_buffers_capacity_doubles {}
    { m_vtxs := { m_capacity := 3, m_size := 2 }, m_idxs := { m_capacity := 5, m_size := 5 } }
    5 6 (by decide) (by decide) (by decide) (by decide)

/-- C9: `ensure_buffers_capacity` (requests that do not wrap the 32-bit sum) never changes a
size counter nor a slot below the size. When `size + k` is at most the capacity for both
buffers it returns the queue unchanged; for non-zero capacities and requests below 2^31 it
returns; and whenever it returns, a buffer that needed no growth is as before with its
reallocation flag, and a buffer that was given larger storage has its reallocation flag set
and owns a block of exactly the new capacity, holding the old slots below the size. -/
theorem ensure_buffers_capacity_preserves (g : daisy_t) (q : c_renderqueue) (va ia : Nat)
    (hv : q.m_vtxs.m_size + va < 2 ^ 32) (hi : q.m_idxs.m_size + ia < 2 ^ 32) :
    (q.m_vtxs.m_size + va ≤ q.m_vtxs.m_capacity → q.m_idxs.m_size + ia ≤ q.m_idxs.m_capacity →
      ensure_buffers_capacity g q va ia = some q) ∧
    (1 ≤ q.m_vtxs.m_capacity → 1 ≤ q.m_idxs.m_capacity →
      q.m_vtxs.m_size + va < 2 ^ 31 → q.m_idxs.m_size + ia < 2 ^ 31 →
      ∃ q1, ensure_buffers_capacity g q va ia = some q1) ∧
    ∀ q1, ensure_buffers_capacity g q va ia = some q1 →
      q1.m_vtxs.m_size = q.m_vtxs.m_size ∧ q1.m_idxs.m_size = q.m_idxs.m_size ∧
      (∀ i v, i < q.m_vtxs.m_size → q.m_vtxs.slot i = some v → q1.m_vtxs.slot i = some v) ∧
      (∀ i v, i < q.m_idxs.m_size → q.m_idxs.slot i = some v → q1.m_idxs.slot i = some v) ∧
      (q.m_vtxs.m_size + va ≤ q.m_vtxs.m_capacity →
        q1.m_vtxs = q.m_vtxs ∧ q1.m_realloc_vtx = q.m_realloc_vtx) ∧
      (q.m_idxs.m_size + ia ≤ q.m_idxs.m_capacity →
        q1.m_idxs = q.m_idxs ∧ q1.m_realloc_idx = q.m_realloc_idx) ∧
      (q.m_vtxs.m_capacity < q.m_vtxs.m_size + va →
        g.make_unique (q1.m_vtxs.m_capacity * 28) = true →
        q1.m_realloc_vtx = true ∧ q1.m_vtxs.owns) ∧
      (q.m_idxs.m_capacity < q.m_idxs.m_size + ia →
        g.make_unique (q1.m_idxs.m_capacity * 2) = true →
        q1.m_realloc_idx = true ∧ q1.m_idxs.owns) := by
  have huv : u32 (q.m_vtxs.m_size + va) = q.m_vtxs.m_size + va := u32_of_lt (by simpa using hv)
  have hui : u32 (q.m_idxs.m_size + ia) = q.m_idxs.m_size + ia := u32_of_lt (by simpa using hi)
  refine ⟨ensure_buffers_capacity_of_le g q va ia, ?_, ?_⟩
  · intro hcv hci hv31 hi31
    obtain ⟨q1, hq1, _⟩ := ensure_buffers_capacity_total g q va ia hcv hci
      (by simpa using hv31) (by simpa using hi31)
    exact ⟨q1, hq1⟩
  · intro q1 hq1
    obtain ⟨hrv, hri, _⟩ := ensure_buffers_capacity_inv g q q1 va ia hq1
    obtain ⟨hsv, hreachv, hsamev, hgrowv⟩ := ensure_capacity_frame _ _ _ _ _ _ _ hrv
    obtain ⟨hsi, hreachi, hsamei, hgrowi⟩ := ensure_capacity_frame _ _ _ _ _ _ _ hri
    rw [huv] at hreachv hsamev hgrowv
    rw [hui] at hreachi hsamei hgrowi
    simp only at hsv hsi hreachv hreachi hgrowv hgrowi
    have slots : ∀ {α : Type} (b b1 : renderbuffer_t α) (zero : α) (add : Nat),
        b.m_size + add ≤ b1.m_capacity →
        (b1.m_data = b.m_data ∨ b1.m_data = some (reallocated zero b1.m_capacity b.m_size b.m_data)) →
        ∀ i v, i < b.m_size → b.slot i = some v → b1.slot i = some v := by
      intro α b b1 zero add hcap hdata i v hlt hslot
      rcases hdata with hd | hd
      · simpa [renderbuffer_t.slot, hd] using hslot
      · simp only [renderbuffer_t.slot, hd, Option.getD_some]
        exact reallocated_slot zero _ _ _ i v hlt (by omega) hslot
    have datav : q1.m_vtxs.m_data = q.m_vtxs.m_data ∨ q1.m_vtxs.m_data
        = some (reallocated zero_vtx q1.m_vtxs.m_capacity q.m_vtxs.m_size q.m_vtxs.m_data) := by
      by_cases hle : q.m_vtxs.m_size + va ≤ q.m_vtxs.m_capacity
      · left; have := hsamev hle; simp only [Prod.mk.injEq] at this; rw [this.1]
      · cases hal : g.make_unique (q1.m_vtxs.m_capacity * 28) with
        | true => right; exact ((hgrowv (Nat.lt_of_not_le hle)).1 hal).2
        | false => left; exact ((hgrowv (Nat.lt_of_not_le hle)).2 hal).2
    have datai : q1.m_idxs.m_data = q.m_idxs.m_data ∨ q1.m_idxs.m_data
        = some (reallocated 0 q1.m_idxs.m_capacity q.m_idxs.m_size q.m_idxs.m_data) := by
      by_cases hle : q.m_idxs.m_size + ia ≤ q.m_idxs.m_capacity
      · left; have := hsamei hle; simp only [Prod.mk.injEq] at this; rw [this.1]
      · cases hal : g.make_unique (q1.m_idxs.m_capacity * 2) with
        | true => right; exact ((hgrowi (Nat.lt_of_not_le hle)).1 hal).2
        | false => left; exact ((hgrowi (Nat.lt_of_not_le hle)).2 hal).2
    refine ⟨hsv, hsi, slots _ _ zero_vtx va hreachv datav, slots _ _ 0 ia hreachi datai,
      ?_, ?_, ?_, ?_⟩
    · intro hle; have := hsamev hle; simp only [Prod.mk.injEq] at this; exact this
    · intro hle; have := hsamei hle; simp only [Prod.mk.injEq] at this; exact this
    · intro hlt hal
      obtain ⟨hflag, hdata⟩ := (hgrowv hlt).1 hal
      exact ⟨hflag, _, hdata, reallocated_length _ _ _ _⟩
    · intro hlt hal
      obtain ⟨hflag, hdata⟩ := (hgrowi hlt).1 hal
      exact ⟨hflag, _, hdata, reallocated_length _ _ _ _⟩

/-- Witness of C9: on `sample_full_queue`, a request for 4 vertices and 6 indices returns;
the vertex buffer is reallocated (flag set, both old slots kept, size still 2) and the index
buffer, which has room, is untouched. -/
theorem ensure_buffers_capacity_preserves_witness :
    ∃ q1, ensure_buffers_capacity {} sample_full_queue 4 6 = some q1 ∧
      q1.m_vtxs.m_size = 2 ∧
      q1.m_vtxs.slot 0 = some ⟨(1, 2, 0, 1), 7, (0, 0)⟩ ∧
      q1.m_vtxs.slot 1 = some ⟨(3, 4, 0, 1), 8, (1, 1)⟩ ∧
      q1.m_realloc_vtx = true ∧ q1.m_vtxs.owns ∧
      q1.m_idxs = sample_full_queue.m_idxs ∧ q1.m_realloc_idx = false := by
  have h := ensure_buffers_capacity_preserves {} sample_full_queue 4 6 (by decide) (by decide)
  obtain ⟨q1, hq1⟩ := h.2.1 (by decide) (by decide) (by decide) (by decide)
  obtain ⟨hsize, _, hslots, _, _, hidx, hgrow, _⟩ := h.2.2 q1 hq1
  have hcap := hgrow (by decide) rfl
  exact ⟨q1, hq1, hsize, hslots 0 _ (by decide) rfl, hslots 1 _ (by decide) rfl,
    hcap.1, hcap.2, (hidx (by decide)).1, (hidx (by decide)).2⟩

/-- The method `update` leaves the descriptor sequence as it is. -/
theorem update_drawcalls (g : daisy_t) (q : c_renderqueue) :
    (update g q).1.m_drawcalls = q.m_drawcalls := by
  unfold update
  dsimp only
  split_ifs <;> rfl

/-- The method `flush` leaves the descriptor sequence as it is. -/
theorem flush_drawcalls (g : daisy_t) (q : c_renderqueue) :
    (flush g q).1.m_drawcalls = q.m_drawcalls := by
  unfold flush
  split_ifs
  · rfl
  · exact update_drawcalls g q
  · rfl

/-- C6: `flush` on a queue whose descriptor sequence is empty makes no call on the device and
returns the queue with every field as it was, whatever `m_update` is; and `flush` right after
`clear` makes no call and leaves the cleared queue as it is. -/
theorem flush_empty_is_noop (g : daisy_t) (q : c_renderqueue) :
    (q.m_drawcalls = [] → flush g q = (q, [])) ∧ flush g (clear q) = (clear q, []) := by
  constructor
  · intro h
    simp [flush, h]
  · have h : (clear q).m_drawcalls = [] := by
      cases hd : q.m_drawcalls <;> simp [clear, hd]
    simp [flush, h]

/-- Witness of C6: a queue with `m_update` set and all reallocation flags set, holding no
descriptor, is flushed without any call. -/
theorem flush_empty_is_noop_witness :
    flush {} { m_update := true, m_realloc_vtx := true, m_realloc_idx := true }
      = ({ m_update := true, m_realloc_vtx := true, m_realloc_idx := true }, []) :=
  (flush_empty_is_noop {} { m_update := true, m_realloc_vtx := true, m_realloc_idx := true }).1
    rfl

/-- C7: `clear` sets both size counters to 0 and empties the descriptor sequence; the
capacities, the blocks, the three GPU buffer handles and the three flags are as before. -/
theorem clear_resets_sizes_only (q : c_renderqueue) :
    (clear q).m_vtxs.m_size = 0 ∧ (clear q).m_idxs.m_size = 0 ∧ (clear q).m_drawcalls = [] ∧
    (clear q).m_vtxs.m_capacity = q.m_vtxs.m_capacity ∧
    (clear q).m_idxs.m_capacity = q.m_idxs.m_capacity ∧
    (clear q).m_vtxs.m_data = q.m_vtxs.m_data ∧ (clear q).m_idxs.m_data = q.m_idxs.m_data ∧
    (clear q).m_vertex_buffer = q.m_vertex_buffer ∧
    (clear q).m_index_buffer = q.m_index_buffer ∧
    (clear q).m_constant_buffer = q.m_constant_buffer ∧
    (clear q).m_update = q.m_update ∧ (clear q).m_realloc_vtx = q.m_realloc_vtx ∧
    (clear q).m_realloc_idx = q.m_realloc_idx := by
  refine ⟨rfl, rfl, ?_, rfl, rfl, rfl, rfl, rfl, rfl, rfl, rfl, rfl, rfl⟩
  cases hd : q.m_drawcalls <;> simp [clear, hd]

/-- Slots below the offset are not touched by `write_at`. -/
theorem write_at_below {α : Type} (vals : List α) :
    ∀ (l : List α) (offset i : Nat), i < offset → (write_at l offset vals)[i]? = l[i]? := by
  induction vals with
  | nil => intro l offset i _; rfl
  | cons v vs ih =>
    intro l offset i hi
    rw [write_at, ih _ _ _ (by omega), List.getElem?_set_ne (by omega)]

/-- Slot `offset + k` inside the block holds the `k`-th stored value after `write_at`. -/
theorem write_at_stored {α : Type} (vals : List α) :
    ∀ (l : List α) (offset k : Nat), k < vals.length → offset + k < l.length →
      (write_at l offset vals)[offset + k]? = vals[k]? := by
  induction vals with
  | nil => intro l offset k hk; simp at hk
  | cons v vs ih =>
    intro l offset k hk hin
    rw [write_at]
    cases k with
    | zero =>
      rw [write_at_below vs _ _ _ (by omega)]
      have hin2 : offset < l.length := by omega
      simp [List.getElem?_set_self, hin2]
    | succ k =>
      have h := ih (l.set offset v) (offset + 1) k (by simpa using hk) (by simp; omega)
      have e : offset + (k + 1) = offset + 1 + k := by omega
      rw [e, h]
      simp

theorem end_batch_frame (q : c_renderqueue) (a v i p t : Nat) :
    (end_batch q a v i p t).m_vtxs = q.m_vtxs ∧ (end_batch q a v i p t).m_idxs = q.m_idxs ∧
    (end_batch q a v i p t).m_update = true ∧
    (end_batch q a v i p t).m_vertex_buffer = q.m_vertex_buffer ∧
    (end_batch q a v i p t).m_index_buffer = q.m_index_buffer ∧
    (end_batch q a v i p t).m_constant_buffer = q.m_constant_buffer ∧
    (end_batch q a v i p t).m_realloc_vtx = q.m_realloc_vtx ∧
    (end_batch q a v i p t).m_realloc_idx = q.m_realloc_idx := by
  unfold end_batch
  split_ifs
  · exact ⟨rfl, rfl, rfl, rfl, rfl, rfl, rfl, rfl⟩
  · split <;> exact ⟨rfl, rfl, rfl, rfl, rfl, rfl, rfl, rfl⟩

/-- With a zero first argument `end_batch` appends a new triangle batch. -/
theorem end_batch_append (q : c_renderqueue) (v i p t : Nat) :
    (end_batch q 0 v i p t).m_drawcalls = q.m_drawcalls ++ [.CALL_TRI t p v i] := by
  simp [end_batch]

/-- With a non-zero first argument `end_batch` adds the counts to the last triangle batch. -/
theorem end_batch_merge (q : c_renderqueue) (l : List daisy_drawcall_t) (t0 p0 v0 i0 : Nat)
    (a v i p t : Nat) (hq : q.m_drawcalls = l ++ [.CALL_TRI t0 p0 v0 i0]) (ha : a ≠ 0) :
    (end_batch q a v i p t).m_drawcalls
      = l ++ [.CALL_TRI t0 (u32 (p0 + p)) (u32 (v0 + v)) (u32 (i0 + i))] := by
  simp [end_batch, ha, hq, List.getLast?_append, List.dropLast_append_of_ne_nil]

theorem begin_batch_nil (q : c_renderqueue) (t : Nat) (hq : q.m_drawcalls = []) :
    begin_batch q t = 0 := by
  simp [begin_batch, hq]

theorem begin_batch_tri (q : c_renderqueue) (l : List daisy_drawcall_t) (t0 p0 v0 i0 t : Nat)
    (hq : q.m_drawcalls = l ++ [.CALL_TRI t0 p0 v0 i0]) :
    begin_batch q t = if t0 = t then v0 else 0 := by
  simp [begin_batch, hq, List.getLast?_append]

theorem begin_batch_scissor (q : c_renderqueue) (l : List daisy_drawcall_t)
    (position size : point_t) (t : Nat) (hq : q.m_drawcalls = l ++ [.CALL_SCISSOR position size]) :
    begin_batch q t = 0 := by
  simp [begin_batch, hq, List.getLast?_append]

/-- The body of `push_gradient_rectangle` once `ensure_buffers_capacity` has returned. -/
theorem push_gradient_rectangle_eq (g : daisy_t) (q q1 : c_renderqueue) (position size : point_t)
    (c1 c2 c3 c4 : color_t) (t : Nat) (uv_mins uv_maxs : point_t)
    (h : ensure_buffers_capacity g q 4 6 = some q1) :
    push_gradient_rectangle g q position size c1 c2 c3 c4 t uv_mins uv_maxs
      = some (end_batch { q1 with
          m_vtxs := { q1.m_vtxs with
            m_data := q1.m_vtxs.store (rectangle_vertices position size c1 c2 c3 c4 uv_mins uv_maxs),
            m_size := u32 (q1.m_vtxs.m_size + 4) },
          m_idxs := { q1.m_idxs with
            m_data := q1.m_idxs.store (rectangle_indices (begin_batch q1 t)),
            m_size := u32 (q1.m_idxs.m_size + 6) } } (begin_batch q1 t) 4 6 2 t) := by
  simp only [push_gradient_rectangle, h]

/-- What `push_gradient_rectangle` does on a queue with non-zero capacities and sizes below
the 32-bit range: it returns, having run `ensure_buffers_capacity`, stored 4 vertices and
6 indices after the old sizes, and merged or appended the batch. -/
theorem push_gradient_rectangle_total (g : daisy_t) (q : c_renderqueue) (position size : point_t)
    (c1 c2 c3 c4 : color_t) (t : Nat) (uv_mins uv_maxs : point_t)
    (hcv : 1 ≤ q.m_vtxs.m_capacity) (hci : 1 ≤ q.m_idxs.m_capacity)
    (hv : q.m_vtxs.m_size + 4 < 2147483648) (hi : q.m_idxs.m_size + 6 < 2147483648) :
    ∃ q1 q2, ensure_buffers_capacity g q 4 6 = some q1 ∧
      push_gradient_rectangle g q position size c1 c2 c3 c4 t uv_mins uv_maxs = some q2 ∧
      q2.m_vtxs.m_size = q.m_vtxs.m_size + 4 ∧ q2.m_idxs.m_size = q.m_idxs.m_size + 6 ∧
      q2.m_vtxs.m_capacity = q1.m_vtxs.m_capacity ∧ q2.m_idxs.m_capacity = q1.m_idxs.m_capacity ∧
      1 ≤ q2.m_vtxs.m_capacity ∧ 1 ≤ q2.m_idxs.m_capacity ∧
      q2.m_vtxs.m_data
        = q1.m_vtxs.store (rectangle_vertices position size c1 c2 c3 c4 uv_mins uv_maxs) ∧
      q2.m_idxs.m_data = q1.m_idxs.store (rectangle_indices (begin_batch q t)) ∧
      q2.m_drawcalls = (end_batch q (begin_batch q t) 4 6 2 t).m_drawcalls := by
  obtain ⟨q1, hq1, _, _, hd, _, _, _, _, hsv, hsi, hc1v, hc1i, _, _⟩ :=
    ensure_buffers_capacity_total g q 4 6 hcv hci hv hi
  have hb : begin_batch q1 t = begin_batch q t := by simp [begin_batch, hd]
  have hu4 : u32 (q.m_vtxs.m_size + 4) = q.m_vtxs.m_size + 4 := u32_of_lt (by omega)
  have hu6 : u32 (q.m_idxs.m_size + 6) = q.m_idxs.m_size + 6 := u32_of_lt (by omega)
  refine ⟨q1, _, hq1,
    push_gradient_rectangle_eq g q q1 position size c1 c2 c3 c4 t uv_mins uv_maxs hq1,
    ?_, ?_, ?_, ?_, ?_, ?_, ?_, ?_, ?_⟩
  · rw [(end_batch_frame _ _ _ _ _ _).1, hsv, hu4]
  · rw [(end_batch_frame _ _ _ _ _ _).2.1, hsi, hu6]
  · rw [(end_batch_frame _ _ _ _ _ _).1]
  · rw [(end_batch_frame _ _ _ _ _ _).2.1]
  · rw [(end_batch_frame _ _ _ _ _ _).1]; exact hc1v
  · rw [(end_batch_frame _ _ _ _ _ _).2.1]; exact hc1i
  · rw [(end_batch_frame _ _ _ _ _ _).1]
  · rw [(end_batch_frame _ _ _ _ _ _).2.1, hb]
  · rw [hb]
    simp only [end_batch, hd]
    split_ifs
    · rfl
    · split <;> rfl

/-- A further run of same-texture rectangle pushes extends the one batch the queue holds. -/
theorem push_filled_rectangles_extend (g : daisy_t) (t : Nat) :
    ∀ (calls : List rectangle_args) (q : c_renderqueue) (k : Nat), 1 ≤ k →
      q.m_drawcalls = [.CALL_TRI t (2 * k) (4 * k) (6 * k)] →
      q.m_vtxs.m_size = 4 * k → q.m_idxs.m_size = 6 * k →
      1 ≤ q.m_vtxs.m_capacity → 1 ≤ q.m_idxs.m_capacity →
      6 * (k + calls.length) < 2147483648 →
      ∃ q1, push_filled_rectangles g t q calls = some q1 ∧
        q1.m_drawcalls = [.CALL_TRI t (2 * (k + calls.length)) (4 * (k + calls.length))
          (6 * (k + calls.length))] := by
  intro calls
  induction calls with
  | nil =>
    intro q k _ hd _ _ _ _ _
    exact ⟨q, rfl, by simpa using hd⟩
  | cons a rest ih =>
    intro q k hk hd hsv hsi hcv hci hb
    simp only [List.length_cons] at hb
    obtain ⟨_, q2, _, hpush, hs2v, hs2i, _, _, hc2v, hc2i, _, _, hd2⟩ :=
      push_gradient_rectangle_total g q a.position a.size a.col a.col a.col a.col t
        a.uv_mins a.uv_maxs hcv hci (by omega) (by omega)
    have hbegin : begin_batch q t = 4 * k := by
      rw [begin_batch_tri q [] t _ _ _ t (by simpa using hd)]; simp
    have hmerge := end_batch_merge q [] t (2 * k) (4 * k) (6 * k) (4 * k) 4 6 2 t
      (by simpa using hd) (by omega)
    rw [hbegin, hmerge] at hd2
    have e2 : u32 (2 * k + 2) = 2 * (k + 1) := by rw [u32_of_lt (by omega)]; ring
    have e4 : u32 (4 * k + 4) = 4 * (k + 1) := by rw [u32_of_lt (by omega)]; ring
    have e6 : u32 (6 * k + 6) = 6 * (k + 1) := by rw [u32_of_lt (by omega)]; ring
    rw [e2, e4, e6] at hd2
    obtain ⟨q3, hrun, hd3⟩ := ih q2 (k + 1) (by omega) (by simpa using hd2)
      (by rw [hs2v, hsv]; ring) (by rw [hs2i, hsi]; ring) hc2v hc2i (by omega)
    refine ⟨q3, ?_, ?_⟩
    · simp only [push_filled_rectangles, push_filled_rectangle, hpush, hrun]
    · rw [hd3]
      have e : k + 1 + rest.length = k + (rest.length + 1) := by omega
      simp only [List.length_cons, e]

/-- C1: from an empty queue (no descriptor, both sizes 0) with non-zero capacities, `n ≥ 1`
consecutive `push_filled_rectangle` calls with one texture handle `t` (any positions, sizes,
colours and UVs, `6 * n` below 2^31) return and leave exactly one descriptor, a triangle
batch with texture `t`, `4 * n` vertices, `6 * n` indices and `2 * n` primitives; `flush`
then leaves the descriptor sequence as it is. -/
theorem push_filled_rectangles_one_batch (g : daisy_t) (t : Nat) (q : c_renderqueue)
    (calls : List rectangle_args) (hd : q.m_drawcalls = [])
    (hsv : q.m_vtxs.m_size = 0) (hsi : q.m_idxs.m_size = 0)
    (hcv : 1 ≤ q.m_vtxs.m_capacity) (hci : 1 ≤ q.m_idxs.m_capacity)
    (hn : 1 ≤ calls.length) (hb : 6 * calls.length < 2 ^ 31) :
    ∃ q1, push_filled_rectangles g t q calls = some q1 ∧
      q1.m_drawcalls
        = [.CALL_TRI t (2 * calls.length) (4 * calls.length) (6 * calls.length)] ∧
      (flush g q1).1.m_drawcalls = q1.m_drawcalls := by
  cases calls with
  | nil => simp at hn
  | cons a rest =>
    simp only [List.length_cons] at hb
    obtain ⟨_, q2, _, hpush, hs2v, hs2i, _, _, hc2v, hc2i, _, _, hd2⟩ :=
      push_gradient_rectangle_total g q a.position a.size a.col a.col a.col a.col t
        a.uv_mins a.uv_maxs hcv hci (by omega) (by omega)
    rw [begin_batch_nil q t hd, end_batch_append, hd] at hd2
    obtain ⟨q3, hrun, hd3⟩ := push_filled_rectangles_extend g t rest q2 1 (le_refl 1)
      (by simpa using hd2) (by rw [hs2v, hsv]) (by rw [hs2i, hsi]) hc2v hc2i (by omega)
    refine ⟨q3, ?_, ?_, flush_drawcalls g q3⟩
    · simp only [push_filled_rectangles, push_filled_rectangle, hpush, hrun]
    · rw [hd3]
      have e : 1 + rest.length = rest.length + 1 := by omega
      simp only [List.length_cons, e]

/-- Witness of C1: three rectangles with texture 7 pushed on `sample_empty_queue` give the one
batch of 12 vertices, 18 indices and 6 primitives. -/
theorem push_filled_rectangles_one_batch_witness :
    ∃ q1, push_filled_rectangles {} 7 sample_empty_queue sample_rectangles = some q1 ∧
      q1.m_drawcalls = [.CALL_TRI 7 6 12 18] ∧
      (flush {} q1).1.m_drawcalls = q1.m_drawcalls := by
  simpa [sample_rectangles] using
    push_filled_rectangles_one_batch {} 7 sample_empty_queue sample_rectangles rfl rfl rfl
      (by decide) (by decide) (by decide) (by decide)

/-- C3: on an empty queue with non-zero capacities, `push_filled_rectangle` with texture `t`,
`push_scissor`, `push_filled_rectangle` with texture `t` return and leave exactly the three
descriptors triangle batch (`t`, 4 vertices, 6 indices, 2 primitives), scissor (position,
size), triangle batch (`t`, 4, 6, 2), in that order; and `push_scissor` appends a scissor
descriptor to every queue. -/
theorem rectangles_not_merged_across_scissor (g : daisy_t) (t : Nat) (q : c_renderqueue)
    (a b : rectangle_args) (position size : point_t) (hd : q.m_drawcalls = [])
    (hsv : q.m_vtxs.m_size = 0) (hsi : q.m_idxs.m_size = 0)
    (hcv : 1 ≤ q.m_vtxs.m_capacity) (hci : 1 ≤ q.m_idxs.m_capacity) :
    (∃ q1 q2, push_filled_rectangle g q a.position a.size a.col t a.uv_mins a.uv_maxs = some q1 ∧
      push_filled_rectangle g (push_scissor q1 position size) b.position b.size b.col t
        b.uv_mins b.uv_maxs = some q2 ∧
      q2.m_drawcalls
        = [.CALL_TRI t 2 4 6, .CALL_SCISSOR position size, .CALL_TRI t 2 4 6]) ∧
    ∀ q0 : c_renderqueue,
      (push_scissor q0 position size).m_drawcalls
        = q0.m_drawcalls ++ [.CALL_SCISSOR position size] := by
  refine ⟨?_, fun q0 => rfl⟩
  obtain ⟨_, q1, _, hpush1, hs1v, hs1i, _, _, hc1v, hc1i, _, _, hd1⟩ :=
    push_gradient_rectangle_total g q a.position a.size a.col a.col a.col a.col t
      a.uv_mins a.uv_maxs hcv hci (by omega) (by omega)
  rw [begin_batch_nil q t hd, end_batch_append, hd] at hd1
  have hds : (push_scissor q1 position size).m_drawcalls
      = [.CALL_TRI t 2 4 6] ++ [.CALL_SCISSOR position size] := by
    simp [push_scissor, hd1]
  obtain ⟨_, q2, _, hpush2, _, _, _, _, _, _, _, _, hd2⟩ :=
    push_gradient_rectangle_total g (push_scissor q1 position size) b.position b.size
      b.col b.col b.col b.col t b.uv_mins b.uv_maxs hc1v hc1i
      (by show q1.m_vtxs.m_size + 4 < 2147483648; omega)
      (by show q1.m_idxs.m_size + 6 < 2147483648; omega)
  rw [begin_batch_scissor _ _ position size t hds, end_batch_append, hds] at hd2
  exact ⟨q1, q2, hpush1, hpush2, by simpa using hd2⟩

/-- Witness of C3: on `sample_empty_queue`, two rectangles with texture 7 around a scissor. -/
theorem rectangles_not_merged_across_scissor_witness :
    ∃ q1 q2, push_filled_rectangle {} sample_empty_queue ⟨10, 10⟩ ⟨20, 20⟩ {} 7 ⟨0, 0⟩ ⟨1, 1⟩
        = some q1 ∧
      push_filled_rectangle {} (push_scissor q1 ⟨0, 0⟩ ⟨64, 48⟩) ⟨1, 2⟩ ⟨3, 4⟩ {} 7 ⟨0, 0⟩ ⟨1, 1⟩
        = some q2 ∧
      q2.m_drawcalls = [.CALL_TRI 7 2 4 6, .CALL_SCISSOR ⟨0, 0⟩ ⟨64, 48⟩, .CALL_TRI 7 2 4 6] :=
  (rectangles_not_merged_across_scissor {} 7 sample_empty_queue
    { position := ⟨10, 10⟩, size := ⟨20, 20⟩, col := {} }
    { position := ⟨1, 2⟩, size := ⟨3, 4⟩, col := {} } ⟨0, 0⟩ ⟨64, 48⟩
    rfl rfl rfl (by decide) (by decide)).1

/-- The replay loop, started at the sums over the earlier descriptors, makes the prescribed
calls, as long as the sums over the whole sequence stay in the 32-bit range. -/
theorem replay_prescribed (g : daisy_t) :
    ∀ (rest earlier : List daisy_drawcall_t),
      ((earlier ++ rest).map tri_vertex_count).sum < 4294967296 →
      ((earlier ++ rest).map tri_index_count).sum < 4294967296 →
      replay g rest (earlier.map tri_vertex_count).sum (earlier.map tri_index_count).sum
        = prescribed_calls g earlier rest := by
  intro rest
  induction rest with
  | nil => intro earlier _ _; rfl
  | cons d rest ih =>
    intro earlier hv hi
    have hv2 : (((earlier ++ [d]) ++ rest).map tri_vertex_count).sum < 4294967296 := by
      simpa using hv
    have hi2 : (((earlier ++ [d]) ++ rest).map tri_index_count).sum < 4294967296 := by
      simpa using hi
    have h := ih (earlier ++ [d]) hv2 hi2
    simp only [List.map_append, List.sum_append, List.map_cons, List.sum_cons, List.map_nil,
      List.sum_nil, Nat.add_zero] at h hv hi
    cases d with
    | CALL_TRI t p v i =>
      simp only [tri_vertex_count, tri_index_count] at h hv hi
      have ev : u32 ((earlier.map tri_vertex_count).sum + v)
          = (earlier.map tri_vertex_count).sum + v := u32_of_lt (by omega)
      have ei : u32 ((earlier.map tri_index_count).sum + i)
          = (earlier.map tri_index_count).sum + i := u32_of_lt (by omega)
      simp only [replay, prescribed_calls, descriptor_calls, ev, ei, h]
      by_cases ht : t = 0 <;> simp [ht]
    | CALL_SCISSOR position size =>
      simp only [tri_vertex_count, tri_index_count, Nat.add_zero] at h
      simp [replay, prescribed_calls, descriptor_calls, h]
    | CALL_VTXSHADER handle =>
      simp only [tri_vertex_count, tri_index_count, Nat.add_zero] at h
      simp [replay, prescribed_calls, descriptor_calls, h]
    | CALL_PIXSHADER handle =>
      simp only [tri_vertex_count, tri_index_count, Nat.add_zero] at h
      simp [replay, prescribed_calls, descriptor_calls, h]

/-- The replay loop makes no other calls than texture bindings, draws and scissor updates. -/
theorem replay_filter (g : daisy_t) :
    ∀ (calls : List daisy_drawcall_t) (vertex_idx index_idx : Nat),
      (replay g calls vertex_idx index_idx).filter is_replay_call
        = replay g calls vertex_idx index_idx := by
  intro calls
  induction calls with
  | nil => intro _ _; rfl
  | cons d rest ih =>
    intro vertex_idx index_idx
    cases d <;> simp [replay, is_replay_call, ih]

/-- The method `update` makes no texture binding, draw or scissor update. -/
theorem update_filter (g : daisy_t) (q : c_renderqueue) :
    (update g q).2.filter is_replay_call = [] := by
  unfold update
  dsimp only
  split_ifs <;> simp [List.filter_cons, is_replay_call]

/-- The texture bindings, draws and scissor updates of one `flush` are the prescribed ones. -/
theorem flush_replay_calls (g : daisy_t) (q : c_renderqueue) (calls : List daisy_drawcall_t)
    (h0 : q.m_drawcalls = calls)
    (hv : (calls.map tri_vertex_count).sum < 4294967296)
    (hi : (calls.map tri_index_count).sum < 4294967296) :
    (flush g q).2.filter is_replay_call = prescribed_calls g [] calls := by
  have hrep := replay_prescribed g calls [] (by simpa using hv) (by simpa using hi)
  simp only [List.map_nil, List.sum_nil] at hrep
  have hfil : (replay g calls 0 0).filter is_replay_call = prescribed_calls g [] calls := by
    rw [replay_filter, hrep]
  have hbind : ∀ q1 : c_renderqueue, (bind_pipeline g q1).filter is_replay_call = [] := by
    intro q1; simp [bind_pipeline, is_replay_call]
  unfold flush
  by_cases he : q.m_drawcalls.isEmpty = true
  · have hnil : calls = [] := by rw [← h0]; simpa using he
    simp [he, hnil, prescribed_calls]
  · simp only [he, Bool.false_eq_true, if_false, List.filter_append]
    by_cases hu : q.m_update = true
    · simp only [hu, if_true, update_filter, update_drawcalls, h0, hfil, hbind,
        List.nil_append]
    · simp only [hu, Bool.false_eq_true, if_false, h0, hfil, hbind, List.filter_nil,
        List.nil_append]

/-- C5: for a descriptor sequence whose vertex counts and index counts sum to less than 2^32,
the texture bindings, indexed draws and scissor updates `flush` makes are exactly the
prescribed ones, in sequence order: per triangle batch one binding of its texture (the default
white texture when the handle is null) and one `DrawIndexed` with its index count, start index
the sum of the index counts and base vertex the sum of the vertex counts of the earlier
batches; per scissor descriptor one scissor update. A second `flush` makes the same calls,
the offsets starting from zero again. Whether the upload succeeds plays no role. -/
theorem flush_replays_descriptors (g : daisy_t) (q : c_renderqueue)
    (hv : (q.m_drawcalls.map tri_vertex_count).sum < 2 ^ 32)
    (hi : (q.m_drawcalls.map tri_index_count).sum < 2 ^ 32) :
    (flush g q).2.filter is_replay_call = prescribed_calls g [] q.m_drawcalls ∧
    (flush g (flush g q).1).2.filter is_replay_call = prescribed_calls g [] q.m_drawcalls :=
  ⟨flush_replay_calls g q _ rfl (by simpa using hv) (by simpa using hi),
   flush_replay_calls g _ _ (flush_drawcalls g q) (by simpa using hv) (by simpa using hi)⟩

/-- Witness of C5: the calls replayed for `sample_recorded_queue`, with white texture 9. -/
theorem flush_replays_descriptors_witness :
    (flush { s_white_texture_srv := 9 } sample_recorded_queue).2.filter is_replay_call
      = [ .PSSetShaderResources 9, .DrawIndexed 6 0 0, .RSSetScissorRects 0 0 64 48,
          .PSSetShaderResources 7, .DrawIndexed 3 6 4 ] := by
  have h := (flush_replays_descriptors { s_white_texture_srv := 9 } sample_recorded_queue
    (by decide) (by decide)).1
  rw [h]
  simp [sample_recorded_queue, prescribed_calls, descriptor_calls, tri_index_count,
    tri_vertex_count, to_long]

/-- A live block with room at the size: the stored values are read back from the slots. -/
theorem store_slot {α : Type} (buf : renderbuffer_t α) (vals : List α) (k : Nat)
    (hown : buf.owns) (hk : k < vals.length) (hroom : buf.m_size + k < buf.m_capacity) :
    ((buf.store vals).getD [])[buf.m_size + k]? = vals[k]? := by
  obtain ⟨l, hl, hlen⟩ := hown
  simp only [renderbuffer_t.store, hl, Option.map_some', Option.getD_some]
  exact write_at_stored vals l buf.m_size k hk (by omega)

/-- C4: on an empty queue with non-zero capacities, live blocks and a working allocator,
`push_filled_rectangle` at (10,10) with size (20,20) in white (no texture, default UVs)
returns; slots 0 to 3 of the vertex buffer then hold the corners (10,10), (30,10), (30,30),
(10,30) in that order, slots 0 to 5 of the index buffer hold 0,1,3,3,2,1 (all below 4), the
sizes are 4 and 6, and `flush` makes exactly one indexed draw, `DrawIndexed( 6, 0, 0 )`. -/
theorem rectangle_example_one_draw (g : daisy_t) (q : c_renderqueue)
    (hd : q.m_drawcalls = []) (hsv : q.m_vtxs.m_size = 0) (hsi : q.m_idxs.m_size = 0)
    (hcv : 1 ≤ q.m_vtxs.m_capacity) (hci : 1 ≤ q.m_idxs.m_capacity)
    (hov : q.m_vtxs.owns) (hoi : q.m_idxs.owns) (hal : ∀ n, g.make_unique n = true) :
    ∃ q1, push_filled_rectangle g q ⟨10, 10⟩ ⟨20, 20⟩ {} 0 ⟨0, 0⟩ ⟨1, 1⟩ = some q1 ∧
      (flush g q1).2.filter is_draw_call = [.DrawIndexed 6 0 0] ∧
      q1.m_vtxs.m_size = 4 ∧ q1.m_idxs.m_size = 6 ∧
      q1.m_vtxs.slot 0 = some ⟨(10, 10, 0, 1), 4294967295, (0, 0)⟩ ∧
      q1.m_vtxs.slot 1 = some ⟨(30, 10, 0, 1), 4294967295, (1, 0)⟩ ∧
      q1.m_vtxs.slot 2 = some ⟨(30, 30, 0, 1), 4294967295, (1, 1)⟩ ∧
      q1.m_vtxs.slot 3 = some ⟨(10, 30, 0, 1), 4294967295, (0, 1)⟩ ∧
      (List.range 6).map q1.m_idxs.slot
        = [some 0, some 1, some 3, some 3, some 2, some 1] := by
  obtain ⟨q0, q1, hq0, hpush, hs1v, hs1i, _, _, _, _, hdv, hdi, hd1⟩ :=
    push_gradient_rectangle_total g q ⟨10, 10⟩ ⟨20, 20⟩ {} {} {} {} 0 ⟨0, 0⟩ ⟨1, 1⟩
      hcv hci (by omega) (by omega)
  obtain ⟨hrv, hri, _⟩ := ensure_buffers_capacity_inv g q q0 4 6 hq0
  have hfv := ensure_capacity_frame _ _ _ _ _ _ _ hrv
  have hfi := ensure_capacity_frame _ _ _ _ _ _ _ hri
  have hown0v := (ensure_capacity_owns _ _ _ _ _ _ _ hrv hal hov (by omega)).1
  have hown0i := (ensure_capacity_owns _ _ _ _ _ _ _ hri hal hoi (by omega)).1
  have hsize0v : q0.m_vtxs.m_size = 0 := by rw [← hsv]; exact hfv.1
  have hsize0i : q0.m_idxs.m_size = 0 := by rw [← hsi]; exact hfi.1
  have hroomv : 4 ≤ q0.m_vtxs.m_capacity := by
    have h := hfv.2.1; rw [hsv] at h; simpa [u32] using h
  have hroomi : 6 ≤ q0.m_idxs.m_capacity := by
    have h := hfi.2.1; rw [hsi] at h; simpa [u32] using h
  have hvslot : ∀ k, k < 4 → q1.m_vtxs.slot k
      = (rectangle_vertices ⟨10, 10⟩ ⟨20, 20⟩ {} {} {} {} ⟨0, 0⟩ ⟨1, 1⟩)[k]? := by
    intro k hk
    have h := store_slot q0.m_vtxs (rectangle_vertices ⟨10, 10⟩ ⟨20, 20⟩ {} {} {} {} ⟨0, 0⟩ ⟨1, 1⟩)
      k hown0v (by simpa [rectangle_vertices] using hk) (by omega)
    rw [hsize0v, Nat.zero_add] at h
    rw [renderbuffer_t.slot, hdv, h]
  have hislot : ∀ k, k < 6 → q1.m_idxs.slot k = (rectangle_indices 0)[k]? := by
    intro k hk
    have h := store_slot q0.m_idxs (rectangle_indices 0) k hown0i
      (by simpa [rectangle_indices] using hk) (by omega)
    rw [hsize0i, Nat.zero_add] at h
    rw [renderbuffer_t.slot, hdi, begin_batch_nil q 0 hd, h]
  rw [begin_batch_nil q 0 hd, end_batch_append, hd] at hd1
  have hreplay := flush_replay_calls g q1 _ hd1 (by decide) (by decide)
  have hdraw : (flush g q1).2.filter is_draw_call
      = ((flush g q1).2.filter is_replay_call).filter is_draw_call := by
    rw [List.filter_filter]
    congr 1
    funext c
    cases c <;> rfl
  refine ⟨q1, hpush, ?_, by rw [hs1v, hsv], by rw [hs1i, hsi], ?_, ?_, ?_, ?_, ?_⟩
  · rw [hdraw, hreplay]
    simp [prescribed_calls, descriptor_calls, tri_index_count, tri_vertex_count, is_draw_call]
  · rw [hvslot 0 (by omega)]; norm_num [rectangle_vertices, color_t.bgra]
  · rw [hvslot 1 (by omega)]; norm_num [rectangle_vertices, color_t.bgra]
  · rw [hvslot 2 (by omega)]; norm_num [rectangle_vertices, color_t.bgra]
  · rw [hvslot 3 (by omega)]; norm_num [rectangle_vertices, color_t.bgra]
  · simp only [List.range, List.range.loop, List.map]
    rw [hislot 0 (by omega), hislot 1 (by omega), hislot 2 (by omega), hislot 3 (by omega),
      hislot 4 (by omega), hislot 5 (by omega)]
    simp [rectangle_indices, u16]

/-- Witness of C4, on `sample_empty_queue` (both buffers grow from 2 slots). -/
theorem rectangle_example_one_draw_witness :
    ∃ q1, push_filled_rectangle {} sample_empty_queue ⟨10, 10⟩ ⟨20, 20⟩ {} 0 ⟨0, 0⟩ ⟨1, 1⟩
        = some q1 ∧
      (flush {} q1).2.filter is_draw_call = [.DrawIndexed 6 0 0] ∧
      q1.m_vtxs.m_size = 4 ∧ q1.m_idxs.m_size = 6 ∧
      q1.m_vtxs.slot 0 = some ⟨(10, 10, 0, 1), 4294967295, (0, 0)⟩ ∧
      q1.m_vtxs.slot 1 = some ⟨(30, 10, 0, 1), 4294967295, (1, 0)⟩ ∧
      q1.m_vtxs.slot 2 = some ⟨(30, 30, 0, 1), 4294967295, (1, 1)⟩ ∧
      q1.m_vtxs.slot 3 = some ⟨(10, 30, 0, 1), 4294967295, (0, 1)⟩ ∧
      (List.range 6).map q1.m_idxs.slot
        = [some 0, some 1, some 3, some 3, some 2, some 1] :=
  rectangle_example_one_draw {} sample_empty_queue rfl rfl rfl (by decide) (by decide)
    ⟨_, rfl, rfl⟩ ⟨_, rfl, rfl⟩ (fun _ => rfl)

/-- C2, the code at the failing input: `push_text` of the empty text on an empty queue leaves
a triangle batch with the texture of the font (handle 7) and zero vertices; the next push with
that same texture, a `push_filled_rectangle` or a `push_text` of one glyph, does not add its
counts to that batch but appends a second descriptor, because `end_batch` takes the zero
vertex count returned by `begin_batch` for "no batch to extend". -/
theorem zero_vertex_batch_is_not_extended :
    (push_text {} sample_empty_queue sample_font ⟨0, 0⟩ [] {} 0).map
        (fun r => r.1.m_drawcalls) = some [.CALL_TRI 7 0 0 0] ∧
    ((push_text {} sample_empty_queue sample_font ⟨0, 0⟩ [] {} 0).bind
        (fun r => push_filled_rectangle {} r.1 ⟨10, 10⟩ ⟨20, 20⟩ {} 7)).map
        (fun q => q.m_drawcalls) = some [.CALL_TRI 7 0 0 0, .CALL_TRI 7 2 4 6] ∧
    ((push_text {} sample_empty_queue sample_font ⟨0, 0⟩ [] {} 0).bind
        (fun r => push_text {} r.1 r.2 ⟨0, 0⟩ [65] {} 0)).map
        (fun r => r.1.m_drawcalls) = some [.CALL_TRI 7 0 0 0, .CALL_TRI 7 2 4 6] := by
  decide

/-- C10, the code at the failing input: after `create( 3, 3 )` and one `push_filled_triangle`
both buffers are full (size 3, capacity 3); `push_filled_circle` with `segments = -1` then
reserves `segments + 1 = 0` vertices, stores the centre vertex all the same and leaves the
vertex buffer with size 4 above its capacity 3. -/
theorem circle_with_negative_segments_exceeds_capacity :
    (create {} {} 3 3).1 = true ∧
    (push_filled_triangle {} (create {} {} 3 3).2 ⟨0, 0⟩ ⟨1, 0⟩ ⟨0, 1⟩ {} {} {}).map
        (fun q => (q.m_vtxs.m_size, q.m_vtxs.m_capacity, q.m_idxs.m_size, q.m_idxs.m_capacity))
      = some (3, 3, 3, 3) ∧
    ((push_filled_triangle {} (create {} {} 3 3).2 ⟨0, 0⟩ ⟨1, 0⟩ ⟨0, 1⟩ {} {} {}).bind
        (fun q => push_filled_circle {} q ⟨0, 0⟩ 1 (-1) {} {})).map
        (fun q => (q.m_vtxs.m_size, q.m_vtxs.m_capacity)) = some (4, 3) := by
  decide

/-! ### The batch rule as implemented, for the five geometry pushes -/

theorem begin_batch_congr (q q1 : c_renderqueue) (t : Nat)
    (h : q1.m_drawcalls = q.m_drawcalls) : begin_batch q1 t = begin_batch q t := by
  simp [begin_batch, h]

theorem end_batch_congr (q q1 : c_renderqueue) (a v i p t : Nat)
    (h : q1.m_drawcalls = q.m_drawcalls) :
    (end_batch q1 a v i p t).m_drawcalls = (end_batch q a v i p t).m_drawcalls := by
  simp only [end_batch, h]
  split_ifs
  · rfl
  · split <;> rfl

/-- The descriptor sequence after `begin_batch` ... `end_batch` with texture `t`: the counts go
into the last descriptor exactly when it is a triangle batch with texture `t` and a non-zero
vertex count; in every other case one descriptor is appended. -/
theorem batch_rule (q : c_renderqueue) (t v i p : Nat) :
    (∀ l p0 v0 i0, q.m_drawcalls = l ++ [.CALL_TRI t p0 v0 i0] → v0 ≠ 0 →
      (end_batch q (begin_batch q t) v i p t).m_drawcalls
        = l ++ [.CALL_TRI t (u32 (p0 + p)) (u32 (v0 + v)) (u32 (i0 + i))]) ∧
    ((∀ l p0 v0 i0, q.m_drawcalls = l ++ [.CALL_TRI t p0 v0 i0] → v0 = 0) →
      (end_batch q (begin_batch q t) v i p t).m_drawcalls
        = q.m_drawcalls ++ [.CALL_TRI t p v i]) := by
  constructor
  · intro l p0 v0 i0 hq hv0
    have hb : begin_batch q t = v0 := by rw [begin_batch_tri q l t p0 v0 i0 t hq]; simp
    rw [hb]
    exact end_batch_merge q l t p0 v0 i0 v0 v i p t hq hv0
  · intro h
    have hb : begin_batch q t = 0 := by
      rcases List.eq_nil_or_concat q.m_drawcalls with hnil | ⟨l, d, hq⟩
      · exact begin_batch_nil q t hnil
      · rw [List.concat_eq_append] at hq
        cases d with
        | CALL_TRI t0 p0 v0 i0 =>
          rw [begin_batch_tri q l t0 p0 v0 i0 t hq]
          by_cases ht : t0 = t
          · subst ht; simpa using h l p0 v0 i0 hq
          · simp [ht]
        | CALL_SCISSOR position size => exact begin_batch_scissor q l position size t hq
        | CALL_VTXSHADER handle => simp [begin_batch, hq, List.getLast?_append]
        | CALL_PIXSHADER handle => simp [begin_batch, hq, List.getLast?_append]
    rw [hb]
    exact end_batch_append q v i p t

theorem push_gradient_rectangle_drawcalls (g : daisy_t) (q q2 : c_renderqueue)
    (position size : point_t) (c1 c2 c3 c4 : color_t) (t : Nat) (uv_mins uv_maxs : point_t)
    (h : push_gradient_rectangle g q position size c1 c2 c3 c4 t uv_mins uv_maxs = some q2) :
    q2.m_drawcalls = (end_batch q (begin_batch q t) 4 6 2 t).m_drawcalls := by
  unfold push_gradient_rectangle at h
  cases hq1 : ensure_buffers_capacity g q 4 6 with
  | none => simp [hq1] at h
  | some q1 =>
    have hd := (ensure_buffers_capacity_inv g q q1 4 6 hq1).2.2.1
    simp only [hq1] at h
    rw [← Option.some.inj h, begin_batch_congr q q1 t hd]
    exact end_batch_congr q _ _ _ _ _ _ hd

theorem push_filled_triangle_drawcalls (g : daisy_t) (q q2 : c_renderqueue)
    (p1 p2 p3 : point_t) (c1 c2 c3 : color_t) (t : Nat) (uv1 uv2 uv3 : point_t)
    (h : push_filled_triangle g q p1 p2 p3 c1 c2 c3 t uv1 uv2 uv3 = some q2) :
    q2.m_drawcalls = (end_batch q (begin_batch q t) 3 3 1 t).m_drawcalls := by
  unfold push_filled_triangle at h
  cases hq1 : ensure_buffers_capacity g q 3 3 with
  | none => simp [hq1] at h
  | some q1 =>
    have hd := (ensure_buffers_capacity_inv g q q1 3 3 hq1).2.2.1
    simp only [hq1] at h
    rw [← Option.some.inj h, begin_batch_congr q q1 t hd]
    exact end_batch_congr q _ _ _ _ _ _ hd

theorem push_line_drawcalls (g : daisy_t) (q q2 : c_renderqueue) (p1 p2 : point_t)
    (col : color_t) (width : ℚ) (h : push_line g q p1 p2 col width = some q2) :
    q2.m_drawcalls = (end_batch q (begin_batch q 0) 4 6 2 0).m_drawcalls := by
  unfold push_line at h
  cases hq1 : ensure_buffers_capacity g q 4 6 with
  | none => simp [hq1] at h
  | some q1 =>
    have hd := (ensure_buffers_capacity_inv g q q1 4 6 hq1).2.2.1
    simp only [hq1] at h
    rw [← Option.some.inj h, begin_batch_congr q q1 0 hd]
    exact end_batch_congr q _ _ _ _ _ _ hd

theorem push_filled_circle_drawcalls (g : daisy_t) (q q2 : c_renderqueue) (center : point_t)
    (radius : ℚ) (segments : Int) (center_color outer_color : color_t)
    (h : push_filled_circle g q center radius segments center_color outer_color = some q2) :
    ∃ v i, q2.m_drawcalls
      = (end_batch q (begin_batch q 0) v i (u32_of_int segments) 0).m_drawcalls := by
  unfold push_filled_circle at h
  cases hq1 : ensure_buffers_capacity g q (u32_of_int (segments + 1))
      (u32_of_int (segments * 3)) with
  | none => simp [hq1] at h
  | some q1 =>
    have hd := (ensure_buffers_capacity_inv g q q1 _ _ hq1).2.2.1
    simp only [hq1] at h
    rw [← Option.some.inj h, begin_batch_congr q q1 0 hd]
    exact ⟨_, _, end_batch_congr q _ _ _ _ _ _ hd⟩

theorem push_text_drawcalls (g : daisy_t) (q : c_renderqueue) (font : c_fontwrapper)
    (position : point_t) (text : List Int) (color : color_t) (alignment : Nat)
    (r : c_renderqueue × c_fontwrapper)
    (h : push_text g q font position text color alignment = some r) :
    ∃ v i p, r.1.m_drawcalls
      = (end_batch q (begin_batch q font.m_texture_srv) v i p font.m_texture_srv).m_drawcalls := by
  unfold push_text at h
  cases hq1 : ensure_buffers_capacity g q (u32 (text.length * 4)) (u32 (text.length * 6)) with
  | none => simp [hq1] at h
  | some q1 =>
    have hd := (ensure_buffers_capacity_inv g q q1 _ _ hq1).2.2.1
    simp only [hq1] at h
    rw [← Option.some.inj h, begin_batch_congr q q1 _ hd]
    by_cases ha : alignment = 0
    · simp only [ha, if_true]
      exact ⟨_, _, _, end_batch_congr q _ _ _ _ _ _ hd⟩
    · have hsrv : (font.text_extent text).2.m_texture_srv = font.m_texture_srv := rfl
      simp only [ha, if_false, hsrv]
      exact ⟨_, _, _, end_batch_congr q _ _ _ _ _ _ hd⟩

/-! ### Texture atlas -/

/-- What `append` does when the rectangle does not fit the rest of the row and, on a new row,
would exceed the atlas height: it returns `false` and keeps every entry and the dimensions,
but it has already moved the cursor to the new row and reset the row height. -/
theorem append_full_moves_cursor (g : daisy_t) (a : c_texatlas) (uuid : Nat)
    (dimensions : point_t) (tex_size : Nat) (hsize : tex_size ≠ 0)
    (hrow : a.m_cursor.x + dimensions.x > a.m_dimensions.x)
    (hfull : a.m_cursor.y + a.m_max_height + dimensions.y > a.m_dimensions.y) :
    (a.append g uuid dimensions true tex_size).1 = false ∧
    (a.append g uuid dimensions true tex_size).2.1.m_coords = a.m_coords ∧
    (a.append g uuid dimensions true tex_size).2.1.m_cursor
      = ⟨0, a.m_cursor.y + a.m_max_height⟩ ∧
    (a.append g uuid dimensions true tex_size).2.1.m_max_height = 0 := by
  simp [c_texatlas.append, c_texatlas.wrapped, hsize, hrow, hfull]

/-- C11, the code at the failing input: on `sample_atlas` (100 by 100, cursor at (90, 0), row
height 10) `append` of a rectangle of 20 by 200 returns `false` and leaves the entry of id 1 as
it was, but the cursor is then (0, 10) and the row height 0: the row wrap is done before the
height test. -/
theorem failed_append_moves_cursor :
    sample_atlas.m_cursor = ⟨90, 0⟩ ∧ sample_atlas.m_max_height = 10 ∧
    (sample_atlas.append {} 2 ⟨20, 200⟩ true 16000).1 = false ∧
    (sample_atlas.append {} 2 ⟨20, 200⟩ true 16000).2.1.m_cursor = ⟨0, 10⟩ ∧
    (sample_atlas.append {} 2 ⟨20, 200⟩ true 16000).2.1.m_max_height = 0 ∧
    (sample_atlas.append {} 2 ⟨20, 200⟩ true 16000).2.1.coords 1 = sample_atlas.coords 1 := by
  have h := append_full_moves_cursor {} sample_atlas 2 ⟨20, 200⟩ 16000 (by decide)
    (by norm_num [sample_atlas]) (by norm_num [sample_atlas])
  refine ⟨rfl, rfl, h.1, ?_, h.2.2.2, ?_⟩
  · rw [h.2.2.1]; norm_num [sample_atlas]
  · simp only [c_texatlas.coords, h.2.1]

/-- The loops of `append` run to their end when every offset passes the size check. -/
theorem copy_pixels_completes (cursor dimensions : point_t) (tex_size : Nat) :
    ∀ l : List (Nat × Nat),
      (∀ p ∈ l, u32 (u32 (Int.toNat ⌊dimensions.x⌋) * 4 * p.1 + p.2 * 4) ≤ tex_size) →
      (copy_pixels cursor dimensions tex_size l).1 = true := by
  intro l
  induction l with
  | nil => intro _; rfl
  | cons p rest ih =>
    intro h
    obtain ⟨y, x⟩ := p
    have hp := h (y, x) (List.mem_cons_self _ _)
    simp only [copy_pixels, Nat.not_lt.mpr hp, if_false]
    exact ih (fun p hp => h p (List.mem_cons_of_mem _ hp))

/-- For whole-number dimensions the loops of `append` visit the pixels of the rectangle. -/
theorem pixel_iterations_mem (w h : Nat) (p : Nat × Nat)
    (hp : p ∈ pixel_iterations ⟨(w : ℚ), (h : ℚ)⟩) : p.1 < h ∧ p.2 < w := by
  simp only [pixel_iterations, Int.ceil_natCast, Int.toNat_ofNat, List.mem_flatMap,
    List.mem_map, List.mem_range] at hp
  obtain ⟨y, hy, x, hx, rfl⟩ := hp
  exact ⟨hy, hx⟩

/-- Pixel data of at least `4 * w * h` bytes passes every size check of `append`. -/
theorem copy_pixels_of_size (cursor : point_t) (w h tex_size : Nat) (hs : 4 * w * h ≤ tex_size) :
    (copy_pixels cursor ⟨(w : ℚ), (h : ℚ)⟩ tex_size (pixel_iterations ⟨(w : ℚ), (h : ℚ)⟩)).1
      = true := by
  apply copy_pixels_completes
  intro p hp
  obtain ⟨hy, hx⟩ := pixel_iterations_mem w h p hp
  have hw : Int.toNat ⌊((w : ℚ))⌋ = w := by simp
  simp only [hw]
  have h1 : u32 (u32 w * 4 * p.1 + p.2 * 4) ≤ u32 w * 4 * p.1 + p.2 * 4 := u32_le _
  have h2 : u32 w ≤ w := u32_le _
  have h3 : u32 w * 4 * p.1 ≤ w * 4 * p.1 := by
    apply Nat.mul_le_mul_right; apply Nat.mul_le_mul_right; exact h2
  have h4 : w * 4 * (p.1 + 1) ≤ w * 4 * h := Nat.mul_le_mul_left _ hy
  have h5 : w * 4 * h = 4 * w * h := by ring
  have h6 : w * 4 * (p.1 + 1) = w * 4 * p.1 + w * 4 := by ring
  omega

theorem wrapped_frame (a : c_texatlas) (d : point_t) :
    (a.wrapped d).m_dimensions = a.m_dimensions ∧ (a.wrapped d).m_texture = a.m_texture ∧
    (a.wrapped d).m_coords = a.m_coords ∧ (a.wrapped d).m_texture_srv = a.m_texture_srv := by
  unfold c_texatlas.wrapped
  split_ifs <;> exact ⟨rfl, rfl, rfl, rfl⟩

theorem raised_frame (a : c_texatlas) (d : point_t) :
    (a.raised d).m_dimensions = a.m_dimensions ∧ (a.raised d).m_texture = a.m_texture ∧
    (a.raised d).m_coords = a.m_coords ∧ (a.raised d).m_cursor = a.m_cursor ∧
    (a.raised d).m_max_height = max a.m_max_height d.y := by
  unfold c_texatlas.raised
  split_ifs with h
  · exact ⟨rfl, rfl, rfl, rfl, (max_eq_right (le_of_lt h)).symm⟩
  · exact ⟨rfl, rfl, rfl, rfl, (max_eq_left (not_lt.mp h)).symm⟩

/-- A returning `true` of `append` means that every test on its way passed. -/
theorem append_true_conditions (g : daisy_t) (a : c_texatlas) (uuid : Nat) (d : point_t)
    (tex_data : Bool) (tex_size : Nat) (h : (a.append g uuid d tex_data tex_size).1 = true) :
    tex_data = true ∧ tex_size ≠ 0 ∧
    (a.wrapped d).m_cursor.y + d.y ≤ a.m_dimensions.y ∧ g.Map a.m_texture = true ∧
    (copy_pixels (a.wrapped d).m_cursor d tex_size (pixel_iterations d)).1 = true := by
  obtain ⟨hdim, htex, _, _⟩ := wrapped_frame a d
  obtain ⟨_, hrtex, _, hrcur, _⟩ := raised_frame (a.wrapped d) d
  unfold c_texatlas.append at h
  dsimp only at h
  rw [hrtex, hrcur, htex, hdim] at h
  split_ifs at h with h1 h2 h3 h4
  simp only [Bool.or_eq_true, Bool.not_eq_true', decide_eq_true_eq, not_or] at h1
  exact ⟨by simpa using h1.1, h1.2, not_lt.mp h2, by simpa using h3, by simpa using h4⟩

/-- When every test passes, `append` returns `true`, records the id at the cursor after the
optional row wrap, advances the cursor and raises the row height. -/
theorem append_of_conditions (g : daisy_t) (a : c_texatlas) (uuid : Nat) (d : point_t)
    (tex_size : Nat) (hs : tex_size ≠ 0)
    (hfit : (a.wrapped d).m_cursor.y + d.y ≤ a.m_dimensions.y) (hmap : g.Map a.m_texture = true)
    (hcopy : (copy_pixels (a.wrapped d).m_cursor d tex_size (pixel_iterations d)).1 = true) :
    (a.append g uuid d true tex_size).1 = true ∧
    (a.append g uuid d true tex_size).2.1.m_coords
      = (fun k => if k = uuid then some (uv_at a.m_dimensions.x a.m_dimensions.y
          (a.wrapped d).m_cursor d) else a.m_coords k) ∧
    (a.append g uuid d true tex_size).2.1.m_cursor
      = ⟨(a.wrapped d).m_cursor.x + d.x, (a.wrapped d).m_cursor.y⟩ ∧
    (a.append g uuid d true tex_size).2.1.m_max_height = max (a.wrapped d).m_max_height d.y ∧
    (a.append g uuid d true tex_size).2.1.m_dimensions = a.m_dimensions ∧
    (a.append g uuid d true tex_size).2.1.m_texture = a.m_texture := by
  obtain ⟨hdim, htex, hco, _⟩ := wrapped_frame a d
  obtain ⟨hrdim, hrtex, hrco, hrcur, hrmax⟩ := raised_frame (a.wrapped d) d
  have h2 : ¬ (a.wrapped d).m_cursor.y + d.y > a.m_dimensions.y := not_lt.mpr hfit
  unfold c_texatlas.append
  dsimp only
  rw [hrtex, hrcur, hrdim, hrco, hrmax, htex, hdim, hco]
  simp only [Bool.not_true, Bool.false_or, decide_eq_true_eq, hs, if_false, h2, hmap, hcopy,
    Bool.false_eq_true, uv_at]
  trivial

/-- A failing `append` leaves the entries, the dimensions and the texture as they were. -/
theorem append_false_frame (g : daisy_t) (a : c_texatlas) (uuid : Nat) (d : point_t)
    (tex_data : Bool) (tex_size : Nat) (h : (a.append g uuid d tex_data tex_size).1 = false) :
    (a.append g uuid d tex_data tex_size).2.1.m_coords = a.m_coords ∧
    (a.append g uuid d tex_data tex_size).2.1.m_dimensions = a.m_dimensions := by
  obtain ⟨hdim, _, hco, _⟩ := wrapped_frame a d
  obtain ⟨hrdim, _, hrco, _, _⟩ := raised_frame (a.wrapped d) d
  unfold c_texatlas.append at h ⊢
  dsimp only at h ⊢
  split_ifs at h ⊢
  · exact ⟨rfl, rfl⟩
  · exact ⟨hco, hdim⟩
  · exact ⟨hrco.trans hco, hrdim.trans hdim⟩
  · exact ⟨hrco.trans hco, hrdim.trans hdim⟩

/-- An `append` never touches the entry of another id. -/
theorem append_coords_ne (g : daisy_t) (a : c_texatlas) (uuid : Nat) (d : point_t)
    (tex_data : Bool) (tex_size : Nat) (k : Nat) (hk : k ≠ uuid) :
    (a.append g uuid d tex_data tex_size).2.1.m_coords k = a.m_coords k := by
  cases h : (a.append g uuid d tex_data tex_size).1 with
  | false => rw [(append_false_frame g a uuid d tex_data tex_size h).1]
  | true =>
    obtain ⟨hd, hs, hfit, hmap, hcopy⟩ := append_true_conditions g a uuid d tex_data tex_size h
    subst hd
    rw [(append_of_conditions g a uuid d tex_size hs hfit hmap hcopy).2.1]
    simp [hk]

/-- Appends of other ids leave an entry, present or absent, as it was. -/
theorem append_all_coords_ne (g : daisy_t) (k : Nat) :
    ∀ (items : List atlas_item) (a : c_texatlas), (∀ it ∈ items, it.uuid ≠ k) →
      (append_all g a items).m_coords k = a.m_coords k := by
  intro items
  induction items with
  | nil => intro a _; rfl
  | cons it rest ih =>
    intro a h
    rw [append_all, ih _ (fun it2 h2 => h it2 (List.mem_cons_of_mem _ h2))]
    exact append_coords_ne g a it.uuid it.dimensions it.tex_data it.tex_size k
      (fun e => h it (List.mem_cons_self _ _) e.symm)

/-- C13: for every `append` that returns `true` on an atlas of `W` by `H`, with `(cx, cy)` the
cursor after the optional row wrap (`(0, y + row height)` when `x + w > W`, the cursor `(x, y)`
otherwise) and `m` the height of the row the cursor is then on (`0` for a new row): `coords` of
the id is `(cx/W, cy/H, cx/W + w/W, cy/H + h/H)`, the cursor becomes `(cx + w, cy)` and the row
height becomes `max m h`. And `coords` of an id that is not in the table and is not appended
by any call of a sequence of `append` calls is `(0, 0, 0, 0)` after them. -/
theorem append_records_and_advances (g : daisy_t) (a : c_texatlas) (uuid : Nat) (d : point_t)
    (tex_data : Bool) (tex_size : Nat) (h : (a.append g uuid d tex_data tex_size).1 = true) :
    (a.append g uuid d tex_data tex_size).2.1.coords uuid
      = ((if a.m_cursor.x + d.x > a.m_dimensions.x then 0 else a.m_cursor.x) / a.m_dimensions.x,
         (if a.m_cursor.x + d.x > a.m_dimensions.x then a.m_cursor.y + a.m_max_height
            else a.m_cursor.y) / a.m_dimensions.y,
         (if a.m_cursor.x + d.x > a.m_dimensions.x then 0 else a.m_cursor.x) / a.m_dimensions.x
            + d.x / a.m_dimensions.x,
         (if a.m_cursor.x + d.x > a.m_dimensions.x then a.m_cursor.y + a.m_max_height
            else a.m_cursor.y) / a.m_dimensions.y + d.y / a.m_dimensions.y) ∧
    (a.append g uuid d tex_data tex_size).2.1.m_cursor
      = ⟨(if a.m_cursor.x + d.x > a.m_dimensions.x then 0 else a.m_cursor.x) + d.x,
         if a.m_cursor.x + d.x > a.m_dimensions.x then a.m_cursor.y + a.m_max_height
           else a.m_cursor.y⟩ ∧
    (a.append g uuid d tex_data tex_size).2.1.m_max_height
      = max (if a.m_cursor.x + d.x > a.m_dimensions.x then 0 else a.m_max_height) d.y ∧
    ∀ (k : Nat) (items : List atlas_item), a.m_coords k = none →
      (∀ it ∈ items, it.uuid ≠ k) → (append_all g a items).coords k = (0, 0, 0, 0) := by
  obtain ⟨hd, hs, hfit, hmap, hcopy⟩ := append_true_conditions g a uuid d tex_data tex_size h
  subst hd
  obtain ⟨_, hco, hcur, hmax, _, _⟩ := append_of_conditions g a uuid d tex_size hs hfit hmap hcopy
  refine ⟨?_, ?_, ?_, ?_⟩
  · simp only [c_texatlas.coords, hco, if_true, uv_at, c_texatlas.wrapped]
    split_ifs <;> rfl
  · rw [hcur]; simp only [c_texatlas.wrapped]; split_ifs <;> rfl
  · rw [hmax]; simp only [c_texatlas.wrapped]; split_ifs <;> rfl
  · intro k items hk hne
    simp only [c_texatlas.coords, append_all_coords_ne g k items a hne, hk]

/-- Witness of C13: on `sample_atlas` a rectangle of 20 by 5 does not fit the first row and is
recorded on the second, at (0, 10). -/
theorem append_records_and_advances_witness :
    (sample_atlas.append {} 2 ⟨20, 5⟩ true 400).2.1.coords 2 = (0, 1 / 10, 1 / 5, 3 / 20) ∧
    (sample_atlas.append {} 2 ⟨20, 5⟩ true 400).2.1.m_cursor = ⟨20, 10⟩ ∧
    (sample_atlas.append {} 2 ⟨20, 5⟩ true 400).2.1.m_max_height = 5 := by
  have hw : (sample_atlas.wrapped ⟨20, 5⟩).m_cursor = ⟨0, 10⟩ := by
    norm_num [c_texatlas.wrapped, sample_atlas]
  have hok : (sample_atlas.append {} 2 ⟨20, 5⟩ true 400).1 = true :=
    (append_of_conditions {} sample_atlas 2 ⟨20, 5⟩ 400 (by decide)
      (by rw [hw]; norm_num [sample_atlas]) rfl
      (by
        have e : (⟨20, 5⟩ : point_t) = ⟨((20 : Nat) : ℚ), ((5 : Nat) : ℚ)⟩ := by norm_num
        rw [e]; exact copy_pixels_of_size _ 20 5 400 (by decide))).1
  obtain ⟨h1, h2, h3, _⟩ := append_records_and_advances {} sample_atlas 2 ⟨20, 5⟩ true 400 hok
  refine ⟨?_, ?_, ?_⟩
  · rw [h1]; norm_num [sample_atlas]
  · rw [h2]; norm_num [sample_atlas]
  · rw [h3]; norm_num [sample_atlas]

/-- The cursor and the row height after one `append`, whatever its outcome: untouched, or
those after the row wrap, with the row height possibly raised and the cursor possibly
advanced by the width. -/
theorem append_cursor_cases (g : daisy_t) (a : c_texatlas) (uuid : Nat) (d : point_t)
    (tex_data : Bool) (tex_size : Nat) :
    ((a.append g uuid d tex_data tex_size).2.1.m_cursor = a.m_cursor ∧
      (a.append g uuid d tex_data tex_size).2.1.m_max_height = a.m_max_height) ∨
    (((a.append g uuid d tex_data tex_size).2.1.m_cursor = (a.wrapped d).m_cursor ∨
      (a.append g uuid d tex_data tex_size).2.1.m_cursor
        = ⟨(a.wrapped d).m_cursor.x + d.x, (a.wrapped d).m_cursor.y⟩) ∧
     ((a.append g uuid d tex_data tex_size).2.1.m_max_height = (a.wrapped d).m_max_height ∨
      (a.append g uuid d tex_data tex_size).2.1.m_max_height
        = max (a.wrapped d).m_max_height d.y)) := by
  obtain ⟨_, _, _, hrcur, hrmax⟩ := raised_frame (a.wrapped d) d
  unfold c_texatlas.append
  dsimp only
  split_ifs
  · exact Or.inl ⟨rfl, rfl⟩
  · exact Or.inr ⟨Or.inl rfl, Or.inl rfl⟩
  · exact Or.inr ⟨Or.inl hrcur, Or.inr hrmax⟩
  · exact Or.inr ⟨Or.inl hrcur, Or.inr hrmax⟩
  · refine Or.inr ⟨Or.inr ?_, Or.inr hrmax⟩
    simp only [hrcur]

/-- One `append` of a rectangle with a non-negative width on an atlas with a non-negative
row height: the row height stays non-negative, the cursor does not go up, and it goes left only
by the row wrap. -/
theorem append_step_monotonic (g : daisy_t) (a : c_texatlas) (uuid : Nat) (d : point_t)
    (tex_data : Bool) (tex_size : Nat) (h0 : 0 ≤ a.m_max_height) (hx : 0 ≤ d.x) :
    0 ≤ (a.append g uuid d tex_data tex_size).2.1.m_max_height ∧
    a.m_cursor.y ≤ (a.append g uuid d tex_data tex_size).2.1.m_cursor.y ∧
    ((a.append g uuid d tex_data tex_size).2.1.m_cursor.x < a.m_cursor.x →
      a.m_cursor.x + d.x > a.m_dimensions.x ∧
      (a.append g uuid d tex_data tex_size).2.1.m_cursor.y = a.m_cursor.y + a.m_max_height) := by
  have hw : (a.m_cursor.x + d.x > a.m_dimensions.x ∧
        (a.wrapped d).m_cursor = ⟨0, a.m_cursor.y + a.m_max_height⟩ ∧
        (a.wrapped d).m_max_height = 0) ∨
      (¬ a.m_cursor.x + d.x > a.m_dimensions.x ∧ (a.wrapped d).m_cursor = a.m_cursor ∧
        (a.wrapped d).m_max_height = a.m_max_height) := by
    unfold c_texatlas.wrapped
    by_cases hc : a.m_cursor.x + d.x > a.m_dimensions.x
    · exact Or.inl ⟨hc, by simp only [hc, if_true], by simp only [hc, if_true]⟩
    · exact Or.inr ⟨hc, by simp only [hc, if_false], by simp only [hc, if_false]⟩
  have hmaxle : ∀ m : ℚ, 0 ≤ m → 0 ≤ max m d.y := fun m hm => le_trans hm (le_max_left _ _)
  rcases append_cursor_cases g a uuid d tex_data tex_size with ⟨hc, hm⟩ | ⟨hc, hm⟩
  · rw [hc, hm]
    exact ⟨h0, le_refl _, fun h => absurd h (lt_irrefl _)⟩
  · rcases hw with ⟨hwrap, hwc, hwm⟩ | ⟨hno, hwc, hwm⟩
    · rw [hwc] at hc
      rw [hwm] at hm
      refine ⟨?_, ?_, ?_⟩
      · rcases hm with hm | hm <;> rw [hm]
        exact hmaxle 0 (le_refl _)
      · rcases hc with hc | hc <;> rw [hc] <;> simpa using h0
      · intro _
        refine ⟨hwrap, ?_⟩
        rcases hc with hc | hc <;> rw [hc]
    · rw [hwc] at hc
      rw [hwm] at hm
      refine ⟨?_, ?_, ?_⟩
      · rcases hm with hm | hm <;> rw [hm]
        · exact h0
        · exact hmaxle _ h0
      · rcases hc with hc | hc <;> rw [hc]
      · intro hlt
        rcases hc with hc | hc <;> rw [hc] at hlt
        · exact absurd hlt (lt_irrefl _)
        · simp only at hlt
          linarith

/-- Over a sequence of appends from an atlas with a non-negative row height the row height
stays non-negative and the cursor does not go up. -/
theorem append_all_monotonic (g : daisy_t) :
    ∀ (items : List atlas_item) (a : c_texatlas), 0 ≤ a.m_max_height →
      (∀ it ∈ items, 0 ≤ it.dimensions.x) →
      0 ≤ (append_all g a items).m_max_height ∧
      a.m_cursor.y ≤ (append_all g a items).m_cursor.y := by
  intro items
  induction items with
  | nil => intro a h0 _; exact ⟨h0, le_refl _⟩
  | cons it rest ih =>
    intro a h0 hd
    obtain ⟨h1, h2, _⟩ := append_step_monotonic g a it.uuid it.dimensions it.tex_data it.tex_size
      h0 (hd it (List.mem_cons_self _ _))
    obtain ⟨h3, h4⟩ := ih _ h1 (fun it2 hm => hd it2 (List.mem_cons_of_mem _ hm))
    exact ⟨h3, le_trans h2 h4⟩

theorem append_all_append (g : daisy_t) :
    ∀ (pre post : List atlas_item) (a : c_texatlas),
      append_all g a (pre ++ post) = append_all g (append_all g a pre) post := by
  intro pre
  induction pre with
  | nil => intro post a; rfl
  | cons it rest ih =>
    intro post a
    show append_all g _ (rest ++ post) = _
    rw [ih]
    rfl

/-- C14, the claim as stated fails: on `sample_atlas`, where id 1 is recorded at
(0, 0, 9/10, 1/10), a later successful `append` of a 5 by 5 rectangle under the same id 1
changes the rectangle recorded for id 1 to (9/10, 0, 19/20, 1/20). -/
theorem append_same_id_moves_entry :
    sample_atlas.coords 1 = (0, 0, 9 / 10, 1 / 10) ∧
    (sample_atlas.append {} 1 ⟨5, 5⟩ true 100).1 = true ∧
    (sample_atlas.append {} 1 ⟨5, 5⟩ true 100).2.1.coords 1 = (9 / 10, 0, 19 / 20, 1 / 20) ∧
    (sample_atlas.append {} 1 ⟨5, 5⟩ true 100).2.1.coords 1 ≠ sample_atlas.coords 1 := by
  have hw : (sample_atlas.wrapped ⟨5, 5⟩).m_cursor = ⟨90, 0⟩ := by
    norm_num [c_texatlas.wrapped, sample_atlas]
  have hcopy : (copy_pixels (sample_atlas.wrapped ⟨5, 5⟩).m_cursor ⟨5, 5⟩ 100
      (pixel_iterations ⟨5, 5⟩)).1 = true := by
    have e : (⟨5, 5⟩ : point_t) = ⟨((5 : Nat) : ℚ), ((5 : Nat) : ℚ)⟩ := by norm_num
    rw [e]; exact copy_pixels_of_size _ 5 5 100 (by decide)
  obtain ⟨hok, hco, _⟩ := append_of_conditions {} sample_atlas 1 ⟨5, 5⟩ 100 (by decide)
    (by rw [hw]; norm_num [sample_atlas]) rfl hcopy
  have h0 : sample_atlas.coords 1 = (0, 0, 9 / 10, 1 / 10) := by
    simp [c_texatlas.coords, sample_atlas]
  have h1 : (sample_atlas.append {} 1 ⟨5, 5⟩ true 100).2.1.coords 1
      = (9 / 10, 0, 19 / 20, 1 / 20) := by
    simp only [c_texatlas.coords, hco, if_true, hw, uv_at]
    norm_num [sample_atlas]
  refine ⟨h0, hok, h1, ?_⟩
  rw [h0, h1]
  norm_num

/-- C14 as amended: over every sequence of `append` calls with non-negative widths, from an
atlas whose row height is non-negative (as `create` leaves it): the rectangle recorded for an
id is not changed by appends of other ids; the row offset `y` of the cursor never decreases;
and at each call of the sequence the cursor `x` decreases only when the call wraps to a new
row (`x + w > W`, the cursor then moving down by the row height). -/
theorem atlas_entries_fixed_cursor_monotonic (g : daisy_t) (a : c_texatlas)
    (items : List atlas_item) (h0 : 0 ≤ a.m_max_height)
    (hd : ∀ it ∈ items, 0 ≤ it.dimensions.x) :
    (∀ k, (∀ it ∈ items, it.uuid ≠ k) → (append_all g a items).coords k = a.coords k) ∧
    a.m_cursor.y ≤ (append_all g a items).m_cursor.y ∧
    ∀ (pre post : List atlas_item) (it : atlas_item), items = pre ++ it :: post →
      (append_all g a pre).m_cursor.y ≤ (append_all g a (pre ++ [it])).m_cursor.y ∧
      ((append_all g a (pre ++ [it])).m_cursor.x < (append_all g a pre).m_cursor.x →
        (append_all g a pre).m_cursor.x + it.dimensions.x > (append_all g a pre).m_dimensions.x ∧
        (append_all g a (pre ++ [it])).m_cursor.y
          = (append_all g a pre).m_cursor.y + (append_all g a pre).m_max_height) := by
  refine ⟨?_, (append_all_monotonic g items a h0 hd).2, ?_⟩
  · intro k hk
    simp only [c_texatlas.coords, append_all_coords_ne g k items a hk]
  · intro pre post it hsplit
    have hpre : ∀ it2 ∈ pre, 0 ≤ it2.dimensions.x := fun it2 hm =>
      hd it2 (by rw [hsplit]; exact List.mem_append_left _ hm)
    have hit : 0 ≤ it.dimensions.x :=
      hd it (by rw [hsplit]; exact List.mem_append_right _ (List.mem_cons_self _ _))
    have hinv := (append_all_monotonic g pre a h0 hpre).1
    obtain ⟨_, h2, h3⟩ := append_step_monotonic g (append_all g a pre) it.uuid it.dimensions
      it.tex_data it.tex_size hinv hit
    rw [append_all_append]
    exact ⟨h2, h3⟩

/-- Witness of C14 as amended: the three appends of `sample_items` on `sample_atlas`. -/
theorem atlas_entries_fixed_cursor_monotonic_witness :
    (∀ k, (∀ it ∈ sample_items, it.uuid ≠ k) →
      (append_all {} sample_atlas sample_items).coords k = sample_atlas.coords k) ∧
    sample_atlas.m_cursor.y ≤ (append_all {} sample_atlas sample_items).m_cursor.y :=
  ⟨(atlas_entries_fixed_cursor_monotonic {} sample_atlas sample_items
      (by norm_num [sample_atlas])
      (by intro it hit
          simp only [sample_items, List.mem_cons, List.mem_singleton, List.not_mem_nil,
            or_false] at hit
          rcases hit with rfl | rfl | rfl <;> norm_num)).1,
   (atlas_entries_fixed_cursor_monotonic {} sample_atlas sample_items
      (by norm_num [sample_atlas])
      (by intro it hit
          simp only [sample_items, List.mem_cons, List.mem_singleton, List.not_mem_nil,
            or_false] at hit
          rcases hit with rfl | rfl | rfl <;> norm_num)).2.1⟩

/-! ### Double-buffered queue -/

/-- The side to write and the side to flush are the two members, in one of the two orders. -/
theorem queue_flushed_cases (d : c_doublebuffer_queue) :
    (d.queue = .m_front_queue ∧ d.flushed = .m_back_queue) ∨
    (d.queue = .m_back_queue ∧ d.flushed = .m_front_queue) := by
  cases h : d.m_swap_drawlists <;>
    simp [c_doublebuffer_queue.queue, c_doublebuffer_queue.flushed, h]

/-- C15: for both values of the toggle the member returned by `queue` differs from the member
`flush` flushes, the two being the front and the back queue in one of the two orders; `flush`
calls `flush` on that other member only and leaves the member returned by `queue` as it is;
and after any number of `swap` calls the two still differ. -/
theorem writer_and_flusher_differ (g : daisy_t) (d : c_doublebuffer_queue) :
    d.queue ≠ d.flushed ∧
    ((d.queue = .m_front_queue ∧ d.flushed = .m_back_queue) ∨
      (d.queue = .m_back_queue ∧ d.flushed = .m_front_queue)) ∧
    (d.flush g).1.member d.flushed = (flush g (d.member d.flushed)).1 ∧
    (d.flush g).2 = (flush g (d.member d.flushed)).2 ∧
    (d.flush g).1.member d.queue = d.member d.queue ∧
    ∀ n : Nat, (c_doublebuffer_queue.swap^[n] d).queue
      ≠ (c_doublebuffer_queue.swap^[n] d).flushed := by
  have hne : ∀ e : c_doublebuffer_queue, e.queue ≠ e.flushed := by
    intro e
    rcases queue_flushed_cases e with ⟨h1, h2⟩ | ⟨h1, h2⟩ <;> rw [h1, h2] <;> decide
  refine ⟨hne d, queue_flushed_cases d, ?_, ?_, ?_, fun n => hne _⟩ <;>
    cases h : d.m_swap_drawlists <;>
    simp [c_doublebuffer_queue.queue, c_doublebuffer_queue.flushed, c_doublebuffer_queue.flush,
      c_doublebuffer_queue.member, h]

/-- C16: one `swap` exchanges the roles: the member flushed after it is the one `queue`
returned before it, and the member `queue` returns after it is the one flushed before it;
`swap` leaves both queues as they are; two swaps restore the object. -/
theorem swap_exchanges_roles (d : c_doublebuffer_queue) :
    d.swap.flushed = d.queue ∧ d.swap.queue = d.flushed ∧
    d.swap.m_front_queue = d.m_front_queue ∧ d.swap.m_back_queue = d.m_back_queue ∧
    d.swap.swap = d := by
  refine ⟨?_, ?_, rfl, rfl, ?_⟩
  · cases h : d.m_swap_drawlists <;>
      simp [c_doublebuffer_queue.queue, c_doublebuffer_queue.flushed,
        c_doublebuffer_queue.swap, h]
  · cases h : d.m_swap_drawlists <;>
      simp [c_doublebuffer_queue.queue, c_doublebuffer_queue.flushed,
        c_doublebuffer_queue.swap, h]
  · obtain ⟨f, b, t⟩ := d
    cases t <;> rfl

/-! ### Glyph atlas build -/

/-- The spacing at some line heights: the ceiling of three tenths of the height at 20 and at
20000, one more than it at 50, where the rounded product `50 * 0.3f` is above 15. -/
theorem spacing_of_values :
    spacing_of 20 = 6 ∧ spacing_of 20000 = 6000 ∧ spacing_of 10 = 3 ∧ spacing_of 50 = 16 ∧
    spacing_of 0 = 0 := by
  decide

/-- The glyph loop records nothing under a key that none of its characters has. -/
theorem layout_glyphs_other_key (dc : gdi_font) (font : c_fontwrapper) (measure : Bool)
    (k : Nat) :
    ∀ (codes : List Nat) (x y : Nat) (m : Nat → Option uv_t), (∀ c ∈ codes, u16 c ≠ k) →
      (layout_glyphs dc font measure codes x y m).2 k = m k := by
  intro codes
  induction codes with
  | nil => intro x y m _; rfl
  | cons ch rest ih =>
    intro x y m hk
    have hrest : ∀ c ∈ rest, u16 c ≠ k := fun c hc => hk c (List.mem_cons_of_mem _ hc)
    have hch : k ≠ u16 ch := fun e => hk ch (List.mem_cons_self _ _) e.symm
    rw [layout_glyphs]
    cases hext : dc.GetTextExtentPoint32W ch with
    | none => exact ih x y m hrest
    | some size =>
      obtain ⟨cx, cy⟩ := size
      dsimp only
      split_ifs <;>
        first
        | rfl
        | exact ih _ _ _ hrest
        | (rw [ih _ _ _ hrest]; simp [hch])

/-- C19, the claim as stated fails: in the commit pass for `sample_dc` on a texture of 128 by
128 with spacing 6, the glyph `A` (10 wide, 20 high) is painted at the layout position (6, 0),
the only position at which `ExtTextOutW` is let to succeed here, and the rectangle recorded
for it is (0, 0, 22/128, 20/128), not (6/128, 0, 16/128, 20/128). -/
theorem commit_pass_pads_uv :
    (layout_glyphs { sample_dc with ExtTextOutW := fun x y ch => x = 6 ∧ y = 0 ∧ ch = 65 }
        sample_commit_font false [65] 6 0 (fun _ => none)).1 = 0 ∧
    (layout_glyphs { sample_dc with ExtTextOutW := fun x y ch => x = 6 ∧ y = 0 ∧ ch = 65 }
        sample_commit_font false [65] 6 0 (fun _ => none)).2 65
      = some (0, 0, 22 / 128, 20 / 128) ∧
    (layout_glyphs { sample_dc with ExtTextOutW := fun x y ch => x = 6 ∧ y = 0 ∧ ch = 65 }
        sample_commit_font false [65] 6 0 (fun _ => none)).2 65
      ≠ some ((6 : ℚ) / 128, (0 : ℚ) / 128, ((6 + 10 : ℚ)) / 128, ((0 + 20 : ℚ)) / 128) := by
  have h : (layout_glyphs { sample_dc with ExtTextOutW := fun x y ch => x = 6 ∧ y = 0 ∧ ch = 65 }
        sample_commit_font false [65] 6 0 (fun _ => none)).2 65
      = some (0, 0, 22 / 128, 20 / 128) := by
    norm_num [layout_glyphs, sample_dc, sample_gdi, sample_commit_font, u16]
  refine ⟨?_, h, ?_⟩
  · norm_num [layout_glyphs, sample_dc, sample_gdi, sample_commit_font, u16]
  · rw [h]; norm_num

/-- C19 as amended: when the commit pass, at the layout position `(x, y)`, comes to a glyph
`ch` of measured size `(cx, cy)` and runs to its end with return code 0, the glyph has been
painted at `(px, py)`, the position after the optional row wrap, inside the texture height,
and, no later glyph of the pass having the same key, the rectangle recorded for `ch` is
`((px - spacing)/width, py/height, (px + cx + spacing)/width, (py + cy)/height)`; `coords`
returns the rectangle of a character in the table and `(0, 0, 0, 0)` for one that is not. -/
theorem commit_pass_records_padded_uv (dc : gdi_font) (font : c_fontwrapper) (ch : Nat)
    (rest : List Nat) (x y cx cy : Nat) (m : Nat → Option uv_t)
    (hext : dc.GetTextExtentPoint32W ch = some (cx, cy))
    (hkeys : ∀ c ∈ rest, u16 c ≠ u16 ch)
    (hdone : (layout_glyphs dc font false (ch :: rest) x y m).1 = 0) :
    dc.ExtTextOutW (if x + cx + font.m_spacing > font.m_width then font.m_spacing else x)
      (if x + cx + font.m_spacing > font.m_width then y + cy + 1 else y) ch = true ∧
    (if x + cx + font.m_spacing > font.m_width then y + cy + 1 else y) + cy ≤ font.m_height ∧
    (layout_glyphs dc font false (ch :: rest) x y m).2 (u16 ch)
      = some
        ( (((if x + cx + font.m_spacing > font.m_width then font.m_spacing else x)
              - font.m_spacing : Nat) : ℚ) / font.m_width,
          (((if x + cx + font.m_spacing > font.m_width then y + cy + 1 else y) : Nat) : ℚ)
            / font.m_height,
          (((if x + cx + font.m_spacing > font.m_width then font.m_spacing else x) + cx
              + font.m_spacing : Nat) : ℚ) / font.m_width,
          (((if x + cx + font.m_spacing > font.m_width then y + cy + 1 else y) + cy : Nat) : ℚ)
            / font.m_height ) ∧
    (∀ (f : c_fontwrapper) (c : Int) (uv : uv_t),
      f.m_coords (wchar_key c) = some uv → f.coords c = uv) ∧
    (∀ (f : c_fontwrapper) (c : Int), f.m_coords (wchar_key c) = none → f.coords c = (0, 0, 0, 0)) := by
  rw [layout_glyphs, hext] at hdone ⊢
  simp only [decide_eq_true_eq, Bool.false_eq_true, if_false] at hdone ⊢
  generalize (if x + cx + font.m_spacing > font.m_width then font.m_spacing else x) = px
    at hdone ⊢
  generalize (if x + cx + font.m_spacing > font.m_width then y + cy + 1 else y) = py
    at hdone ⊢
  by_cases hover : py + cy > font.m_height
  · simp [hover] at hdone
  · simp only [hover, if_false] at hdone ⊢
    cases hout : dc.ExtTextOutW px py ch with
    | false => simp [hout] at hdone
    | true =>
      simp only [hout, Bool.not_true, Bool.false_eq_true, if_false] at hdone ⊢
      refine ⟨trivial, Nat.not_lt.mp hover, ?_, ?_, ?_⟩
      · rw [layout_glyphs_other_key dc font false (u16 ch) rest _ _ _ hkeys]
        simp
      · intro f c uv h; simp [c_fontwrapper.coords, h]
      · intro f c h; simp [c_fontwrapper.coords, h]

/-- Witness of C19 as amended: the commit pass for `sample_dc` over `A`, `B`, `x` from the
layout position (6, 0) paints `A` at (6, 0) and records (0, 0, 22/128, 20/128) for it. -/
theorem commit_pass_records_padded_uv_witness :
    sample_dc.ExtTextOutW 6 0 65 = true ∧
    (layout_glyphs sample_dc sample_commit_font false [65, 66, 120] 6 0 (fun _ => none)).2 65
      = some (0, 0, 22 / 128, 20 / 128) := by
  have hext : sample_dc.GetTextExtentPoint32W 65 = some (10, 20) := by decide
  have h := commit_pass_records_padded_uv sample_dc sample_commit_font 65 [66, 120] 6 0 10 20
    (fun _ => none) hext (by decide)
    (by simp [layout_glyphs, sample_dc, sample_gdi, sample_commit_font])
  refine ⟨rfl, ?_⟩
  have h3 := h.2.2.1
  have hk : u16 65 = 65 := by decide
  rw [hk] at h3
  rw [h3]
  norm_num [sample_commit_font]

/-- The font `create_gdi_font` creates does not depend on `m_scale`, nor on anything but the
configuration. -/
theorem create_gdi_font_congr (gdi : gdi_t) (a b : c_fontwrapper) (h : same_layout_inputs a b) :
    create_gdi_font gdi a = create_gdi_font gdi b := by
  obtain ⟨h1, h2, h3, h4, _, _⟩ := h
  simp only [create_gdi_font, h1, h2, h3, h4]

/-- The return code of the glyph loop in measure mode depends on the spacing and the texture
dimensions only. -/
theorem layout_glyphs_code_congr (dc : gdi_font) (a b : c_fontwrapper)
    (hs : a.m_spacing = b.m_spacing) (hw : a.m_width = b.m_width) (hh : a.m_height = b.m_height) :
    ∀ (codes : List Nat) (x y : Nat) (m n : Nat → Option uv_t),
      (layout_glyphs dc a true codes x y m).1 = (layout_glyphs dc b true codes x y n).1 := by
  intro codes
  induction codes with
  | nil => intro x y m n; rfl
  | cons ch rest ih =>
    intro x y m n
    rw [layout_glyphs, layout_glyphs]
    cases hext : dc.GetTextExtentPoint32W ch with
    | none => exact ih x y m n
    | some size =>
      obtain ⟨cx, cy⟩ := size
      simp only [hs, hw, hh, if_true]
      split_ifs <;> first | rfl | exact ih _ _ _ _

/-- The measure pass: its return code depends on the configuration and the texture dimensions
only, and it leaves both as they are. -/
theorem measure_pass_congr (g : daisy_t) (dc : gdi_font) (a b : c_fontwrapper)
    (h : same_layout_inputs a b) :
    (paint_or_measure_alphabet g dc a true).1 = (paint_or_measure_alphabet g dc b true).1 ∧
    same_layout_inputs a (paint_or_measure_alphabet g dc a true).2 := by
  obtain ⟨h1, h2, h3, h4, h5, h6⟩ := h
  unfold paint_or_measure_alphabet
  cases dc.GetTextExtentPoint32W 120 with
  | none => exact ⟨rfl, rfl, rfl, rfl, rfl, rfl, rfl⟩
  | some size =>
    obtain ⟨cx, cy⟩ := size
    dsimp only
    split_ifs
    · exact ⟨rfl, rfl, rfl, rfl, rfl, rfl, rfl⟩
    · exact ⟨rfl, rfl, rfl, rfl, rfl, rfl, rfl⟩
    · cases dc.GetFontUnicodeRanges with
      | none => exact ⟨rfl, rfl, rfl, rfl, rfl, rfl, rfl⟩
      | some ranges =>
        refine ⟨?_, rfl, rfl, rfl, rfl, rfl, rfl⟩
        exact layout_glyphs_code_congr dc { a with m_spacing := spacing_of cy }
          { b with m_spacing := spacing_of cy } rfl h5 h6 _ _ _ _ _

theorem same_layout_inputs_trans {a b c : c_fontwrapper} (h1 : same_layout_inputs a b)
    (h2 : same_layout_inputs b c) : same_layout_inputs a c :=
  ⟨h1.1.trans h2.1, h1.2.1.trans h2.2.1, h1.2.2.1.trans h2.2.2.1,
   h1.2.2.2.1.trans h2.2.2.2.1, h1.2.2.2.2.1.trans h2.2.2.2.2.1,
   h1.2.2.2.2.2.trans h2.2.2.2.2.2⟩

theorem same_layout_inputs_symm {a b : c_fontwrapper} (h : same_layout_inputs a b) :
    same_layout_inputs b a :=
  ⟨h.1.symm, h.2.1.symm, h.2.2.1.symm, h.2.2.2.1.symm, h.2.2.2.2.1.symm, h.2.2.2.2.2.symm⟩

/-- Once the measure pass at the dimensions of the retry loop reports an overflow, the retry
loop of `create_ex` reports it at every iteration: the font is created from `m_size` each time,
whatever `m_scale` has become, so no amount of fuel ends the loop. -/
theorem shrink_retry_diverges (g : daisy_t) (gdi : gdi_t) (k : c_fontwrapper)
    (hk : (paint_or_measure_alphabet g (create_gdi_font gdi k) k true).1 = 2) :
    ∀ (fuel : Nat) (first_iteration : Bool) (font : c_fontwrapper), same_layout_inputs font k →
      shrink_retry g gdi fuel first_iteration font = none := by
  intro fuel
  induction fuel with
  | zero => intro first_iteration font _; rfl
  | succ fuel ih =>
    intro first_iteration font hsame
    rw [shrink_retry]
    have hscaled : same_layout_inputs
        (if (!first_iteration) = true then { font with m_scale := font.m_scale * (9 / 10) }
          else font) k := by
      split_ifs
      · exact hsame
      · exact hsame
    generalize (if (!first_iteration) = true then { font with m_scale := font.m_scale * (9 / 10) }
      else font) = f at hscaled
    rw [create_gdi_font_congr gdi f k hscaled]
    obtain ⟨hcode, hkeep⟩ := measure_pass_congr g (create_gdi_font gdi k) f k hscaled
    rw [hcode, hk, if_pos rfl]
    exact ih false _ (same_layout_inputs_trans (same_layout_inputs_symm hkeep) hscaled)

/-- A doubling loop of `create_ex` that ends within some fuel ends the same way under more. -/
theorem measure_doubling_mono (g : daisy_t) (dc : gdi_font) :
    ∀ (fuel : Nat) (font result : c_fontwrapper),
      measure_doubling g dc fuel font = some result →
      measure_doubling g dc (fuel + 1) font = some result := by
  intro fuel
  induction fuel with
  | zero => intro font result h; simp [measure_doubling] at h
  | succ fuel ih =>
    intro font result h
    rw [measure_doubling] at h ⊢
    dsimp only at h ⊢
    split_ifs at h ⊢ with hc
    · exact ih _ _ h
    · exact h

theorem measure_doubling_mono_le (g : daisy_t) (dc : gdi_font) (fuel : Nat)
    (font result : c_fontwrapper) (h : measure_doubling g dc fuel font = some result) :
    ∀ more, measure_doubling g dc (fuel + more) font = some result := by
  intro more
  induction more with
  | zero => exact h
  | succ more ih => exact measure_doubling_mono g dc _ _ _ ih

/-- The build does not return when the first loop does not end, or when it ends above the
ceiling and the retry loop does not end. -/
theorem create_ex_none (g : daisy_t) (gdi : gdi_t) (fuel : Nat) (font : c_fontwrapper)
    (hdev : g.s_device = true)
    (h : measure_doubling g (create_gdi_font gdi { font with m_texture_srv := 0, m_texture := 0 })
          fuel { font with m_texture_srv := 0, m_texture := 0, m_width := 128, m_height := 128 }
          = none ∨
        ∃ f, measure_doubling g
            (create_gdi_font gdi { font with m_texture_srv := 0, m_texture := 0 }) fuel
            { font with m_texture_srv := 0, m_texture := 0, m_width := 128, m_height := 128 }
            = some f ∧
          f.m_width > max_texture_size ∧
          shrink_retry g gdi fuel true
            { f with m_scale := (max_texture_size : ℚ) / f.m_width,
                     m_width := max_texture_size, m_height := max_texture_size } = none) :
    create_ex g gdi fuel font = none := by
  unfold create_ex
  simp only [hdev, Bool.not_true, Bool.false_eq_true, if_false]
  rcases h with h | ⟨f, hf, hw, hs⟩
  · simp only [h]
  · simp only [hf, hw, if_true, hs]

/-- C20, the code at the failing input: with the rasterizer `sample_gdi`, whose glyphs scale
with the font height, `create` for the height 20000 never returns, whatever the fuel: the
first loop ends at 65536 by 65536, above the ceiling, and the retry loop measures the font of
height 20000 again at every iteration, because `create_gdi_font` passes `m_size` and not
`m_size` times `m_scale`. The font of the first retry as the claim describes it, height
20000 times the scale 16384/65536 = 5000, fits the ceiling dimensions. -/
theorem shrink_retry_ignores_scale :
    (∀ fuel, c_fontwrapper.create {} sample_gdi fuel {} [] 20000 0 0 = none) ∧
    (paint_or_measure_alphabet {} (sample_gdi.CreateFontA 5000 400 false 0 [])
      { m_size := 20000, m_width := 16384, m_height := 16384 } true).1 = 0 := by
  refine ⟨?_, by decide⟩
  intro fuel
  unfold c_fontwrapper.create
  apply create_ex_none _ _ _ _ rfl
  by_cases hfuel : fuel < 10
  · left
    have hnone : ∀ o : Option c_fontwrapper, o.isNone = true → o = none := by
      intro o ho; cases o with
      | none => rfl
      | some v => simp at ho
    apply hnone
    interval_cases fuel <;> decide
  · right
    have h10 : ∃ f, measure_doubling {} (create_gdi_font sample_gdi { m_size := 20000 }) 10
          { m_size := 20000, m_scale := 1, m_width := 128, m_height := 128 } = some f ∧
        f.m_width = 65536 ∧ f.m_size = 20000 ∧ f.m_flags = 0 ∧ f.m_quality = 0 ∧
        f.m_family = [] := by
      have hproj : (measure_doubling {} (create_gdi_font sample_gdi { m_size := 20000 }) 10
          { m_size := 20000, m_scale := 1, m_width := 128, m_height := 128 }).map
            (fun f => (f.m_width, f.m_size, f.m_flags, f.m_quality, f.m_family))
            = some (65536, 20000, 0, 0, []) := by decide
      cases hm : measure_doubling {} (create_gdi_font sample_gdi { m_size := 20000 }) 10
          { m_size := 20000, m_scale := 1, m_width := 128, m_height := 128 } with
      | none => rw [hm] at hproj; simp at hproj
      | some f =>
        rw [hm] at hproj
        simp only [Option.map_some', Option.some.injEq, Prod.mk.injEq] at hproj
        exact ⟨f, rfl, hproj.1, hproj.2.1, hproj.2.2.1, hproj.2.2.2.1, hproj.2.2.2.2⟩
    obtain ⟨f, hf, hw, hsz, hfl, hq, hfam⟩ := h10
    obtain ⟨more, rfl⟩ : ∃ more, fuel = 10 + more := ⟨fuel - 10, by omega⟩
    refine ⟨f, measure_doubling_mono_le _ _ 10 _ f hf more, by rw [hw]; decide, ?_⟩
    apply shrink_retry_diverges {} sample_gdi
      { m_size := 20000, m_width := 16384, m_height := 16384 } (by decide)
    exact ⟨hsz, hfl, hq, hfam, rfl, rfl⟩

/-! ### Text extent and text geometry -/

theorem wchar_key_tab : wchar_key 9 = 9 := by decide

theorem wchar_key_C : wchar_key 67 = 67 := by decide

/-- C17, the code at the failing input: for the font that `create` builds from `sample_gdi`
at height 20 (glyphs `A`, `B`, `x`; spacing 6, scale 1), `text_extent` of the one-character
text tab (code 9) has x = 0, because its loop skips every character below 32, whereas the
cursor of `push_text` moves by `w - 2 * spacing + 1 = -11` over that text; for the text `C`
(code 67, absent from the atlas) `text_extent` has x = 0 again, because it returns the
largest row width reached and never a negative one, whereas the cursor moves by -11. -/
theorem text_extent_differs_from_push_text_advance :
    ∃ font, c_fontwrapper.create {} sample_gdi 40 {} [] 20 0 0 = some (true, font) ∧
      (font.text_extent [9]).1.x = 0 ∧
      push_text_advance sample_empty_queue font ⟨0, 0⟩ [9] {} = -11 ∧
      (font.text_extent [67]).1.x = 0 ∧
      push_text_advance sample_empty_queue font ⟨0, 0⟩ [67] {} = -11 := by
  have hproj : (c_fontwrapper.create {} sample_gdi 40 {} [] 20 0 0).map
      (fun r => (r.1, r.2.m_width, r.2.m_spacing, (r.2.m_coords 9).isNone,
        (r.2.m_coords 67).isNone, (r.2.m_coords 32).isNone))
      = some (true, 128, 6, true, true, true) := by decide
  have hscale : (c_fontwrapper.create {} sample_gdi 40 {} [] 20 0 0).map
      (fun r => r.2.m_scale) = some 1 := rfl
  cases hm : c_fontwrapper.create {} sample_gdi 40 {} [] 20 0 0 with
  | none => rw [hm] at hscale; simp at hscale
  | some r =>
    obtain ⟨ok, font⟩ := r
    rw [hm] at hproj hscale
    simp only [Option.map_some', Option.some.injEq, Prod.mk.injEq, Option.isNone_iff_eq_none]
      at hproj hscale
    obtain ⟨hok, hw, hsp, h9, h67, h32⟩ := hproj
    subst hok
    refine ⟨font, rfl, ?_, ?_, ?_, ?_⟩
    · simp [c_fontwrapper.text_extent, text_extent_step]
    · simp [push_text_advance, push_text_cursor, push_text_step, c_fontwrapper.coords,
        wchar_key_tab, h9, hw, hsp, hscale]
      norm_num
    · simp [c_fontwrapper.text_extent, text_extent_step, coords_index, h32, h67, wchar_key_C,
        hw, hsp]
      intro h
      norm_num at h
    · simp [push_text_advance, push_text_cursor, push_text_step, c_fontwrapper.coords,
        wchar_key_C, h67, hw, hsp, hscale]
      norm_num

/-- C18, the code at the failing input: on an empty queue, `push_text` of the one-character
text tab (code 9, a control character) writes 4 vertices and 6 indices and records a batch of
2 primitives, as for a visible glyph; only the space (code 32) and the newline (code 10) write
none. The text tab, space, `A`, newline, unit separator (code 31) adds 12 vertices, 18 indices
and 6 primitives, where one character only is neither a space nor a control character. -/
theorem control_character_gets_a_quad :
    (push_text {} sample_empty_queue sample_font ⟨0, 0⟩ [9] {} 0).map
        (fun r => (r.1.m_vtxs.m_size, r.1.m_idxs.m_size, r.1.m_drawcalls))
      = some (4, 6, [.CALL_TRI 7 2 4 6]) ∧
    (push_text {} sample_empty_queue sample_font ⟨0, 0⟩ [32] {} 0).map
        (fun r => (r.1.m_vtxs.m_size, r.1.m_idxs.m_size, r.1.m_drawcalls))
      = some (0, 0, [.CALL_TRI 7 0 0 0]) ∧
    (push_text {} sample_empty_queue sample_font ⟨0, 0⟩ [10] {} 0).map
        (fun r => (r.1.m_vtxs.m_size, r.1.m_idxs.m_size, r.1.m_drawcalls))
      = some (0, 0, [.CALL_TRI 7 0 0 0]) ∧
    (push_text {} sample_empty_queue sample_font ⟨0, 0⟩ [9, 32, 65, 10, 31] {} 0).map
        (fun r => (r.1.m_vtxs.m_size, r.1.m_idxs.m_size, r.1.m_drawcalls))
      = some (12, 18, [.CALL_TRI 7 6 12 18]) := by
  decide

/-! ### Reset of the font wrapper, failures of the upload and of the allocation -/

/-- C22: for every font wrapper, `reset( true )` returns `true`; afterwards the two texture
handles are null and every other member is as before (the character table, the texture width
and height, the spacing, the scale, the size, quality, flags and family), so that `coords` and
`text_extent` return the same values before and after it. -/
theorem pre_reset_releases_texture_only (g : daisy_t) (gdi : gdi_t) (fuel : Nat)
    (font : c_fontwrapper) :
    ∃ r, font.reset g gdi fuel true = some (true, r) ∧
      r.m_texture = 0 ∧ r.m_texture_srv = 0 ∧
      r.m_coords = font.m_coords ∧ r.m_width = font.m_width ∧ r.m_height = font.m_height ∧
      r.m_spacing = font.m_spacing ∧ r.m_scale = font.m_scale ∧ r.m_size = font.m_size ∧
      r.m_quality = font.m_quality ∧ r.m_flags = font.m_flags ∧ r.m_family = font.m_family ∧
      (∀ c, r.coords c = font.coords c) ∧
      (∀ s, (r.text_extent s).1 = (font.text_extent s).1) :=
  ⟨_, rfl, rfl, rfl, rfl, rfl, rfl, rfl, rfl, rfl, rfl, rfl, rfl, fun _ => rfl, fun _ => rfl⟩

/-- C23, the code at the failing inputs. On `sample_recorded_queue` with the vertex buffer
marked for re-creation and a device whose `CreateBuffer` fails, `flush` still issues its two
indexed draws, after binding the null handle that the failed call left in place of the
released vertex buffer. With a context whose `Map` fails, `flush` issues the two draws as
well, and `update` has cleared `m_update`, so that the next `flush` does not upload. -/
theorem flush_draws_after_failed_upload :
    (flush { CreateBuffer := fun _ _ => 0 }
        { sample_recorded_queue with m_realloc_vtx := true }).2.filter is_draw_call
      = [.DrawIndexed 6 0 0, .DrawIndexed 3 6 4] ∧
    (flush { CreateBuffer := fun _ _ => 0 }
        { sample_recorded_queue with m_realloc_vtx := true }).1.m_vertex_buffer = 0 ∧
    (flush { CreateBuffer := fun _ _ => 0 }
        { sample_recorded_queue with m_realloc_vtx := true }).1.m_update = true ∧
    (flush { Map := fun _ => false } sample_recorded_queue).2.filter is_draw_call
      = [.DrawIndexed 6 0 0, .DrawIndexed 3 6 4] ∧
    sample_recorded_queue.m_update = true ∧
    (flush { Map := fun _ => false } sample_recorded_queue).1.m_update = false := by
  decide

theorem ensure_capacity_std_eq {α : Type} (g : daisy_t) (zero : α) (slot_bytes : Nat)
    (buf : renderbuffer_t α) (realloc : Bool) (to_add : Nat)
    (hal : ∀ n, g.make_unique n = true) :
    ensure_capacity_std g zero slot_bytes buf realloc to_add
      = ensure_capacity g zero slot_bytes buf realloc to_add := by
  unfold ensure_capacity_std ensure_capacity
  split_ifs with h
  · cases grow_capacity (u32 (buf.m_size + to_add)) grow_fuel buf.m_capacity with
    | none => rfl
    | some capacity => simp [hal]
  · rfl

/-- C24, the code when the allocation fails. With `stl = std` (the default) a block of
`ensure_buffers_capacity` that has to grow and whose allocation fails does not return: the
exception `std::bad_alloc` leaves the `noexcept` function through `std::terminate`, after the
doubling loop has written the new `m_capacity`. So on `sample_empty_queue` (both blocks of 2
slots, both capacities 2) `ensure_buffers_capacity( 4, 6 )`, as `push_filled_rectangle` calls
it, does not return when the allocation of the 4-slot vertex block fails. When every
allocation succeeds the function runs as `ensure_buffers_capacity`. -/
theorem failed_allocation_does_not_return :
    (∀ (g : daisy_t) (buf : renderbuffer_t daisy_vtx_t) (realloc : Bool)
        (to_add capacity : Nat),
      u32 (buf.m_size + to_add) > buf.m_capacity →
      grow_capacity (u32 (buf.m_size + to_add)) grow_fuel buf.m_capacity = some capacity →
      g.make_unique (capacity * 28) = false →
      ensure_capacity_std g zero_vtx 28 buf realloc to_add = none ∧
      ∀ q ia, q.m_vtxs = buf → ensure_buffers_capacity_std g q to_add ia = none) ∧
    grow_capacity (u32 (sample_empty_queue.m_vtxs.m_size + 4)) grow_fuel
      sample_empty_queue.m_vtxs.m_capacity = some 4 ∧
    ensure_buffers_capacity_std { make_unique := fun _ => false } sample_empty_queue 4 6
      = none ∧
    (∀ (g : daisy_t) (q : c_renderqueue) (va ia : Nat), (∀ n, g.make_unique n = true) →
      ensure_buffers_capacity_std g q va ia = ensure_buffers_capacity g q va ia) := by
  refine ⟨?_, by decide, by decide, ?_⟩
  · intro g buf realloc to_add capacity hgt hgrow hfail
    have h1 : ∀ r, ensure_capacity_std g zero_vtx 28 buf r to_add = none := by
      intro r
      unfold ensure_capacity_std
      rw [if_pos hgt, hgrow]
      simp [hfail]
    refine ⟨h1 realloc, ?_⟩
    intro q ia hq
    unfold ensure_buffers_capacity_std
    rw [hq, h1]
  · intro g q va ia hal
    unfold ensure_buffers_capacity_std ensure_buffers_capacity
    rw [ensure_capacity_std_eq g _ _ _ _ _ hal, ensure_capacity_std_eq g _ _ _ _ _ hal]

/-! ### The circle fan -/

/-- An iteration of the loop of `push_filled_circle` before the last one stores the rim
vertex and, after the first iteration, one triangle. -/
theorem circle_step_inner (g : daisy_t) (center : point_t) (radius : ℚ) (n : Nat)
    (outer_color : color_t) (a : Nat) (acc : List daisy_vtx_t × List Nat) (i : Nat)
    (hi : i < n) :
    circle_step g center radius n outer_color a acc i
      = (acc.1 ++ [rim_vertex g center radius n outer_color i],
         if i ≠ 0 then acc.2 ++ [u16 a, u16 (a + i), u16 (a + i + 1)] else acc.2) := by
  have hne : ¬ ((i : Int) = (n : Int)) := by omega
  simp [circle_step, rim_vertex, hne]

/-- The last iteration of the loop of `push_filled_circle` stores the closing triangle. -/
theorem circle_step_last (g : daisy_t) (center : point_t) (radius : ℚ) (n : Nat)
    (outer_color : color_t) (a : Nat) (acc : List daisy_vtx_t × List Nat) (hn : n ≠ 0) :
    circle_step g center radius n outer_color a acc n
      = (acc.1, acc.2 ++ [u16 a, u16 (a + n), u16 (a + 1)]) := by
  simp [circle_step, hn]

/-- The loop of `push_filled_circle` over its first `k` iterations, none of them the last. -/
theorem circle_fold_inner (g : daisy_t) (center : point_t) (radius : ℚ) (n : Nat)
    (outer_color : color_t) (a : Nat) (first : List daisy_vtx_t) :
    ∀ k, k ≤ n →
      (List.range k).foldl (circle_step g center radius n outer_color a) (first, [])
        = (first ++ (List.range k).map (rim_vertex g center radius n outer_color),
           (List.range (k - 1)).flatMap
             (fun j => [u16 a, u16 (a + (j + 1)), u16 (a + (j + 1) + 1)])) := by
  intro k
  induction k with
  | zero => intro _; simp
  | succ k ih =>
    intro hk
    rw [List.range_succ, List.foldl_append, ih (by omega)]
    simp only [List.foldl_cons, List.foldl_nil]
    rw [circle_step_inner g center radius n outer_color a _ k (by omega)]
    rcases Nat.eq_zero_or_pos k with h0 | hpos
    · subst h0; simp
    · obtain ⟨j, rfl⟩ : ∃ j, k = j + 1 := ⟨k - 1, by omega⟩
      simp [List.range_succ, List.flatMap_append]

/-- The whole loop of `push_filled_circle` for `n ≥ 1` segments: the centre, the `n` rim
vertices, and the indices of the fan. -/
theorem circle_fold (g : daisy_t) (center : point_t) (radius : ℚ) (n : Nat)
    (outer_color : color_t) (a : Nat) (first : List daisy_vtx_t) (hn : 1 ≤ n) :
    (List.range (Int.toNat ((n : Int) + 1))).foldl
        (circle_step g center radius n outer_color a) (first, [])
      = (first ++ (List.range n).map (rim_vertex g center radius n outer_color),
         (fan_triangles a n).flatMap (fun t => [u16 t.1, u16 t.2.1, u16 t.2.2])) := by
  have hto : Int.toNat ((n : Int) + 1) = n + 1 := by omega
  rw [hto, List.range_succ, List.foldl_append, circle_fold_inner g center radius n outer_color a
    first n (le_refl n)]
  simp only [List.foldl_cons, List.foldl_nil]
  rw [circle_step_last g center radius n outer_color a _ (by omega)]
  simp [fan_triangles, List.flatMap_append, List.flatMap_map]

theorem u32_of_int_natCast (n : Nat) (h : n < 4294967296) : u32_of_int (n : Int) = n := by
  unfold u32_of_int
  rw [Int.emod_eq_of_lt (by omega) (by omega)]
  exact Int.toNat_ofNat n

/-- The indices of a fan are below 2^16 when its last rim index is. -/
theorem fan_indices_u16 (b n : Nat) (hb : b + n < 65536) (hn : 1 ≤ n) :
    (fan_triangles b n).flatMap (fun t => [u16 t.1, u16 t.2.1, u16 t.2.2])
      = (fan_triangles b n).flatMap (fun t => [t.1, t.2.1, t.2.2]) := by
  have hu : ∀ m, m ≤ b + n → u16 m = m := fun m hm => Nat.mod_eq_of_lt (by omega)
  have hmem : ∀ t ∈ fan_triangles b n, t.1 ≤ b + n ∧ t.2.1 ≤ b + n ∧ t.2.2 ≤ b + n := by
    intro t ht
    simp only [fan_triangles, List.mem_append, List.mem_map, List.mem_range,
      List.mem_singleton] at ht
    rcases ht with ⟨j, hj, rfl⟩ | rfl
    · dsimp only; exact ⟨by omega, by omega, by omega⟩
    · dsimp only; exact ⟨by omega, by omega, by omega⟩
  generalize fan_triangles b n = l at hmem
  induction l with
  | nil => rfl
  | cons t rest ih =>
    obtain ⟨h1, h2, h3⟩ := hmem t (List.mem_cons_self _ _)
    simp only [List.flatMap_cons, hu _ h1, hu _ h2, hu _ h3]
    rw [ih (fun t2 ht2 => hmem t2 (List.mem_cons_of_mem _ ht2))]

theorem fan_triangles_length (b n : Nat) (hn : 1 ≤ n) : (fan_triangles b n).length = n := by
  simp [fan_triangles]; omega

theorem flatMap_triple_length {α : Type} (l : List α) (f : α → Nat × Nat × Nat) :
    (l.flatMap (fun t => [(f t).1, (f t).2.1, (f t).2.2])).length = 3 * l.length := by
  induction l with
  | nil => rfl
  | cons t rest ih => simp only [List.flatMap_cons, List.length_append, ih, List.length_cons,
      List.length_nil]; omega

/-- What `push_filled_circle` stores for `n ≥ 1` segments, once `ensure_buffers_capacity` has
returned `q0`: the centre and the `n` rim vertices, and the indices of the fan. -/
theorem push_filled_circle_eq (g : daisy_t) (q q0 : c_renderqueue) (center : point_t)
    (radius : ℚ) (n : Nat) (center_color outer_color : color_t) (hn : 1 ≤ n)
    (hn32 : 3 * n < 4294967296) (hb : begin_batch q0 0 + n < 65536)
    (hq0 : ensure_buffers_capacity g q (n + 1) (3 * n) = some q0) :
    push_filled_circle g q center radius n center_color outer_color = some
      (end_batch { q0 with
        m_vtxs := { q0.m_vtxs with
          m_data := q0.m_vtxs.store
            ([⟨(center.x, center.y, 0, 1), center_color.bgra, (0, 0)⟩] ++
              (List.range n).map (rim_vertex g center radius n outer_color)),
          m_size := u32 (q0.m_vtxs.m_size + (1 + n)) },
        m_idxs := { q0.m_idxs with
          m_data := q0.m_idxs.store
            ((fan_triangles (begin_batch q0 0) n).flatMap (fun t => [t.1, t.2.1, t.2.2])),
          m_size := u32 (q0.m_idxs.m_size + 3 * n) } }
        (begin_batch q0 0) (1 + n) (3 * n) n 0) := by
  have hva : u32_of_int ((n : Int) + 1) = n + 1 := by
    have := u32_of_int_natCast (n + 1) (by omega)
    simpa using this
  have hia : u32_of_int ((n : Int) * 3) = 3 * n := by
    have := u32_of_int_natCast (3 * n) (by omega)
    rw [← this]; congr 1; push_cast; ring
  have hpa : u32_of_int (n : Int) = n := u32_of_int_natCast n (by omega)
  have hlen := fan_triangles_length (begin_batch q0 0) n hn
  have hfold := circle_fold g center radius n outer_color (begin_batch q0 0)
    [⟨(center.x, center.y, 0, 1), center_color.bgra, (0, 0)⟩] hn
  rw [fan_indices_u16 _ _ hb hn] at hfold
  have hvl : (([⟨(center.x, center.y, 0, 1), center_color.bgra, (0, 0)⟩] : List daisy_vtx_t) ++
      (List.range n).map (rim_vertex g center radius n outer_color)).length = 1 + n := by
    simp; omega
  have hil : ((fan_triangles (begin_batch q0 0) n).flatMap
      (fun t => [t.1, t.2.1, t.2.2])).length = 3 * n := by
    rw [flatMap_triple_length _ (fun t => t), hlen]
  unfold push_filled_circle
  rw [hva, hia, hq0]
  simp only [hfold, hvl, hil, hpa]
  rw [u32_of_lt (by omega : 1 + n < 4294967296), u32_of_lt (by omega : 3 * n < 4294967296)]

/-- C30, the code at the failing input: for a circle of 4 segments with centre (0, 0) and
radius 1 on `sample_empty_queue`, whatever the functions `cosf` and `sinf`, the rim vertex 1
(slot 2 of the vertex buffer, after the centre and the rim vertex 0) is stored at
`(cosf theta, sinf theta)` with `theta = 2 * Pi2 * 1 / 4 = Pi * Pi / 2`, which is not the
angle `2 * Pi * 1 / 4` of a quarter turn: the constant of the step is `Pi2 = Pi * Pi`. -/
theorem rim_angle_uses_pi_squared (cosf sinf : ℚ → ℚ) :
    ∃ q1, push_filled_circle { cosf := cosf, sinf := sinf } sample_empty_queue ⟨0, 0⟩ 1 4 {} {}
        = some q1 ∧
      q1.m_vtxs.slot 2
        = some ⟨(cosf (Pi * Pi / 2), sinf (Pi * Pi / 2), 0, 1), 4294967295, (0, 0)⟩ ∧
      Pi * Pi / 2 ≠ 2 * Pi * 1 / 4 := by
  obtain ⟨q0, hq0, hrv, _, hd, _, _, _, _, hsv, _, _, _, hroom, _⟩ :=
    ensure_buffers_capacity_total { cosf := cosf, sinf := sinf } sample_empty_queue (4 + 1)
      (3 * 4) (by decide) (by decide) (by decide) (by decide)
  have hb0 : begin_batch q0 0 = 0 := by
    rw [begin_batch_congr sample_empty_queue q0 0 hd]; rfl
  have hpush := push_filled_circle_eq { cosf := cosf, sinf := sinf } sample_empty_queue q0
    ⟨0, 0⟩ 1 4 {} {} (by decide) (by decide) (by rw [hb0]; decide) hq0
  have hown := (ensure_capacity_owns _ _ _ _ _ _ _ hrv (fun _ => rfl)
    ⟨_, rfl, rfl⟩ (by decide)).1
  have hsize : q0.m_vtxs.m_size = 0 := hsv
  have hslot := store_slot q0.m_vtxs
    ([⟨(0, 0, 0, 1), ({} : color_t).bgra, (0, 0)⟩] ++
      (List.range 4).map (rim_vertex { cosf := cosf, sinf := sinf } ⟨0, 0⟩ 1 ((4 : Nat) : Int) {}))
    2 hown (by simp) (by
      have : (0 : Nat) + (4 + 1) ≤ q0.m_vtxs.m_capacity := hroom
      omega)
  rw [hsize, Nat.zero_add] at hslot
  refine ⟨_, hpush, ?_, by norm_num [Pi]⟩
  rw [renderbuffer_t.slot, (end_batch_frame _ _ _ _ _ _).1]
  refine Eq.trans hslot ?_
  simp [List.range_succ, rim_vertex, Pi2, color_t.bgra]
  constructor <;> congr 1 <;> ring

/-! ### The quad of a line -/

/-- C26, the code at the failing input: with the rasterizer `sample_wide_gdi` at height 20
(glyph `W` 200 wide, glyph `x` 10 wide, both 20 high, spacing 6) the measure pass at 128 by 128
reports success, `create` returns `true` with a texture of 128 by 128, and the rectangle
recorded for `W` is (0, 21/128, 212/128, 41/128): the glyph is placed at (6, 21) after the row
wrap, where `x + glyph_width + spacing = 212` exceeds the width 128, so the rectangle does
not lie in the unit square. The pass tests the width only to decide the wrap. -/
theorem wide_glyph_exceeds_texture :
    (paint_or_measure_alphabet {} (sample_wide_gdi.CreateFontA 20 400 false 0 [])
      { m_size := 20, m_width := 128, m_height := 128 } true).1 = 0 ∧
    ∃ font, c_fontwrapper.create {} sample_wide_gdi 2 {} [] 20 0 0 = some (true, font) ∧
      font.m_width = 128 ∧ font.m_height = 128 ∧ font.m_spacing = 6 ∧
      font.m_coords 87 = some (0, 21 / 128, 212 / 128, 41 / 128) ∧ (1 : ℚ) < 212 / 128 := by
  refine ⟨by decide, ?_⟩
  have hproj : (c_fontwrapper.create {} sample_wide_gdi 2 {} [] 20 0 0).map
      (fun r => (r.1, r.2.m_width, r.2.m_height, r.2.m_spacing))
      = some (true, 128, 128, 6) := by decide
  have hsp20 : spacing_of 20 = 6 := by decide
  have hco : (c_fontwrapper.create {} sample_wide_gdi 2 {} [] 20 0 0).map
      (fun r => r.2.m_coords 87) = some (some (0, 21 / 128, 212 / 128, 41 / 128)) := by
    norm_num [c_fontwrapper.create, create_ex, create_gdi_font, measure_doubling,
      max_texture_size, paint_or_measure_alphabet, layout_glyphs, glyph_codes,
      sample_wide_gdi, hsp20, u16, u32]
  cases hm : c_fontwrapper.create {} sample_wide_gdi 2 {} [] 20 0 0 with
  | none => rw [hm] at hproj; simp at hproj
  | some r =>
    obtain ⟨ok, font⟩ := r
    rw [hm] at hproj hco
    simp only [Option.map_some', Option.some.injEq, Prod.mk.injEq] at hproj hco
    obtain ⟨hok, hw, hh, hsp⟩ := hproj
    subst hok
    exact ⟨font, rfl, hw, hh, hsp, hco, by norm_num⟩

/-! ### Determinism of the glyph atlas build -/

/-- The glyph loop reads the spacing and the texture dimensions of the font wrapper only. -/
theorem layout_glyphs_font_congr (dc : gdi_font) (a b : c_fontwrapper) (measure : Bool)
    (hs : a.m_spacing = b.m_spacing) (hw : a.m_width = b.m_width) (hh : a.m_height = b.m_height) :
    ∀ (codes : List Nat) (x y : Nat) (m : Nat → Option uv_t),
      layout_glyphs dc a measure codes x y m = layout_glyphs dc b measure codes x y m := by
  intro codes
  induction codes with
  | nil => intro x y m; rfl
  | cons ch rest ih =>
    intro x y m
    rw [layout_glyphs, layout_glyphs]
    cases hext : dc.GetTextExtentPoint32W ch with
    | none => exact ih x y m
    | some size =>
      obtain ⟨cx, cy⟩ := size
      simp only [hs, hw, hh]
      split_ifs <;> first | rfl | exact ih _ _ _

/-- The return code of the glyph loop does not depend on the character table. -/
theorem layout_glyphs_code_table (dc : gdi_font) (font : c_fontwrapper) (measure : Bool) :
    ∀ (codes : List Nat) (x y : Nat) (m n : Nat → Option uv_t),
      (layout_glyphs dc font measure codes x y m).1
        = (layout_glyphs dc font measure codes x y n).1 := by
  intro codes
  induction codes with
  | nil => intro x y m n; rfl
  | cons ch rest ih =>
    intro x y m n
    rw [layout_glyphs, layout_glyphs]
    cases hext : dc.GetTextExtentPoint32W ch with
    | none => exact ih x y m n
    | some size =>
      obtain ⟨cx, cy⟩ := size
      dsimp only
      split_ifs <;> first | rfl | exact ih _ _ _ _

/-- In measure mode the glyph loop leaves the character table as it is. -/
theorem layout_glyphs_measure_table (dc : gdi_font) (font : c_fontwrapper) :
    ∀ (codes : List Nat) (x y : Nat) (m : Nat → Option uv_t),
      (layout_glyphs dc font true codes x y m).2 = m := by
  intro codes
  induction codes with
  | nil => intro x y m; rfl
  | cons ch rest ih =>
    intro x y m
    rw [layout_glyphs]
    cases hext : dc.GetTextExtentPoint32W ch with
    | none => exact ih x y m
    | some size =>
      obtain ⟨cx, cy⟩ := size
      simp only [if_true]
      split_ifs <;> first | rfl | exact ih _ _ _

theorem orElse_override {α : Type} (o : Option α) (c : Prop) [Decidable c] (v : α)
    (other : Option α) :
    o.orElse (fun _ => if c then some v else other)
      = (o.orElse (fun _ => if c then some v else none)).orElse (fun _ => other) := by
  cases o with
  | some u => rfl
  | none =>
    simp only [Option.orElse]
    split_ifs <;> rfl

/-- The table after the glyph loop is the table before it, overwritten by the entries the
loop records, and these do not depend on the table before it. -/
theorem layout_glyphs_overlay (dc : gdi_font) (font : c_fontwrapper) (measure : Bool) :
    ∀ (codes : List Nat) (x y : Nat) (m : Nat → Option uv_t) (k : Nat),
      (layout_glyphs dc font measure codes x y m).2 k
        = ((layout_glyphs dc font measure codes x y (fun _ => none)).2 k).orElse
            (fun _ => m k) := by
  intro codes
  induction codes with
  | nil => intro x y m k; rfl
  | cons ch rest ih =>
    intro x y m k
    rw [layout_glyphs, layout_glyphs]
    cases hext : dc.GetTextExtentPoint32W ch with
    | none => exact ih x y m k
    | some size =>
      obtain ⟨cx, cy⟩ := size
      dsimp only
      split_ifs <;>
        first
        | rfl
        | exact ih _ _ _ _
        | (conv_lhs => rw [ih]
           conv_rhs => rw [ih]
           exact orElse_override _ _ _ _)

/-- Running the glyph loop again on the table it produced gives that table. -/
theorem layout_glyphs_idempotent (dc : gdi_font) (font : c_fontwrapper) (measure : Bool)
    (codes : List Nat) (x y : Nat) (m : Nat → Option uv_t) :
    (layout_glyphs dc font measure codes x y (layout_glyphs dc font measure codes x y m).2).2
      = (layout_glyphs dc font measure codes x y m).2 := by
  funext k
  rw [layout_glyphs_overlay dc font measure codes x y _ k,
    layout_glyphs_overlay dc font measure codes x y m k]
  cases (layout_glyphs dc font measure codes x y (fun _ => none)).2 k <;> rfl

/-- The two ways through `paint_or_measure_alphabet`, decided by the rasterizer and the
allocator alone: it returns 1 at once, or it sets the spacing from the line height of `x`
and runs the glyph loop over the ranges of the font from `(spacing, 0)`. -/
theorem pass_cases (g : daisy_t) (dc : gdi_font) :
    (∀ (a : c_fontwrapper) (measure : Bool), paint_or_measure_alphabet g dc a measure = (1, a)) ∨
    ∃ (cy : Nat) (ranges : List (Nat × Nat)),
      ∀ (a : c_fontwrapper) (measure : Bool), paint_or_measure_alphabet g dc a measure
        = ((layout_glyphs dc { a with m_spacing := spacing_of cy } measure (glyph_codes ranges)
              (spacing_of cy) 0 a.m_coords).1,
           { a with m_spacing := spacing_of cy,
                    m_coords := (layout_glyphs dc { a with m_spacing := spacing_of cy } measure
                      (glyph_codes ranges) (spacing_of cy) 0 a.m_coords).2 }) := by
  unfold paint_or_measure_alphabet
  cases dc.GetTextExtentPoint32W 120 with
  | none => left; intro a measure; rfl
  | some size =>
    obtain ⟨cx, cy⟩ := size
    dsimp only
    by_cases h1 : dc.ranges_bytes = 0
    · left; intro a measure; simp [h1]
    · by_cases h2 : g.make_unique dc.ranges_bytes = true
      · cases dc.GetFontUnicodeRanges with
        | none => left; intro a measure; simp [h1, h2]
        | some ranges =>
          right
          refine ⟨cy, ranges, ?_⟩
          intro a measure
          simp [h1, h2]
      · left; intro a measure; simp [h1, h2]

/-- A pass of `paint_or_measure_alphabet` writes the spacing and the character table only. -/
theorem pass_frame (g : daisy_t) (dc : gdi_font) (a : c_fontwrapper) (measure : Bool) :
    (paint_or_measure_alphabet g dc a measure).2.m_width = a.m_width ∧
    (paint_or_measure_alphabet g dc a measure).2.m_height = a.m_height ∧
    (paint_or_measure_alphabet g dc a measure).2.m_size = a.m_size ∧
    (paint_or_measure_alphabet g dc a measure).2.m_flags = a.m_flags ∧
    (paint_or_measure_alphabet g dc a measure).2.m_quality = a.m_quality ∧
    (paint_or_measure_alphabet g dc a measure).2.m_family = a.m_family ∧
    (paint_or_measure_alphabet g dc a measure).2.m_scale = a.m_scale ∧
    (paint_or_measure_alphabet g dc a measure).2.m_texture = a.m_texture ∧
    (paint_or_measure_alphabet g dc a measure).2.m_texture_srv = a.m_texture_srv := by
  rcases pass_cases g dc with h | ⟨cy, ranges, h⟩ <;> rw [h a measure] <;>
    exact ⟨rfl, rfl, rfl, rfl, rfl, rfl, rfl, rfl, rfl⟩

/-- A measure pass leaves the character table as it is. -/
theorem measure_pass_table (g : daisy_t) (dc : gdi_font) (a : c_fontwrapper) :
    (paint_or_measure_alphabet g dc a true).2.m_coords = a.m_coords := by
  rcases pass_cases g dc with h | ⟨cy, ranges, h⟩ <;> rw [h a true]
  exact layout_glyphs_measure_table dc _ _ _ _ _

/-- The first loop of `create_ex` leaves the configuration, the scale, the character table
and the texture handles as they are, and keeps the texture square. -/
theorem measure_doubling_frame (g : daisy_t) (dc : gdi_font) :
    ∀ (fuel : Nat) (a r : c_fontwrapper), measure_doubling g dc fuel a = some r →
      r.m_size = a.m_size ∧ r.m_flags = a.m_flags ∧ r.m_quality = a.m_quality ∧
      r.m_family = a.m_family ∧ r.m_scale = a.m_scale ∧ r.m_coords = a.m_coords ∧
      r.m_texture = a.m_texture ∧ r.m_texture_srv = a.m_texture_srv ∧
      (a.m_width = a.m_height → r.m_width = r.m_height) := by
  intro fuel
  induction fuel with
  | zero => intro a r h; simp [measure_doubling] at h
  | succ fuel ih =>
    intro a r h
    obtain ⟨hw, hh, h1, h2, h3, h4, h5, h6, h7⟩ := pass_frame g dc a true
    have h8 := measure_pass_table g dc a
    rw [measure_doubling] at h
    dsimp only at h
    split_ifs at h with hc
    · obtain ⟨i1, i2, i3, i4, i5, i6, i7, i8, i9⟩ := ih _ r h
      refine ⟨i1.trans h1, i2.trans h2, i3.trans h3, i4.trans h4, i5.trans h5, i6.trans h8,
        i7.trans h6, i8.trans h7, ?_⟩
      intro hsq
      apply i9
      show u32 (_ * 2) = u32 (_ * 2)
      rw [hw, hh, hsq]
    · have hr := (Option.some.inj h).symm
      subst hr
      exact ⟨h1, h2, h3, h4, h5, h8, h6, h7, fun hsq => by rw [hw, hh, hsq]⟩

/-- The first loop of `create_ex` on two font wrappers with the same configuration and
texture dimensions: both runs end or neither does, with the same dimensions. -/
theorem measure_doubling_congr (g : daisy_t) (dc : gdi_font) :
    ∀ (fuel : Nat) (a b : c_fontwrapper), same_layout_inputs a b →
      (measure_doubling g dc fuel a = none ∧ measure_doubling g dc fuel b = none) ∨
      ∃ ra rb, measure_doubling g dc fuel a = some ra ∧ measure_doubling g dc fuel b = some rb ∧
        same_layout_inputs ra rb := by
  intro fuel
  induction fuel with
  | zero => intro a b _; left; exact ⟨rfl, rfl⟩
  | succ fuel ih =>
    intro a b hab
    obtain ⟨hcode, hka⟩ := measure_pass_congr g dc a b hab
    obtain ⟨_, hkb⟩ := measure_pass_congr g dc b a (same_layout_inputs_symm hab)
    have hrr : same_layout_inputs (paint_or_measure_alphabet g dc a true).2
        (paint_or_measure_alphabet g dc b true).2 :=
      same_layout_inputs_trans (same_layout_inputs_symm hka) (same_layout_inputs_trans hab hkb)
    rw [measure_doubling, measure_doubling]
    dsimp only
    rw [← hcode]
    split_ifs with hc
    · apply ih
      obtain ⟨e1, e2, e3, e4, e5, e6⟩ := hrr
      exact ⟨e1, e2, e3, e4, by show u32 (_ * 2) = u32 (_ * 2); rw [e5],
        by show u32 (_ * 2) = u32 (_ * 2); rw [e6]⟩
    · right
      exact ⟨_, _, rfl, rfl, hrr⟩

/-- When the first loop of `create_ex`, started from a square texture whose side divides the
ceiling by a power of two, ends above the ceiling, its measure pass at the ceiling dimensions
has reported an overflow. -/
theorem measure_doubling_exceeds (g : daisy_t) (dc : gdi_font) :
    ∀ (fuel i : Nat) (a r : c_fontwrapper), measure_doubling g dc fuel a = some r →
      a.m_width * 2 ^ i = max_texture_size → a.m_height = a.m_width →
      r.m_width > max_texture_size →
      (paint_or_measure_alphabet g dc
        { a with m_width := max_texture_size, m_height := max_texture_size } true).1 = 2 := by
  intro fuel
  induction fuel with
  | zero => intro i a r h; simp [measure_doubling] at h
  | succ fuel ih =>
    intro i a r h hi hsq hbig
    obtain ⟨hw, hh, h1, h2, h3, h4, _, _, _⟩ := pass_frame g dc a true
    rw [measure_doubling] at h
    dsimp only at h
    split_ifs at h with hc
    · cases i with
      | zero =>
        rw [pow_zero, Nat.mul_one] at hi
        have hcongr := (measure_pass_congr g dc a
          { a with m_width := max_texture_size, m_height := max_texture_size }
          ⟨rfl, rfl, rfl, rfl, hi, hsq.trans hi⟩).1
        rw [← hcongr]
        exact hc
      | succ i =>
        have hdouble : u32 (a.m_width * 2) = a.m_width * 2 := by
          apply u32_of_lt
          have hle : a.m_width * 2 ≤ a.m_width * 2 ^ (i + 1) := by
            rw [pow_succ]
            have : 1 ≤ 2 ^ i := Nat.one_le_two_pow
            nlinarith
          rw [hi] at hle
          have : max_texture_size = 16384 := rfl
          omega
        have hrec := ih i _ r h (by
            show u32 (_ * 2) * 2 ^ i = _
            rw [hw, hdouble, ← hi, pow_succ]; ring)
          (by show u32 (_ * 2) = u32 (_ * 2); rw [hw, hh, hsq]) hbig
        refine Eq.trans ?_ hrec
        refine (measure_pass_congr g dc _ _ ?_).1
        exact ⟨h1.symm, h2.symm, h3.symm, h4.symm, rfl, rfl⟩
    · have hr := (Option.some.inj h).symm
      subst hr
      rw [hw] at hbig
      have hle : a.m_width ≤ a.m_width * 2 ^ i := Nat.le_mul_of_pos_right _ (by positivity)
      omega

/-- A build that returns has not entered the retry loop: when the first loop ends above the
ceiling, the retry loop does not end (`shrink_retry_diverges`). -/
theorem create_ex_returns (g : daisy_t) (gdi : gdi_t) (fuel : Nat) (a : c_fontwrapper)
    (res : Bool × c_fontwrapper) (hdev : g.s_device = true)
    (h : create_ex g gdi fuel a = some res) :
    ∃ f, measure_doubling g (create_gdi_font gdi a) fuel
        { a with m_texture_srv := 0, m_texture := 0, m_width := 128, m_height := 128 } = some f ∧
      f.m_width ≤ max_texture_size := by
  cases hm : measure_doubling g (create_gdi_font gdi a) fuel
      { a with m_texture_srv := 0, m_texture := 0, m_width := 128, m_height := 128 } with
  | none =>
    rw [create_ex_none g gdi fuel a hdev (Or.inl hm)] at h
    exact absurd h (by simp)
  | some f =>
    refine ⟨f, rfl, ?_⟩
    by_contra hbig
    have hbig2 : f.m_width > max_texture_size := Nat.lt_of_not_le hbig
    obtain ⟨h1, h2, h3, h4, _, _, _, _, _⟩ := measure_doubling_frame g _ fuel _ f hm
    have hover := measure_doubling_exceeds g (create_gdi_font gdi a) fuel 7 _ f hm
      (by show 128 * 2 ^ 7 = 16384; norm_num) rfl hbig2
    have hdiv := shrink_retry_diverges g gdi
      { a with m_texture_srv := 0, m_texture := 0, m_width := max_texture_size,
               m_height := max_texture_size } hover fuel true
      { f with m_scale := (max_texture_size : ℚ) / f.m_width,
               m_width := max_texture_size, m_height := max_texture_size }
      ⟨h1, h2, h3, h4, rfl, rfl⟩
    rw [create_ex_none g gdi fuel a hdev (Or.inr ⟨f, hm, hbig2, hdiv⟩)] at h
    exact absurd h (by simp)

/-- The part of `create_ex` after its loops, when the first loop has ended at `f` at or below
the ceiling: the texture, the view, the bitmap, the commit pass and the upload. -/
theorem create_ex_eq (g : daisy_t) (gdi : gdi_t) (fuel : Nat) (a f : c_fontwrapper)
    (hdev : g.s_device = true)
    (hm : measure_doubling g (create_gdi_font gdi a) fuel
        { a with m_texture_srv := 0, m_texture := 0, m_width := 128, m_height := 128 } = some f)
    (hw : f.m_width ≤ max_texture_size) :
    create_ex g gdi fuel a =
      if g.CreateTexture2D f.m_width f.m_height = 0 then
        some (false, { f with m_texture := g.CreateTexture2D f.m_width f.m_height })
      else if g.CreateShaderResourceView (g.CreateTexture2D f.m_width f.m_height) = 0 then
        some (false, { f with m_texture := g.CreateTexture2D f.m_width f.m_height,
                              m_texture_srv := g.CreateShaderResourceView
                                (g.CreateTexture2D f.m_width f.m_height) })
      else if !gdi.CreateDIBSection f.m_width f.m_height then
        some (false, { f with m_texture := g.CreateTexture2D f.m_width f.m_height,
                              m_texture_srv := g.CreateShaderResourceView
                                (g.CreateTexture2D f.m_width f.m_height) })
      else if (paint_or_measure_alphabet g (create_gdi_font gdi a)
          { f with m_texture := g.CreateTexture2D f.m_width f.m_height,
                   m_texture_srv := g.CreateShaderResourceView
                     (g.CreateTexture2D f.m_width f.m_height) } false).1 ≠ 0 then
        some (false, (paint_or_measure_alphabet g (create_gdi_font gdi a)
          { f with m_texture := g.CreateTexture2D f.m_width f.m_height,
                   m_texture_srv := g.CreateShaderResourceView
                     (g.CreateTexture2D f.m_width f.m_height) } false).2)
      else if !g.Map (g.CreateTexture2D f.m_width f.m_height) then
        some (false, (paint_or_measure_alphabet g (create_gdi_font gdi a)
          { f with m_texture := g.CreateTexture2D f.m_width f.m_height,
                   m_texture_srv := g.CreateShaderResourceView
                     (g.CreateTexture2D f.m_width f.m_height) } false).2)
      else
        some (true, (paint_or_measure_alphabet g (create_gdi_font gdi a)
          { f with m_texture := g.CreateTexture2D f.m_width f.m_height,
                   m_texture_srv := g.CreateShaderResourceView
                     (g.CreateTexture2D f.m_width f.m_height) } false).2) := by
  obtain ⟨h1, h2, h3, h4, _, _, _, _, _⟩ := measure_doubling_frame g _ fuel _ f hm
  have hdc : create_gdi_font gdi f = create_gdi_font gdi a := by
    simp only [create_gdi_font, h1, h2, h3, h4]
  have hmap : (paint_or_measure_alphabet g (create_gdi_font gdi a)
      { f with m_texture := g.CreateTexture2D f.m_width f.m_height,
               m_texture_srv := g.CreateShaderResourceView
                 (g.CreateTexture2D f.m_width f.m_height) } false).2.m_texture
      = g.CreateTexture2D f.m_width f.m_height :=
    (pass_frame g _ _ false).2.2.2.2.2.2.2.1
  have hcf : create_gdi_font gdi { a with m_texture_srv := 0, m_texture := 0 }
      = create_gdi_font gdi a := rfl
  unfold create_ex
  simp only [hdev, Bool.not_true, Bool.false_eq_true, if_false, hcf, hm, not_lt.mpr hw, hdc, hmap]

/-- The first loop of `create_ex` from a square texture of side `w`: when the measure pass
reports an overflow at the sides `w * 2 ^ j` for `j < k` and none at `w * 2 ^ k`, the loop
ends after `k` doublings, having measured at exactly these sides. -/
theorem measure_doubling_spec (g : daisy_t) (dc : gdi_font) :
    ∀ (k fuel : Nat) (a : c_fontwrapper) (w : Nat), a.m_width = w → a.m_height = w →
      w * 2 ^ k < 4294967296 → k < fuel →
      (∀ j, j < k → (paint_or_measure_alphabet g dc
        { a with m_width := w * 2 ^ j, m_height := w * 2 ^ j } true).1 = 2) →
      (paint_or_measure_alphabet g dc
        { a with m_width := w * 2 ^ k, m_height := w * 2 ^ k } true).1 ≠ 2 →
      (∃ r, measure_doubling g dc fuel a = some r ∧ r.m_width = w * 2 ^ k ∧
        r.m_height = w * 2 ^ k) ∧
      measured_sizes g dc fuel a = (List.range (k + 1)).map (fun j => (w * 2 ^ j, w * 2 ^ j)) := by
  intro k
  induction k with
  | zero =>
    intro fuel a w hw hh _ hfuel _ hfit
    obtain ⟨fuel, rfl⟩ : ∃ n, fuel = n + 1 := ⟨fuel - 1, by omega⟩
    have hcode : (paint_or_measure_alphabet g dc a true).1 ≠ 2 := by
      refine fun e => hfit (Eq.trans ?_ e)
      refine (measure_pass_congr g dc _ _ ?_).1
      exact ⟨rfl, rfl, rfl, rfl, by simp [hw], by simp [hh]⟩
    obtain ⟨pw, ph, _⟩ := pass_frame g dc a true
    rw [measure_doubling, measured_sizes]
    simp only [hcode, if_false]
    refine ⟨⟨_, rfl, by rw [pw, hw]; simp, by rw [ph, hh]; simp⟩, ?_⟩
    rw [hw, hh]
    simp [List.range_succ]
  | succ k ih =>
    intro fuel a w hw hh hrange hfuel hover hfit
    obtain ⟨fuel, rfl⟩ : ∃ n, fuel = n + 1 := ⟨fuel - 1, by omega⟩
    have hcode : (paint_or_measure_alphabet g dc a true).1 = 2 := by
      refine Eq.trans ?_ (hover 0 (by omega))
      refine (measure_pass_congr g dc _ _ ?_).1
      exact ⟨rfl, rfl, rfl, rfl, by simp [hw], by simp [hh]⟩
    obtain ⟨pw, ph, p1, p2, p3, p4, _, _, _⟩ := pass_frame g dc a true
    have hpow : w * 2 ^ (k + 1) = w * 2 * 2 ^ k := by rw [pow_succ]; ring
    have hdouble : u32 (w * 2) = w * 2 := by
      apply u32_of_lt
      have : 1 ≤ 2 ^ k := Nat.one_le_two_pow
      have : w * 2 * 1 ≤ w * 2 * 2 ^ k := Nat.mul_le_mul_left _ this
      omega
    obtain ⟨⟨r, hr, hrw, hrh⟩, hsizes⟩ := ih fuel
      { (paint_or_measure_alphabet g dc a true).2 with
        m_width := u32 ((paint_or_measure_alphabet g dc a true).2.m_width * 2),
        m_height := u32 ((paint_or_measure_alphabet g dc a true).2.m_height * 2) } (w * 2)
      (by show u32 (_ * 2) = _; rw [pw, hw, hdouble])
      (by show u32 (_ * 2) = _; rw [ph, hh, hdouble])
      (by rw [← hpow]; exact hrange) (by omega)
      (by
        intro j hj
        refine Eq.trans ?_ (hover (j + 1) (by omega))
        refine (measure_pass_congr g dc _ _ ?_).1
        have e : w * 2 * 2 ^ j = w * 2 ^ (j + 1) := by rw [pow_succ]; ring
        exact ⟨p1, p2, p3, p4, e, e⟩)
      (by
        refine fun e => hfit (Eq.trans ?_ e)
        refine (measure_pass_congr g dc _ _ ?_).1
        exact ⟨p1.symm, p2.symm, p3.symm, p4.symm, hpow, hpow⟩)
    rw [measure_doubling, measured_sizes]
    simp only [hcode, if_true]
    refine ⟨⟨r, hr, by rw [hrw, hpow], by rw [hrh, hpow]⟩, ?_⟩
    rw [hsizes, hw, hh]
    conv_rhs => rw [List.range_succ_eq_map]
    simp only [List.map_cons, List.map_map, pow_zero, Nat.mul_one, List.cons.injEq, true_and]
    apply List.map_congr_left
    intro j _
    have e : w * 2 * 2 ^ j = w * 2 ^ (j + 1) := by rw [pow_succ]; ring
    simp only [Function.comp, e, Nat.succ_eq_add_one]

/-- A build whose first loop has ended at `f` at or below the ceiling returns, with the
texture dimensions of `f` and the texture created at these dimensions. -/
theorem create_ex_dims (g : daisy_t) (gdi : gdi_t) (fuel : Nat) (a f : c_fontwrapper)
    (hdev : g.s_device = true)
    (hm : measure_doubling g (create_gdi_font gdi a) fuel
        { a with m_texture_srv := 0, m_texture := 0, m_width := 128, m_height := 128 } = some f)
    (hw : f.m_width ≤ max_texture_size) :
    ∃ res, create_ex g gdi fuel a = some res ∧ res.2.m_width = f.m_width ∧
      res.2.m_height = f.m_height ∧
      res.2.m_texture = g.CreateTexture2D f.m_width f.m_height := by
  obtain ⟨pw, ph, _, _, _, _, _, pt, _⟩ := pass_frame g (create_gdi_font gdi a)
    { f with m_texture := g.CreateTexture2D f.m_width f.m_height,
             m_texture_srv := g.CreateShaderResourceView
               (g.CreateTexture2D f.m_width f.m_height) } false
  rw [create_ex_eq g gdi fuel a f hdev hm hw]
  split_ifs
  · exact ⟨_, rfl, rfl, rfl, rfl⟩
  · exact ⟨_, rfl, rfl, rfl, rfl⟩
  · exact ⟨_, rfl, rfl, rfl, rfl⟩
  · exact ⟨_, rfl, pw, ph, pt⟩
  · exact ⟨_, rfl, pw, ph, pt⟩
  · exact ⟨_, rfl, pw, ph, pt⟩

/-- C25: for a configured font wrapper `a` (as `create` sets it up), a device, and `k` such
that the measure pass reports an overflow at the square sizes `128 * 2 ^ j` for every `j < k`
and none at `128 * 2 ^ k`, this size being at most the ceiling 16384: `create` returns (given
more than `k` passes of fuel) with a texture created at `128 * 2 ^ k` by `128 * 2 ^ k`; the
sizes at which the first loop has measured are exactly `128 * 2 ^ j` squared for `j = 0 .. k`,
each the double of the one before; and whenever `create` returns, the texture is square with
a side of at most 16384. -/
theorem create_doubles_to_least_fit (g : daisy_t) (gdi : gdi_t) (fuel : Nat)
    (font a : c_fontwrapper) (family : List Nat) (height quality flags k : Nat)
    (ha : a = { font with m_family := family, m_size := height, m_flags := flags,
                          m_quality := quality, m_scale := 1, m_spacing := 0 })
    (hdev : g.s_device = true) (hk : 128 * 2 ^ k ≤ max_texture_size) (hfuel : k < fuel)
    (hover : ∀ j, j < k → (paint_or_measure_alphabet g (create_gdi_font gdi a)
      { a with m_width := 128 * 2 ^ j, m_height := 128 * 2 ^ j } true).1 = 2)
    (hfit : (paint_or_measure_alphabet g (create_gdi_font gdi a)
      { a with m_width := 128 * 2 ^ k, m_height := 128 * 2 ^ k } true).1 ≠ 2) :
    (∃ res, c_fontwrapper.create g gdi fuel font family height quality flags = some res ∧
      res.2.m_width = 128 * 2 ^ k ∧ res.2.m_height = 128 * 2 ^ k ∧
      res.2.m_texture = g.CreateTexture2D (128 * 2 ^ k) (128 * 2 ^ k)) ∧
    measured_sizes g (create_gdi_font gdi a) fuel
        { a with m_texture_srv := 0, m_texture := 0, m_width := 128, m_height := 128 }
      = (List.range (k + 1)).map (fun j => (128 * 2 ^ j, 128 * 2 ^ j)) ∧
    ∀ fuel2 res, c_fontwrapper.create g gdi fuel2 font family height quality flags = some res →
      res.2.m_width ≤ max_texture_size ∧ res.2.m_height = res.2.m_width := by
  have hmax : max_texture_size = 16384 := rfl
  obtain ⟨⟨r, hr, hrw, hrh⟩, hsizes⟩ := measure_doubling_spec g (create_gdi_font gdi a) k fuel
    { a with m_texture_srv := 0, m_texture := 0, m_width := 128, m_height := 128 } 128 rfl rfl
    (by omega) hfuel
    (by
      intro j hj
      refine Eq.trans ?_ (hover j hj)
      refine (measure_pass_congr g _ _ _ ?_).1
      exact ⟨rfl, rfl, rfl, rfl, rfl, rfl⟩)
    (by
      refine fun e => hfit (Eq.trans ?_ e)
      refine (measure_pass_congr g _ _ _ ?_).1
      exact ⟨rfl, rfl, rfl, rfl, rfl, rfl⟩)
  have hcreate : ∀ fuel2, c_fontwrapper.create g gdi fuel2 font family height quality flags
      = create_ex g gdi fuel2 a := by
    intro fuel2; rw [ha]; rfl
  refine ⟨?_, hsizes, ?_⟩
  · obtain ⟨res, hres, h1, h2, h3⟩ := create_ex_dims g gdi fuel a r hdev hr (by rw [hrw]; exact hk)
    exact ⟨res, by rw [hcreate]; exact hres, by rw [h1, hrw], by rw [h2, hrh],
      by rw [h3, hrw, hrh]⟩
  · intro fuel2 res hres
    rw [hcreate] at hres
    obtain ⟨f, hf, hfw⟩ := create_ex_returns g gdi fuel2 a res hdev hres
    obtain ⟨res2, hres2, h1, h2, _⟩ := create_ex_dims g gdi fuel2 a f hdev hf hfw
    have hsq := (measure_doubling_frame g _ fuel2 _ f hf).2.2.2.2.2.2.2.2 rfl
    rw [hres] at hres2
    have e := Option.some.inj hres2
    subst e
    exact ⟨by rw [h1]; exact hfw, by rw [h1, h2, hsq]⟩

/-- Witness of C25: with `sample_gdi` at height 60 (glyphs 30 wide and 60 high, spacing 18)
the measure pass overflows at 128 by 128 and fits at 256 by 256, and `create` builds a texture
of 256 by 256. -/
theorem create_doubles_to_least_fit_witness :
    (∃ res, c_fontwrapper.create {} sample_gdi 2 {} [] 60 0 0 = some res ∧
      res.2.m_width = 256 ∧ res.2.m_height = 256 ∧
      res.2.m_texture = ({} : daisy_t).CreateTexture2D 256 256) ∧
    measured_sizes {} (create_gdi_font sample_gdi { m_size := 60, m_scale := 1 }) 2
        { m_size := 60, m_scale := 1, m_width := 128, m_height := 128 }
      = [(128, 128), (256, 256)] :=
  ⟨(create_doubles_to_least_fit {} sample_gdi 2 {} { m_size := 60, m_scale := 1 } [] 60 0 0 1
      rfl rfl (by decide) (by decide) (by intro j hj; interval_cases j; decide) (by decide)).1,
   (create_doubles_to_least_fit {} sample_gdi 2 {} { m_size := 60, m_scale := 1 } [] 60 0 0 1
      rfl rfl (by decide) (by decide) (by intro j hj; interval_cases j; decide) (by decide)).2.1⟩

/-- A build returns `true` exactly when the first loop has ended at some `f` at or below the
ceiling, the texture, its view and the bitmap have been created, the commit pass has
returned 0 and the texture has been mapped; the font wrapper is then the one the commit pass
leaves. -/
theorem create_ex_true_iff (g : daisy_t) (gdi : gdi_t) (fuel : Nat) (a r : c_fontwrapper) :
    create_ex g gdi fuel a = some (true, r) ↔
      g.s_device = true ∧
      ∃ f, measure_doubling g (create_gdi_font gdi a) fuel
          { a with m_texture_srv := 0, m_texture := 0, m_width := 128, m_height := 128 }
          = some f ∧
        f.m_width ≤ max_texture_size ∧
        g.CreateTexture2D f.m_width f.m_height ≠ 0 ∧
        g.CreateShaderResourceView (g.CreateTexture2D f.m_width f.m_height) ≠ 0 ∧
        gdi.CreateDIBSection f.m_width f.m_height = true ∧
        (paint_or_measure_alphabet g (create_gdi_font gdi a)
          { f with m_texture := g.CreateTexture2D f.m_width f.m_height,
                   m_texture_srv := g.CreateShaderResourceView
                     (g.CreateTexture2D f.m_width f.m_height) } false).1 = 0 ∧
        g.Map (g.CreateTexture2D f.m_width f.m_height) = true ∧
        r = (paint_or_measure_alphabet g (create_gdi_font gdi a)
          { f with m_texture := g.CreateTexture2D f.m_width f.m_height,
                   m_texture_srv := g.CreateShaderResourceView
                     (g.CreateTexture2D f.m_width f.m_height) } false).2 := by
  constructor
  · intro h
    have hdev : g.s_device = true := by
      by_contra hd
      unfold create_ex at h
      simp [hd] at h
    obtain ⟨f, hf, hfw⟩ := create_ex_returns g gdi fuel a _ hdev h
    refine ⟨hdev, f, hf, hfw, ?_⟩
    rw [create_ex_eq g gdi fuel a f hdev hf hfw] at h
    split_ifs at h with c1 c2 c3 c4 c5
    · simp at h
    · simp at h
    · simp at h
    · simp at h
    · simp at h
    · refine ⟨c1, c2, by simpa using c3, by simpa using c4, by simpa using c5, ?_⟩
      exact (congrArg Prod.snd (Option.some.inj h)).symm
  · rintro ⟨hdev, f, hf, hfw, c1, c2, c3, c4, c5, hr⟩
    rw [create_ex_eq g gdi fuel a f hdev hf hfw, hr]
    simp [c1, c2, c3, c4, c5]

/-- A commit pass that returns 0 has set the spacing from the line height of `x` and run the
glyph loop over the ranges of the font. -/
theorem commit_pass_done (g : daisy_t) (dc : gdi_font) (a : c_fontwrapper)
    (h : (paint_or_measure_alphabet g dc a false).1 = 0) :
    ∃ (cy : Nat) (ranges : List (Nat × Nat)),
      ∀ (b : c_fontwrapper) (measure : Bool), paint_or_measure_alphabet g dc b measure
        = ((layout_glyphs dc { b with m_spacing := spacing_of cy } measure (glyph_codes ranges)
              (spacing_of cy) 0 b.m_coords).1,
           { b with m_spacing := spacing_of cy,
                    m_coords := (layout_glyphs dc { b with m_spacing := spacing_of cy } measure
                      (glyph_codes ranges) (spacing_of cy) 0 b.m_coords).2 }) := by
  rcases pass_cases g dc with h1 | h2
  · rw [h1 a false] at h
    simp at h
  · exact h2

/-- Two builds that return `true` for font wrappers with the same configuration have ended
their first loop at the same texture dimensions. -/
theorem create_ex_same_dims (g : daisy_t) (dc : gdi_font) (fuel1 fuel2 : Nat)
    (a b fa fb : c_fontwrapper) (hab : same_layout_inputs a b)
    (ha : measure_doubling g dc fuel1 a = some fa)
    (hb : measure_doubling g dc fuel2 b = some fb) : same_layout_inputs fa fb := by
  have la := measure_doubling_mono_le g dc fuel1 a fa ha fuel2
  have lb := measure_doubling_mono_le g dc fuel2 b fb hb fuel1
  rw [Nat.add_comm] at lb
  rcases measure_doubling_congr g dc (fuel1 + fuel2) a b hab with ⟨n1, _⟩ | ⟨ra, rb, e1, e2, hs⟩
  · rw [la] at n1
    exact absurd n1 (by simp)
  · rw [la] at e1
    rw [lb] at e2
    rw [Option.some.inj e1, Option.some.inj e2]
    exact hs

/-- C21: for one device `g` and one rasterizer `gdi`, two calls of `create` with the same
family, height, quality and flags that both return `true`, on font wrappers whose character
tables were the same before the calls (empty for two newly constructed wrappers), leave the
same character table, texture width and height, spacing and scale, whatever the fuel given to
each; and on the wrapper `r1` such a call has built, `reset( false )` returns `true` and
leaves the same character table, width, height, spacing and scale as `r1` has. -/
theorem create_is_deterministic (g : daisy_t) (gdi : gdi_t) (fuel1 fuel2 : Nat)
    (font1 font2 r1 r2 : c_fontwrapper) (family : List Nat) (height quality flags : Nat)
    (htable : font1.m_coords = font2.m_coords)
    (h1 : c_fontwrapper.create g gdi fuel1 font1 family height quality flags = some (true, r1))
    (h2 : c_fontwrapper.create g gdi fuel2 font2 family height quality flags = some (true, r2)) :
    (r1.m_coords = r2.m_coords ∧ r1.m_width = r2.m_width ∧ r1.m_height = r2.m_height ∧
      r1.m_spacing = r2.m_spacing ∧ r1.m_scale = r2.m_scale) ∧
    ∃ r3, r1.reset g gdi fuel1 false = some (true, r3) ∧
      r3.m_coords = r1.m_coords ∧ r3.m_width = r1.m_width ∧ r3.m_height = r1.m_height ∧
      r3.m_spacing = r1.m_spacing ∧ r3.m_scale = r1.m_scale := by
  unfold c_fontwrapper.create at h1 h2
  obtain ⟨hdev, f1, hf1, hw1, t1, s1, d1, c1, m1, hr1⟩ := (create_ex_true_iff _ _ _ _ _).mp h1
  obtain ⟨_, f2, hf2, hw2, t2, s2, d2, c2, m2, hr2⟩ := (create_ex_true_iff _ _ _ _ _).mp h2
  obtain ⟨cy, ranges, hpass⟩ := commit_pass_done g _ _ c1
  have hdc2 : create_gdi_font gdi
      { font2 with m_family := family, m_size := height, m_flags := flags,
                   m_quality := quality, m_scale := 1, m_spacing := 0 }
      = create_gdi_font gdi
      { font1 with m_family := family, m_size := height, m_flags := flags,
                   m_quality := quality, m_scale := 1, m_spacing := 0 } := rfl
  rw [hdc2] at hf2 hr2
  have hsame : same_layout_inputs f1 f2 := by
    refine create_ex_same_dims g _ fuel1 fuel2 _ _ f1 f2 ?_ hf1 hf2
    exact ⟨rfl, rfl, rfl, rfl, rfl, rfl⟩
  obtain ⟨a1, a2, a3, a4, a5, a6, _, _, _⟩ := measure_doubling_frame g _ fuel1 _ f1 hf1
  obtain ⟨b1, b2, b3, b4, b5, b6, _, _, _⟩ := measure_doubling_frame g _ fuel2 _ f2 hf2
  rw [hpass] at hr1 hr2 c1
  constructor
  · rw [hr1, hr2]
    refine ⟨?_, hsame.2.2.2.2.1, hsame.2.2.2.2.2, rfl, ?_⟩
    · show (layout_glyphs _ _ false _ _ 0 f1.m_coords).2 = (layout_glyphs _ _ false _ _ 0 f2.m_coords).2
      rw [a6, b6]
      show (layout_glyphs _ _ false _ _ 0 font1.m_coords).2
        = (layout_glyphs _ _ false _ _ 0 font2.m_coords).2
      rw [htable]
      refine congrArg Prod.snd ?_
      refine layout_glyphs_font_congr _ _ _ false ?_ ?_ ?_ _ _ _ _
      · rfl
      · exact hsame.2.2.2.2.1
      · exact hsame.2.2.2.2.2
    · show f1.m_scale = f2.m_scale
      rw [a5, b5]
  · have hcfg : r1.m_size = height ∧ r1.m_flags = flags ∧ r1.m_quality = quality ∧
        r1.m_family = family := by
      rw [hr1]
      exact ⟨a1, a2, a3, a4⟩
    have hdc3 : create_gdi_font gdi r1 = create_gdi_font gdi
        { font1 with m_family := family, m_size := height, m_flags := flags,
                     m_quality := quality, m_scale := 1, m_spacing := 0 } := by
      simp only [create_gdi_font, hcfg.1, hcfg.2.1, hcfg.2.2.1, hcfg.2.2.2]
    have hloop := measure_doubling_congr g (create_gdi_font gdi r1) fuel1
      { ({ font1 with m_family := family, m_size := height, m_flags := flags,
                      m_quality := quality, m_scale := 1, m_spacing := 0 } : c_fontwrapper) with
        m_texture_srv := 0, m_texture := 0, m_width := 128, m_height := 128 }
      { r1 with m_texture_srv := 0, m_texture := 0, m_width := 128, m_height := 128 }
      ⟨hcfg.1.symm, hcfg.2.1.symm, hcfg.2.2.1.symm, hcfg.2.2.2.symm, rfl, rfl⟩
    rw [hdc3] at hloop
    rcases hloop with ⟨n1, _⟩ | ⟨ra, f3, e1, hf3, hs⟩
    · rw [hf1] at n1
      exact absurd n1 (by simp)
    rw [hf1] at e1
    have e1 := Option.some.inj e1
    subst e1
    obtain ⟨_, _, _, _, k5, k6, _, _, _⟩ := measure_doubling_frame g _ fuel1 _ f3 hf3
    have hw3 : f3.m_width = f1.m_width := hs.2.2.2.2.1.symm
    have hh3 : f3.m_height = f1.m_height := hs.2.2.2.2.2.symm
    have hcode : (paint_or_measure_alphabet g (create_gdi_font gdi r1)
        { f3 with m_texture := g.CreateTexture2D f3.m_width f3.m_height,
                  m_texture_srv := g.CreateShaderResourceView
                    (g.CreateTexture2D f3.m_width f3.m_height) } false).1 = 0 := by
      rw [hdc3, hpass]
      refine Eq.trans ?_ c1
      refine Eq.trans (layout_glyphs_code_table _ _ false _ _ _ _ f1.m_coords) ?_
      refine congrArg Prod.fst ?_
      refine layout_glyphs_font_congr _ _ _ false ?_ ?_ ?_ _ _ _ _
      · rfl
      · exact hw3
      · exact hh3
    refine ⟨(paint_or_measure_alphabet g (create_gdi_font gdi r1)
        { f3 with m_texture := g.CreateTexture2D f3.m_width f3.m_height,
                  m_texture_srv := g.CreateShaderResourceView
                    (g.CreateTexture2D f3.m_width f3.m_height) } false).2, ?_, ?_⟩
    · unfold c_fontwrapper.reset
      simp only [Bool.not_false, if_true]
      refine (create_ex_true_iff g gdi fuel1 r1 _).mpr ⟨hdev, f3, by rw [hdc3]; exact hf3,
        by rw [hw3]; exact hw1, by rw [hw3, hh3]; exact t1, by rw [hw3, hh3]; exact s1,
        by rw [hw3, hh3]; exact d1, hcode, by rw [hw3, hh3]; exact m1, rfl⟩
    · rw [hdc3, hpass]
      refine ⟨?_, ?_, ?_, ?_, ?_⟩
      · show (layout_glyphs _ _ false _ _ 0 f3.m_coords).2 = r1.m_coords
        rw [k6]
        show (layout_glyphs _ _ false _ _ 0 r1.m_coords).2 = r1.m_coords
        rw [hr1]
        show (layout_glyphs _ _ false _ _ 0 (layout_glyphs _ _ false _ _ 0 f1.m_coords).2).2
          = (layout_glyphs _ _ false _ _ 0 f1.m_coords).2
        refine Eq.trans ?_ (layout_glyphs_idempotent _ _ false _ _ 0 f1.m_coords)
        refine congrArg Prod.snd ?_
        refine layout_glyphs_font_congr _ _ _ false ?_ ?_ ?_ _ _ _ _
        · rfl
        · exact hw3
        · exact hh3
      · rw [hr1]; exact hw3
      · rw [hr1]; exact hh3
      · rw [hr1]
      · rw [hr1]
        show f3.m_scale = f1.m_scale
        rw [k5, hr1]

/-- Witness of C21: two builds of the font of height 20 of `sample_gdi`, with 1 and with 5
passes of fuel, on a new wrapper and on a wrapper with other dimensions recorded. -/
theorem create_is_deterministic_witness :
    ∃ r1 r2, c_fontwrapper.create {} sample_gdi 1 {} [] 20 0 0 = some (true, r1) ∧
      c_fontwrapper.create {} sample_gdi 5 { m_width := 64 } [] 20 0 0 = some (true, r2) ∧
      r1.m_coords = r2.m_coords ∧ r1.m_width = r2.m_width ∧ r1.m_height = r2.m_height ∧
      r1.m_spacing = r2.m_spacing ∧ r1.m_scale = r2.m_scale := by
  have p1 : (c_fontwrapper.create {} sample_gdi 1 {} [] 20 0 0).map (fun r => r.1)
      = some true := by decide
  have p2 : (c_fontwrapper.create {} sample_gdi 5 { m_width := 64 } [] 20 0 0).map
      (fun r => r.1) = some true := by decide
  cases hm1 : c_fontwrapper.create {} sample_gdi 1 {} [] 20 0 0 with
  | none => rw [hm1] at p1; simp at p1
  | some res1 =>
    cases hm2 : c_fontwrapper.create {} sample_gdi 5 { m_width := 64 } [] 20 0 0 with
    | none => rw [hm2] at p2; simp at p2
    | some res2 =>
      obtain ⟨ok1, r1⟩ := res1
      obtain ⟨ok2, r2⟩ := res2
      rw [hm1] at p1
      rw [hm2] at p2
      simp only [Option.map_some', Option.some.injEq] at p1 p2
      subst p1
      subst p2
      exact ⟨r1, r2, rfl, rfl,
        (create_is_deterministic {} sample_gdi 1 5 {} { m_width := 64 } r1 r2 [] 20 0 0 rfl
          hm1 hm2).1⟩

/-! ### Bounds of the texture atlas -/

/-- The pixels copied by an `append` that gets as far as its loops. -/
theorem append_pixels (g : daisy_t) (a : c_texatlas) (uuid : Nat) (d : point_t)
    (tex_size : Nat) (hs : tex_size ≠ 0)
    (hfit : (a.wrapped d).m_cursor.y + d.y ≤ a.m_dimensions.y) (hmap : g.Map a.m_texture = true) :
    (a.append g uuid d true tex_size).2.2
      = (copy_pixels (a.wrapped d).m_cursor d tex_size (pixel_iterations d)).2 := by
  obtain ⟨hdim, htex, hco, _⟩ := wrapped_frame a d
  obtain ⟨hrdim, hrtex, hrco, hrcur, hrmax⟩ := raised_frame (a.wrapped d) d
  have h2 : ¬ (a.wrapped d).m_cursor.y + d.y > a.m_dimensions.y := not_lt.mpr hfit
  unfold c_texatlas.append
  dsimp only
  rw [hrtex, hrcur, hrdim, htex, hdim]
  simp only [Bool.not_true, Bool.false_or, decide_eq_true_eq, hs, if_false, h2, hmap,
    Bool.false_eq_true]
  split_ifs <;> rfl

/-- C34, the code at the failing input: on the empty atlas of 100 by 100 that `create` leaves,
`append` of a rectangle of 150 by 10 with 6000 bytes of pixel data returns `true`; the
rectangle is placed at the cursor (0, 0), where `cursor.x + width = 150` exceeds `W = 100`,
and the UV rectangle recorded is (0, 0, 3/2, 1/10): the width is tested only to decide the
row wrap. -/
theorem wide_rectangle_exceeds_atlas :
    c_texatlas.create {} {} ⟨100, 100⟩ = (true, sample_new_atlas) ∧
    (sample_new_atlas.append {} 1 ⟨150, 10⟩ true 6000).1 = true ∧
    (sample_new_atlas.wrapped ⟨150, 10⟩).m_cursor = ⟨0, 0⟩ ∧
    (sample_new_atlas.append {} 1 ⟨150, 10⟩ true 6000).2.1.coords 1 = (0, 0, 3 / 2, 1 / 10) ∧
    (sample_new_atlas.append {} 1 ⟨150, 10⟩ true 6000).2.1.m_cursor = ⟨150, 0⟩ := by
  have hw : (sample_new_atlas.wrapped ⟨150, 10⟩).m_cursor = ⟨0, 0⟩ := by
    norm_num [c_texatlas.wrapped, sample_new_atlas]
  have hcopy : (copy_pixels (sample_new_atlas.wrapped ⟨150, 10⟩).m_cursor ⟨150, 10⟩ 6000
      (pixel_iterations ⟨150, 10⟩)).1 = true := by
    have e : (⟨150, 10⟩ : point_t) = ⟨((150 : Nat) : ℚ), ((10 : Nat) : ℚ)⟩ := by norm_num
    rw [e]; exact copy_pixels_of_size _ 150 10 6000 (by decide)
  obtain ⟨hok, hco, hcur, _⟩ := append_of_conditions {} sample_new_atlas 1 ⟨150, 10⟩ 6000
    (by decide) (by rw [hw]; norm_num [sample_new_atlas]) rfl hcopy
  refine ⟨?_, hok, hw, ?_, ?_⟩
  · simp [c_texatlas.create, sample_new_atlas, u32]
  · simp only [c_texatlas.coords, hco, if_true, hw, uv_at]
    norm_num [sample_new_atlas]
  · rw [hcur, hw]; norm_num

/-- C35, the code at the failing input: on the empty atlas of 100 by 100, `append` of a
rectangle of 2 by 1 with `tex_size = 4` returns `true` after copying two pixels; the second
one is read at the source offset 4, that is the bytes 4 to 7 of a block of 4 bytes: the test
`offset > tex_size` lets through the offsets from `tex_size - 3` to `tex_size`. -/
theorem size_check_admits_pixel_past_the_data :
    (sample_new_atlas.append {} 1 ⟨2, 1⟩ true 4).1 = true ∧
    (sample_new_atlas.append {} 1 ⟨2, 1⟩ true 4).2.2 = [⟨0, 0, 0⟩, ⟨0, 1, 4⟩] := by
  have hw : (sample_new_atlas.wrapped ⟨2, 1⟩).m_cursor = ⟨0, 0⟩ := by
    norm_num [c_texatlas.wrapped, sample_new_atlas]
  have hiter : pixel_iterations ⟨2, 1⟩ = [(0, 0), (0, 1)] := by
    have e : (⟨2, 1⟩ : point_t) = ⟨((2 : Nat) : ℚ), ((1 : Nat) : ℚ)⟩ := by norm_num
    rw [e]
    simp only [pixel_iterations, Int.ceil_natCast, Int.toNat_ofNat]
    decide
  have hcp : copy_pixels ⟨0, 0⟩ ⟨2, 1⟩ 4 [(0, 0), (0, 1)] = (true, [⟨0, 0, 0⟩, ⟨0, 1, 4⟩]) := by
    have e : (⟨2, 1⟩ : point_t) = ⟨((2 : Nat) : ℚ), ((1 : Nat) : ℚ)⟩ := by norm_num
    have e0 : (⟨0, 0⟩ : point_t) = ⟨((0 : Nat) : ℚ), ((0 : Nat) : ℚ)⟩ := by norm_num
    rw [e, e0]
    simp only [copy_pixels, Int.floor_natCast, Int.toNat_ofNat]
    decide
  have hfit : (sample_new_atlas.wrapped ⟨2, 1⟩).m_cursor.y + (⟨2, 1⟩ : point_t).y
      ≤ sample_new_atlas.m_dimensions.y := by rw [hw]; norm_num [sample_new_atlas]
  refine ⟨?_, ?_⟩
  · exact (append_of_conditions {} sample_new_atlas 1 ⟨2, 1⟩ 4 (by decide) hfit rfl
      (by rw [hw, hiter, hcp])).1
  · rw [append_pixels {} sample_new_atlas 1 ⟨2, 1⟩ 4 (by decide) hfit rfl, hw, hiter, hcp]

/-! ### Termination of the capacity doubling -/

/-- From a zero capacity the doubling loop never reaches a non-zero requirement. -/
theorem grow_capacity_unbounded_zero (need : Nat) (hneed : 0 < need) :
    ∀ fuel, grow_capacity_unbounded need fuel 0 = none := by
  intro fuel
  induction fuel with
  | zero => rfl
  | succ fuel ih => rw [grow_capacity_unbounded, if_pos hneed]; exact ih

/-- From a non-zero capacity the doubling loop stops once the capacity times a power of two
reaches the requirement. -/
theorem grow_capacity_unbounded_stops (need : Nat) :
    ∀ (fuel capacity : Nat), 1 ≤ capacity → need ≤ capacity * 2 ^ fuel →
      ∃ result, grow_capacity_unbounded need (fuel + 1) capacity = some result := by
  intro fuel
  induction fuel with
  | zero =>
    intro capacity _ h
    rw [pow_zero, Nat.mul_one] at h
    exact ⟨capacity, by rw [grow_capacity_unbounded, if_neg (by omega)]⟩
  | succ fuel ih =>
    intro capacity hc h
    rw [grow_capacity_unbounded]
    by_cases hgt : need > capacity
    · rw [if_pos hgt]
      exact ih (capacity * 2) (by omega) (by rw [pow_succ] at h; nlinarith)
    · rw [if_neg hgt]; exact ⟨_, rfl⟩

/-- For requirements of at most 2^31 the 32-bit loop and the loop on unbounded naturals run
alike. -/
theorem grow_capacity_eq_unbounded (need : Nat) (hneed : need ≤ 2147483648) :
    ∀ (fuel capacity : Nat),
      grow_capacity need fuel capacity = grow_capacity_unbounded need fuel capacity := by
  intro fuel
  induction fuel with
  | zero => intro capacity; rfl
  | succ fuel ih =>
    intro capacity
    rw [grow_capacity, grow_capacity_unbounded]
    by_cases hgt : need > capacity
    · rw [if_pos hgt, if_pos hgt, u32_of_lt (by omega)]
      exact ih _
    · rw [if_neg hgt, if_neg hgt]

/-- From a zero capacity the 32-bit doubling loop never reaches a non-zero requirement. -/
theorem grow_capacity_zero (need : Nat) (hneed : 0 < need) :
    ∀ fuel, grow_capacity need fuel 0 = none := by
  intro fuel
  induction fuel with
  | zero => rfl
  | succ fuel ih => rw [grow_capacity, if_pos hneed]; exact ih

/-- With a zero vertex capacity and a non-zero requirement `ensure_buffers_capacity` does not
return. -/
theorem ensure_buffers_capacity_zero (g : daisy_t) (q : c_renderqueue) (va ia : Nat)
    (hc : q.m_vtxs.m_capacity = 0) (hneed : 0 < u32 (q.m_vtxs.m_size + va)) :
    ensure_buffers_capacity g q va ia = none := by
  unfold ensure_buffers_capacity ensure_capacity
  rw [hc, if_pos hneed, grow_capacity_zero _ hneed]

/-- C36: with the counters as unbounded naturals, the doubling loop of
`ensure_buffers_capacity` stops (for some number of iterations) if and only if the capacity
is non-zero or no growth is needed; for requirements of at most 2^31 the 32-bit loop runs
like the unbounded one; on a queue with non-zero capacities every push returns, the sizes
being within the 32-bit range; `create( 0, 0 )` returns `true` with an empty vertex buffer of
capacity 0; and on a queue with such a vertex buffer no push that asks for a vertex returns,
whatever the fuel given to the loop. -/
theorem doubling_stops_iff_capacity_nonzero :
    (∀ need capacity : Nat,
      (∃ fuel result, grow_capacity_unbounded need fuel capacity = some result) ↔
        (capacity ≠ 0 ∨ need ≤ capacity)) ∧
    (∀ need fuel capacity : Nat, need ≤ 2147483648 →
      grow_capacity need fuel capacity = grow_capacity_unbounded need fuel capacity) ∧
    (∀ (g : daisy_t) (q : c_renderqueue), 1 ≤ q.m_vtxs.m_capacity → 1 ≤ q.m_idxs.m_capacity →
      (∀ va ia, q.m_vtxs.m_size + va < 2147483648 → q.m_idxs.m_size + ia < 2147483648 →
        (ensure_buffers_capacity g q va ia).isSome = true) ∧
      (∀ position size c1 c2 c3 c4 t uv_mins uv_maxs,
        q.m_vtxs.m_size + 4 < 2147483648 → q.m_idxs.m_size + 6 < 2147483648 →
        (push_gradient_rectangle g q position size c1 c2 c3 c4 t uv_mins uv_maxs).isSome = true ∧
        (push_filled_rectangle g q position size c1 t uv_mins uv_maxs).isSome = true) ∧
      (∀ p1 p2 p3 c1 c2 c3 t uv1 uv2 uv3,
        q.m_vtxs.m_size + 3 < 2147483648 → q.m_idxs.m_size + 3 < 2147483648 →
        (push_filled_triangle g q p1 p2 p3 c1 c2 c3 t uv1 uv2 uv3).isSome = true) ∧
      (∀ p1 p2 col width,
        q.m_vtxs.m_size + 4 < 2147483648 → q.m_idxs.m_size + 6 < 2147483648 →
        (push_line g q p1 p2 col width).isSome = true) ∧
      (∀ center radius segments center_color outer_color,
        q.m_vtxs.m_size + u32_of_int (segments + 1) < 2147483648 →
        q.m_idxs.m_size + u32_of_int (segments * 3) < 2147483648 →
        (push_filled_circle g q center radius segments center_color outer_color).isSome = true) ∧
      (∀ (font : c_fontwrapper) position (text : List Int) color alignment,
        q.m_vtxs.m_size + u32 (text.length * 4) < 2147483648 →
        q.m_idxs.m_size + u32 (text.length * 6) < 2147483648 →
        (push_text g q font position text color alignment).isSome = true)) ∧
    ((create {} {} 0 0).1 = true ∧ (create {} {} 0 0).2.m_vtxs.m_capacity = 0 ∧
      (create {} {} 0 0).2.m_vtxs.m_size = 0) ∧
    (∀ (g : daisy_t) (q : c_renderqueue), q.m_vtxs.m_capacity = 0 → q.m_vtxs.m_size = 0 →
      (∀ fuel need, 0 < need → grow_capacity need fuel 0 = none) ∧
      (∀ position size c1 c2 c3 c4 t uv_mins uv_maxs,
        push_gradient_rectangle g q position size c1 c2 c3 c4 t uv_mins uv_maxs = none) ∧
      (∀ p1 p2 p3 c1 c2 c3 t uv1 uv2 uv3,
        push_filled_triangle g q p1 p2 p3 c1 c2 c3 t uv1 uv2 uv3 = none) ∧
      (∀ p1 p2 col width, push_line g q p1 p2 col width = none) ∧
      (∀ center radius (n : Nat) center_color outer_color, n + 1 < 4294967296 →
        push_filled_circle g q center radius n center_color outer_color = none) ∧
      (∀ (font : c_fontwrapper) position (text : List Int) color alignment,
        text ≠ [] → text.length * 4 < 4294967296 →
        push_text g q font position text color alignment = none)) := by
  refine ⟨?_, ?_, ?_, by decide, ?_⟩
  · intro need capacity
    constructor
    · rintro ⟨fuel, result, h⟩
      by_contra hcon
      rw [not_or, not_not, not_le] at hcon
      obtain ⟨h0, hgt⟩ := hcon
      subst h0
      rw [grow_capacity_unbounded_zero need hgt fuel] at h
      exact absurd h (by simp)
    · rintro (h | h)
      · have hpow : need ≤ capacity * 2 ^ need := by
          have h1 : need < 2 ^ need := Nat.lt_two_pow need
          have h2 : 1 * 2 ^ need ≤ capacity * 2 ^ need :=
            Nat.mul_le_mul_right _ (Nat.pos_of_ne_zero h)
          omega
        obtain ⟨result, hr⟩ := grow_capacity_unbounded_stops need need capacity
          (Nat.pos_of_ne_zero h) hpow
        exact ⟨_, result, hr⟩
      · exact ⟨1, capacity, by rw [grow_capacity_unbounded, if_neg (by omega)]⟩
  · intro need fuel capacity hneed
    exact grow_capacity_eq_unbounded need hneed fuel capacity
  · intro g q hcv hci
    have hens : ∀ va ia, q.m_vtxs.m_size + va < 2147483648 →
        q.m_idxs.m_size + ia < 2147483648 →
        ∃ q1, ensure_buffers_capacity g q va ia = some q1 := by
      intro va ia hv hi
      obtain ⟨q1, hq1, _⟩ := ensure_buffers_capacity_total g q va ia hcv hci hv hi
      exact ⟨q1, hq1⟩
    refine ⟨?_, ?_, ?_, ?_, ?_, ?_⟩
    · intro va ia hv hi
      obtain ⟨q1, hq1⟩ := hens va ia hv hi
      rw [hq1]; rfl
    · intro position size c1 c2 c3 c4 t uv_mins uv_maxs hv hi
      obtain ⟨q1, hq1⟩ := hens 4 6 hv hi
      constructor
      · simp only [push_gradient_rectangle, hq1]; rfl
      · simp only [push_filled_rectangle, push_gradient_rectangle, hq1]; rfl
    · intro p1 p2 p3 c1 c2 c3 t uv1 uv2 uv3 hv hi
      obtain ⟨q1, hq1⟩ := hens 3 3 hv hi
      simp only [push_filled_triangle, hq1]; rfl
    · intro p1 p2 col width hv hi
      obtain ⟨q1, hq1⟩ := hens 4 6 hv hi
      simp only [push_line, hq1]; rfl
    · intro center radius segments center_color outer_color hv hi
      obtain ⟨q1, hq1⟩ := hens _ _ hv hi
      simp only [push_filled_circle, hq1]; rfl
    · intro font position text color alignment hv hi
      obtain ⟨q1, hq1⟩ := hens _ _ hv hi
      simp only [push_text, hq1]; rfl
  · intro g q hcap hsize
    have hnone : ∀ va ia, 0 < u32 va → ensure_buffers_capacity g q va ia = none := by
      intro va ia hva
      apply ensure_buffers_capacity_zero g _ va ia hcap
      rw [hsize, Nat.zero_add]; exact hva
    refine ⟨fun fuel need h => grow_capacity_zero need h fuel, ?_, ?_, ?_, ?_, ?_⟩
    · intro position size c1 c2 c3 c4 t uv_mins uv_maxs
      simp only [push_gradient_rectangle, hnone 4 6 (by decide)]
    · intro p1 p2 p3 c1 c2 c3 t uv1 uv2 uv3
      simp only [push_filled_triangle, hnone 3 3 (by decide)]
    · intro p1 p2 col width
      simp only [push_line, hnone 4 6 (by decide)]
    · intro center radius n center_color outer_color hn
      have hva : u32_of_int ((n : Int) + 1) = n + 1 := by
        have := u32_of_int_natCast (n + 1) hn
        simpa using this
      simp only [push_filled_circle, hva, hnone (n + 1) _ (by rw [u32_of_lt hn]; omega)]
    · intro font position text color alignment hne hlen
      have hpos : 0 < text.length := List.length_pos.mpr hne
      have hu : u32 (text.length * 4) = text.length * 4 := u32_of_lt hlen
      simp only [push_text, hnone (u32 (text.length * 4)) _ (by rw [hu, hu]; omega)]

/-- A push that asks for no room needs no growth: `push_text` of the empty text returns on
the queue `create( 0, 0 )` leaves, both capacities being zero. -/
theorem empty_text_returns_at_zero_capacity :
    (push_text {} (create {} {} 0 0).2 sample_font ⟨0, 0⟩ [] {} 0).isSome = true := by
  decide

/-! ### Text extent over the glyphs of the atlas -/

/-- The row wrap of `append`, for a rectangle with whole-number dimensions on an atlas with
whole-number cursor and row height: these stay whole numbers, and what the cursor had left
behind it still has. -/
theorem wrapped_behind (a : c_texatlas) (w h : Nat) (hint : a.integral) :
    (a.wrapped ⟨(w : ℚ), (h : ℚ)⟩).integral ∧
    ∀ p, a.behind p → (a.wrapped ⟨(w : ℚ), (h : ℚ)⟩).behind p := by
  obtain ⟨x, y, m, hc, hm⟩ := hint
  unfold c_texatlas.wrapped
  split_ifs with hwrap
  · refine ⟨⟨0, y + m, 0, by simp [hc, hm], by simp⟩, ?_⟩
    intro p hp
    left
    have hm0 : (0 : ℚ) ≤ m := Nat.cast_nonneg m
    rcases hp with hp | ⟨hp, _⟩
    · simp only [hc, hm] at hp ⊢; linarith
    · simp only [hc, hm] at hp ⊢; exact hp
  · exact ⟨⟨x, y, m, hc, hm⟩, fun p hp => hp⟩

/-- One `append` of a rectangle with whole-number dimensions, whatever its outcome: the
cursor and the row height stay whole numbers, and what the cursor had left behind it still
has. -/
theorem append_behind (g : daisy_t) (a : c_texatlas) (uuid w h : Nat) (tex_data : Bool)
    (tex_size : Nat) (hint : a.integral) :
    (a.append g uuid ⟨(w : ℚ), (h : ℚ)⟩ tex_data tex_size).2.1.integral ∧
    ∀ p, a.behind p → (a.append g uuid ⟨(w : ℚ), (h : ℚ)⟩ tex_data tex_size).2.1.behind p := by
  obtain ⟨hwint, hwb⟩ := wrapped_behind a w h hint
  obtain ⟨x, y, m, hc, hm⟩ := hwint
  have hmax : max (m : ℚ) (h : ℚ) = ((max m h : Nat) : ℚ) := by push_cast; rfl
  rcases append_cursor_cases g a uuid ⟨(w : ℚ), (h : ℚ)⟩ tex_data tex_size with
    ⟨e1, e2⟩ | ⟨e1, e2⟩
  · refine ⟨?_, ?_⟩
    · obtain ⟨x0, y0, m0, hc0, hm0⟩ := hint
      exact ⟨x0, y0, m0, by rw [e1, hc0], by rw [e2, hm0]⟩
    · intro p hp
      unfold c_texatlas.behind at hp ⊢
      rw [e1, e2]; exact hp
  · rw [hc] at e1
    rw [hm] at e2
    have hmle : ∀ r : ℚ, (r = (m : ℚ) ∨ r = max (m : ℚ) (h : ℚ)) → (m : ℚ) ≤ r ∧
        ∃ k : Nat, r = (k : ℚ) := by
      rintro r (rfl | rfl)
      · exact ⟨le_refl _, m, rfl⟩
      · exact ⟨le_max_left _ _, max m h, hmax⟩
    obtain ⟨hmr, k, hk⟩ := hmle _ e2
    have hcx : (x : ℚ) ≤ (a.append g uuid ⟨(w : ℚ), (h : ℚ)⟩ tex_data tex_size).2.1.m_cursor.x ∧
        (a.append g uuid ⟨(w : ℚ), (h : ℚ)⟩ tex_data tex_size).2.1.m_cursor.y = (y : ℚ) ∧
        ∃ j : Nat, (a.append g uuid ⟨(w : ℚ), (h : ℚ)⟩ tex_data tex_size).2.1.m_cursor.x
          = (j : ℚ) := by
      rcases e1 with e1 | e1 <;> rw [e1]
      · exact ⟨le_refl _, rfl, x, rfl⟩
      · refine ⟨?_, rfl, x + w, by push_cast; rfl⟩
        have : (0 : ℚ) ≤ w := Nat.cast_nonneg w
        simp only; linarith
    obtain ⟨hxle, hy, j, hj⟩ := hcx
    refine ⟨⟨j, y, k, ?_, hk⟩, ?_⟩
    · rw [← hj, ← hy]
    · intro p hp
      have hp2 := hwb p hp
      unfold c_texatlas.behind at hp2 ⊢
      rw [hc, hm] at hp2
      rw [hy]
      rcases hp2 with hp2 | ⟨hp2, hp3⟩
      · exact Or.inl hp2
      · exact Or.inr ⟨by simp only at hp2; linarith, by simp only at hp3; linarith⟩

/-- Over a sequence of appends of rectangles with whole-number dimensions the cursor and the
row height stay whole numbers, and what the cursor had left behind it still has. -/
theorem append_all_behind (g : daisy_t) :
    ∀ (items : List atlas_item) (a : c_texatlas), a.integral →
      (∀ it ∈ items, ∃ w h : Nat, it.dimensions = ⟨(w : ℚ), (h : ℚ)⟩) →
      (append_all g a items).integral ∧ ∀ p, a.behind p → (append_all g a items).behind p := by
  intro items
  induction items with
  | nil => intro a hint _; exact ⟨hint, fun p hp => hp⟩
  | cons it rest ih =>
    intro a hint hd
    obtain ⟨w, h, hwh⟩ := hd it (List.mem_cons_self _ _)
    obtain ⟨h1, h2⟩ := append_behind g a it.uuid w h it.tex_data it.tex_size hint
    rw [← hwh] at h1 h2
    obtain ⟨h3, h4⟩ := ih _ h1 (fun it2 hm => hd it2 (List.mem_cons_of_mem _ hm))
    exact ⟨h3, fun p hp => h4 p (h2 p hp)⟩

/-- The pixels copied by the loops of `append` are at the iterated offsets from the cursor. -/
theorem copy_pixels_mem (cursor dimensions : point_t) (tex_size : Nat) :
    ∀ (l : List (Nat × Nat)) (p : pixel_copy), p ∈ (copy_pixels cursor dimensions tex_size l).2 →
      ∃ yx ∈ l, p.row = u32 (Int.toNat ⌊cursor.y⌋) + yx.1 ∧
        p.column = u32 (Int.toNat ⌊cursor.x⌋) + yx.2 := by
  intro l
  induction l with
  | nil => intro p hp; simp [copy_pixels] at hp
  | cons yx rest ih =>
    intro p hp
    obtain ⟨y, x⟩ := yx
    simp only [copy_pixels] at hp
    split_ifs at hp with hbig
    · simp at hp
    · rcases List.mem_cons.mp hp with rfl | hrest
      · exact ⟨(y, x), List.mem_cons_self _ _, rfl, rfl⟩
      · obtain ⟨yx2, hmem, h1, h2⟩ := ih p hrest
        exact ⟨yx2, List.mem_cons_of_mem _ hmem, h1, h2⟩

/-- The pixels an `append` that returns `true` copies, for whole-number dimensions on an
atlas of `W` by `H` below 2^32: the cursor had not left them behind before the call, and it
has after it. -/
theorem append_pixels_placed (g : daisy_t) (a : c_texatlas) (uuid w h W H : Nat)
    (tex_data : Bool) (tex_size : Nat) (hint : a.integral)
    (hdim : a.m_dimensions = ⟨(W : ℚ), (H : ℚ)⟩) (hW : W < 4294967296) (hH : H < 4294967296)
    (hok : (a.append g uuid ⟨(w : ℚ), (h : ℚ)⟩ tex_data tex_size).1 = true) :
    ∀ p ∈ (a.append g uuid ⟨(w : ℚ), (h : ℚ)⟩ tex_data tex_size).2.2,
      ¬ a.behind p ∧ (a.append g uuid ⟨(w : ℚ), (h : ℚ)⟩ tex_data tex_size).2.1.behind p := by
  obtain ⟨htd, hts, hfit, hmap, hcopy⟩ := append_true_conditions g a uuid _ tex_data tex_size hok
  subst htd
  obtain ⟨_, _, hcur, hmaxr, _, _⟩ := append_of_conditions g a uuid _ tex_size hts hfit hmap hcopy
  have hpix := append_pixels g a uuid ⟨(w : ℚ), (h : ℚ)⟩ tex_size hts hfit hmap
  obtain ⟨x0, y0, m0, hc0, hm0⟩ := hint
  have hcases : ∃ cx cy m1 : Nat,
      (a.wrapped ⟨(w : ℚ), (h : ℚ)⟩).m_cursor = ⟨(cx : ℚ), (cy : ℚ)⟩ ∧
      (a.wrapped ⟨(w : ℚ), (h : ℚ)⟩).m_max_height = (m1 : ℚ) ∧ cx ≤ W ∧
      ((cx = 0 ∧ cy = y0 + m0) ∨ (cx = x0 ∧ cy = y0)) := by
    unfold c_texatlas.wrapped
    split_ifs with hwrap
    · exact ⟨0, y0 + m0, 0, by simp [hc0, hm0], by simp, by omega, Or.inl ⟨rfl, rfl⟩⟩
    · refine ⟨x0, y0, m0, hc0, hm0, ?_, Or.inr ⟨rfl, rfl⟩⟩
      rw [hc0, hdim] at hwrap
      simp only [not_lt] at hwrap
      have h2 : ((x0 + w : Nat) : ℚ) ≤ (W : ℚ) := by push_cast; exact hwrap
      have h3 : x0 + w ≤ W := by exact_mod_cast h2
      omega
  obtain ⟨cx, cy, m1, hwc, hwm, hcxW, hrel⟩ := hcases
  rw [hwc] at hfit hcur hpix
  rw [hwm] at hmaxr
  rw [hdim] at hfit
  have hcyH : cy + h ≤ H := by
    have h2 : ((cy + h : Nat) : ℚ) ≤ (H : ℚ) := by push_cast; exact hfit
    exact_mod_cast h2
  intro p hp
  rw [hpix] at hp
  obtain ⟨yx, hmem, hrow, hcol⟩ := copy_pixels_mem _ _ _ _ p hp
  obtain ⟨hy, hx⟩ := pixel_iterations_mem w h yx hmem
  have hfx : u32 (Int.toNat ⌊(cx : ℚ)⌋) = cx := by
    rw [Int.floor_natCast, Int.toNat_ofNat]; exact u32_of_lt (by omega)
  have hfy : u32 (Int.toNat ⌊(cy : ℚ)⌋) = cy := by
    rw [Int.floor_natCast, Int.toNat_ofNat]; exact u32_of_lt (by omega)
  simp only at hrow hcol
  rw [hfy] at hrow
  rw [hfx] at hcol
  unfold c_texatlas.behind
  rw [hcur, hmaxr, hc0, hm0, hrow, hcol]
  simp only
  have hm1 : (m1 : ℚ) ≤ max (m1 : ℚ) (h : ℚ) := le_max_left _ _
  have hh1 : (h : ℚ) ≤ max (m1 : ℚ) (h : ℚ) := le_max_right _ _
  have hyq : ((yx.1 : Nat) : ℚ) < (h : ℚ) := by exact_mod_cast hy
  have hxq : ((yx.2 : Nat) : ℚ) < (w : ℚ) := by exact_mod_cast hx
  have hy0 : (0 : ℚ) ≤ (yx.1 : Nat) := Nat.cast_nonneg _
  have hx0 : (0 : ℚ) ≤ (yx.2 : Nat) := Nat.cast_nonneg _
  have hm00 : (0 : ℚ) ≤ m0 := Nat.cast_nonneg _
  constructor
  · rintro (hb | ⟨hb1, hb2⟩)
    · rcases hrel with ⟨_, rfl⟩ | ⟨_, rfl⟩
      · push_cast at hb; linarith
      · push_cast at hb; linarith
    · rcases hrel with ⟨_, rfl⟩ | ⟨rfl, _⟩
      · push_cast at hb1; linarith
      · push_cast at hb2; linarith
  · right
    push_cast
    constructor <;> linarith

/-- An `append` leaves the dimensions of the atlas as they are, whatever its outcome. -/
theorem append_dimensions (g : daisy_t) (a : c_texatlas) (uuid : Nat) (d : point_t)
    (tex_data : Bool) (tex_size : Nat) :
    (a.append g uuid d tex_data tex_size).2.1.m_dimensions = a.m_dimensions := by
  cases hr : (a.append g uuid d tex_data tex_size).1 with
  | false => exact (append_false_frame g a uuid d tex_data tex_size hr).2
  | true =>
    obtain ⟨htd, hts, hfit, hmap, hcopy⟩ := append_true_conditions g a uuid d tex_data tex_size hr
    subst htd
    exact (append_of_conditions g a uuid d tex_size hts hfit hmap hcopy).2.2.2.2.1

theorem append_all_dimensions (g : daisy_t) :
    ∀ (items : List atlas_item) (a : c_texatlas),
      (append_all g a items).m_dimensions = a.m_dimensions := by
  intro items
  induction items with
  | nil => intro a; rfl
  | cons it rest ih =>
    intro a
    rw [append_all, ih, append_dimensions]

/-- C33: on an atlas with whole-number dimensions `W` by `H` (below 2^32) and whole-number
cursor and row height (as `create` leaves them), over every sequence of `append` calls with
whole-number rectangle dimensions, whatever their outcomes: two calls of the sequence that
return `true` copy their pixels to different places of the texture; no pixel (row, column) is
written by both, whatever the ids. -/
theorem appended_rectangles_disjoint (g : daisy_t) (a0 : c_texatlas) (W H : Nat)
    (pre mid : List atlas_item) (it1 it2 : atlas_item)
    (hint : a0.integral) (hdim : a0.m_dimensions = ⟨(W : ℚ), (H : ℚ)⟩)
    (hW : W < 4294967296) (hH : H < 4294967296)
    (hitems : ∀ it ∈ pre ++ it1 :: (mid ++ [it2]),
      ∃ w h : Nat, it.dimensions = ⟨(w : ℚ), (h : ℚ)⟩)
    (hok1 : ((append_all g a0 pre).append g it1.uuid it1.dimensions it1.tex_data
      it1.tex_size).1 = true)
    (hok2 : ((append_all g ((append_all g a0 pre).append g it1.uuid it1.dimensions it1.tex_data
      it1.tex_size).2.1 mid).append g it2.uuid it2.dimensions it2.tex_data it2.tex_size).1
      = true) :
    ∀ p1 ∈ ((append_all g a0 pre).append g it1.uuid it1.dimensions it1.tex_data
        it1.tex_size).2.2,
      ∀ p2 ∈ ((append_all g ((append_all g a0 pre).append g it1.uuid it1.dimensions
          it1.tex_data it1.tex_size).2.1 mid).append g it2.uuid it2.dimensions it2.tex_data
          it2.tex_size).2.2,
        ¬ (p1.row = p2.row ∧ p1.column = p2.column) := by
  have hpre : ∀ it ∈ pre, ∃ w h : Nat, it.dimensions = ⟨(w : ℚ), (h : ℚ)⟩ :=
    fun it hm => hitems it (List.mem_append_left _ hm)
  have hmid : ∀ it ∈ mid, ∃ w h : Nat, it.dimensions = ⟨(w : ℚ), (h : ℚ)⟩ :=
    fun it hm => hitems it (List.mem_append_right _
      (List.mem_cons_of_mem _ (List.mem_append_left _ hm)))
  obtain ⟨w1, h1, hd1⟩ := hitems it1 (List.mem_append_right _ (List.mem_cons_self _ _))
  obtain ⟨w2, h2, hd2⟩ := hitems it2 (List.mem_append_right _
    (List.mem_cons_of_mem _ (List.mem_append_right _ (List.mem_singleton_self _))))
  rw [hd1] at hok1 hok2 ⊢
  rw [hd2] at hok2 ⊢
  have hint1 := (append_all_behind g pre a0 hint hpre).1
  have hdim1 : (append_all g a0 pre).m_dimensions = ⟨(W : ℚ), (H : ℚ)⟩ := by
    rw [append_all_dimensions, hdim]
  have hplaced1 := append_pixels_placed g (append_all g a0 pre) it1.uuid w1 h1 W H it1.tex_data
    it1.tex_size hint1 hdim1 hW hH hok1
  have hintr1 := (append_behind g (append_all g a0 pre) it1.uuid w1 h1 it1.tex_data it1.tex_size
    hint1).1
  obtain ⟨hint2, hkeep⟩ := append_all_behind g mid _ hintr1 hmid
  have hdim2 : (append_all g ((append_all g a0 pre).append g it1.uuid ⟨(w1 : ℚ), (h1 : ℚ)⟩
      it1.tex_data it1.tex_size).2.1 mid).m_dimensions = ⟨(W : ℚ), (H : ℚ)⟩ := by
    rw [append_all_dimensions, append_dimensions, hdim1]
  have hplaced2 := append_pixels_placed g _ it2.uuid w2 h2 W H it2.tex_data it2.tex_size
    hint2 hdim2 hW hH hok2
  intro p1 hp1 p2 hp2 ⟨hrow, hcol⟩
  have hb1 := hkeep p1 (hplaced1 p1 hp1).2
  have hnb2 := (hplaced2 p2 hp2).1
  apply hnb2
  unfold c_texatlas.behind at hb1 ⊢
  rw [← hrow, ← hcol]
  exact hb1

/-- Witness of C33: on the empty atlas of 100 by 100, a rectangle of 60 by 10 and then one of
30 by 20, which lands to the right of the first. -/
theorem appended_rectangles_disjoint_witness :
    (sample_new_atlas.append {} 1 ⟨((60 : Nat) : ℚ), ((10 : Nat) : ℚ)⟩ true 2400).1 = true ∧
    ((sample_new_atlas.append {} 1 ⟨((60 : Nat) : ℚ), ((10 : Nat) : ℚ)⟩ true 2400).2.1.append
      {} 3 ⟨((30 : Nat) : ℚ), ((20 : Nat) : ℚ)⟩ true 2400).1 = true ∧
    ∀ p1 ∈ (sample_new_atlas.append {} 1 ⟨((60 : Nat) : ℚ), ((10 : Nat) : ℚ)⟩ true 2400).2.2,
      ∀ p2 ∈ ((sample_new_atlas.append {} 1 ⟨((60 : Nat) : ℚ), ((10 : Nat) : ℚ)⟩ true 2400).2.1.append
          {} 3 ⟨((30 : Nat) : ℚ), ((20 : Nat) : ℚ)⟩ true 2400).2.2,
        ¬ (p1.row = p2.row ∧ p1.column = p2.column) := by
  have hw : (sample_new_atlas.wrapped ⟨((60 : Nat) : ℚ), ((10 : Nat) : ℚ)⟩).m_cursor = ⟨0, 0⟩ := by
    norm_num [c_texatlas.wrapped, sample_new_atlas]
  obtain ⟨hok1, _, hcur, hmax, hdim, _⟩ := append_of_conditions {} sample_new_atlas 1
    ⟨((60 : Nat) : ℚ), ((10 : Nat) : ℚ)⟩ 2400
    (by decide) (by rw [hw]; norm_num [sample_new_atlas]) rfl
    (copy_pixels_of_size _ 60 10 2400 (by decide))
  rw [hw] at hcur
  have hw2 : ((sample_new_atlas.append {} 1 ⟨((60 : Nat) : ℚ), ((10 : Nat) : ℚ)⟩ true 2400).2.1.wrapped
      ⟨((30 : Nat) : ℚ), ((20 : Nat) : ℚ)⟩).m_cursor = ⟨60, 0⟩ := by
    unfold c_texatlas.wrapped
    rw [hcur, hdim, if_neg (by norm_num [sample_new_atlas]), hcur]
    norm_num
  obtain ⟨hok2, _⟩ := append_of_conditions {}
    (sample_new_atlas.append {} 1 ⟨((60 : Nat) : ℚ), ((10 : Nat) : ℚ)⟩ true 2400).2.1 3
    ⟨((30 : Nat) : ℚ), ((20 : Nat) : ℚ)⟩ 2400
    (by decide) (by rw [hw2, hdim]; norm_num [sample_new_atlas]) rfl
    (copy_pixels_of_size _ 30 20 2400 (by decide))
  refine ⟨hok1, hok2, ?_⟩
  exact appended_rectangles_disjoint {} sample_new_atlas 100 100 [] []
    { uuid := 1, dimensions := ⟨((60 : Nat) : ℚ), ((10 : Nat) : ℚ)⟩, tex_size := 2400 }
    { uuid := 3, dimensions := ⟨((30 : Nat) : ℚ), ((20 : Nat) : ℚ)⟩, tex_size := 2400 }
    ⟨0, 0, 0, by simp [sample_new_atlas], by simp [sample_new_atlas]⟩
    (by simp [sample_new_atlas]) (by decide) (by decide)
    (by
      intro it hit
      simp only [List.nil_append, List.mem_cons, List.mem_singleton,
        List.not_mem_nil, or_false] at hit
      rcases hit with rfl | rfl
      · exact ⟨60, 10, rfl⟩
      · exact ⟨30, 20, rfl⟩)
    hok1 hok2

/-! ### The descriptor counts and the stored indices over a sequence of calls -/

/-- A slot of the block after one block of `ensure_buffers_capacity` holds what it held
before, or the zero of a new block. -/
theorem ensure_capacity_slot {α : Type} (g : daisy_t) (zero : α) (slot_bytes : Nat)
    (buf : renderbuffer_t α) (realloc : Bool) (to_add : Nat) (r : renderbuffer_t α × Bool)
    (h : ensure_capacity g zero slot_bytes buf realloc to_add = some r) :
    ∀ s v, r.1.slot s = some v → buf.slot s = some v ∨ v = zero := by
  unfold ensure_capacity at h
  split_ifs at h with hgt
  · cases hg : grow_capacity (u32 (buf.m_size + to_add)) grow_fuel buf.m_capacity with
    | none => simp [hg] at h
    | some c =>
      simp only [hg] at h
      split_ifs at h with hm
      · have e := (Option.some.inj h).symm
        subst e
        intro s v hs
        simp only [renderbuffer_t.slot, Option.getD_some, reallocated, List.getElem?_map,
          Option.map_eq_some'] at hs
        obtain ⟨i, hi, hv⟩ := hs
        have hi2 : i = s := by
          rw [List.getElem?_eq_some_iff] at hi
          obtain ⟨_, hi⟩ := hi
          simpa using hi.symm
        subst hi2
        split_ifs at hv with hlt
        · rw [List.getD_eq_getElem?_getD] at hv
          cases hold : (buf.m_data.getD [])[i]? with
          | none => right; simp [hold] at hv; exact hv.symm
          | some w => left; simp [hold] at hv; simp [renderbuffer_t.slot, hold, hv]
        · right; exact hv.symm
      · have e := (Option.some.inj h).symm
        subst e
        intro s v hs
        left; exact hs
  · have e := (Option.some.inj h).symm
    subst e
    intro s v hs
    left; exact hs

/-- A slot of the index block after `ensure_buffers_capacity`. -/
theorem ensure_buffers_capacity_slot (g : daisy_t) (q q1 : c_renderqueue) (va ia : Nat)
    (h : ensure_buffers_capacity g q va ia = some q1) :
    q1.m_drawcalls = q.m_drawcalls ∧ q1.m_vtxs.m_size = q.m_vtxs.m_size ∧
    q1.m_idxs.m_size = q.m_idxs.m_size ∧
    ∀ s v, q1.m_idxs.slot s = some v → q.m_idxs.slot s = some v ∨ v = 0 := by
  obtain ⟨hv, hi, hd, _⟩ := ensure_buffers_capacity_inv g q q1 va ia h
  exact ⟨hd, (ensure_capacity_frame g _ _ _ _ _ _ hv).1, (ensure_capacity_frame g _ _ _ _ _ _ hi).1,
    ensure_capacity_slot g _ _ _ _ _ _ hi⟩

/-- A slot written by `write_at` holds one of the stored values. -/
theorem write_at_mem {α : Type} (vals : List α) :
    ∀ (l : List α) (offset s : Nat) (v : α), offset ≤ s → s < offset + vals.length →
      (write_at l offset vals)[s]? = some v → v ∈ vals := by
  induction vals with
  | nil => intro l offset s v h1 h2; simp at h2; omega
  | cons v0 vs ih =>
    intro l offset s v h1 h2 hs
    rw [write_at] at hs
    rcases Nat.eq_or_lt_of_le h1 with heq | hlt
    · subst heq
      rw [write_at_below vs _ _ _ (by omega), List.getElem?_set] at hs
      simp only [if_true] at hs
      split_ifs at hs
      simp at hs
      simp [hs]
    · have := ih (l.set offset v0) (offset + 1) s v (by omega)
        (by simp only [List.length_cons] at h2; omega) hs
      exact List.mem_cons_of_mem _ this

theorem store_slot_below {α : Type} (buf : renderbuffer_t α) (vals : List α) (s : Nat)
    (hs : s < buf.m_size) : ((buf.store vals).getD [])[s]? = buf.slot s := by
  unfold renderbuffer_t.store renderbuffer_t.slot
  cases buf.m_data with
  | none => rfl
  | some l => simp only [Option.map_some', Option.getD_some]; exact write_at_below vals l _ _ hs

theorem store_slot_mem {α : Type} (buf : renderbuffer_t α) (vals : List α) (s : Nat) (v : α)
    (h1 : buf.m_size ≤ s) (h2 : s < buf.m_size + vals.length)
    (hs : ((buf.store vals).getD [])[s]? = some v) : v ∈ vals := by
  unfold renderbuffer_t.store at hs
  cases hd : buf.m_data with
  | none => simp [hd] at hs
  | some l =>
    simp only [hd, Option.map_some', Option.getD_some] at hs
    exact write_at_mem vals l _ s v h1 h2 hs

/-- The two outcomes of `begin_batch` ... `end_batch`: a descriptor is appended, or the last
one, a triangle batch with the same texture and a non-zero vertex count, takes the counts. -/
theorem end_batch_cases (q : c_renderqueue) (t v i p : Nat) :
    (begin_batch q t = 0 ∧
      (end_batch q (begin_batch q t) v i p t).m_drawcalls
        = q.m_drawcalls ++ [.CALL_TRI t p v i]) ∨
    (∃ l p0 v0 i0, q.m_drawcalls = l ++ [.CALL_TRI t p0 v0 i0] ∧ v0 ≠ 0 ∧
      begin_batch q t = v0 ∧
      (end_batch q (begin_batch q t) v i p t).m_drawcalls
        = l ++ [.CALL_TRI t (u32 (p0 + p)) (u32 (v0 + v)) (u32 (i0 + i))]) := by
  by_cases h : ∃ l p0 v0 i0, q.m_drawcalls = l ++ [.CALL_TRI t p0 v0 i0] ∧ v0 ≠ 0
  · obtain ⟨l, p0, v0, i0, hq, hv0⟩ := h
    right
    refine ⟨l, p0, v0, i0, hq, hv0, ?_, (batch_rule q t v i p).1 l p0 v0 i0 hq hv0⟩
    rw [begin_batch_tri q l t p0 v0 i0 t hq]; simp
  · left
    have h2 : ∀ l p0 v0 i0, q.m_drawcalls = l ++ [.CALL_TRI t p0 v0 i0] → v0 = 0 := by
      intro l p0 v0 i0 hq
      by_contra hv0
      exact h ⟨l, p0, v0, i0, hq, hv0⟩
    have hcalls := (batch_rule q t v i p).2 h2
    refine ⟨?_, hcalls⟩
    rcases List.eq_nil_or_concat q.m_drawcalls with hnil | ⟨l, d, hq⟩
    · exact begin_batch_nil q t hnil
    · rw [List.concat_eq_append] at hq
      cases d with
      | CALL_TRI t0 p0 v0 i0 =>
        rw [begin_batch_tri q l t0 p0 v0 i0 t hq]
        by_cases ht : t0 = t
        · subst ht; simpa using h2 l p0 v0 i0 hq
        · simp [ht]
      | CALL_SCISSOR position size => exact begin_batch_scissor q l position size t hq
      | CALL_VTXSHADER handle => simp [begin_batch, hq, List.getLast?_append]
      | CALL_PIXSHADER handle => simp [begin_batch, hq, List.getLast?_append]

theorem split_last {α : Type} (pre post l : List α) (d x : α)
    (h : pre ++ d :: post = l ++ [x]) :
    (post = [] ∧ pre = l ∧ d = x) ∨ (∃ rest, post = rest ++ [x] ∧ l = pre ++ d :: rest) := by
  rcases List.eq_nil_or_concat post with hnil | ⟨rest, y, hp⟩
  · subst hnil
    left
    have := List.append_inj' h rfl
    exact ⟨rfl, this.1, by simpa using this.2⟩
  · rw [List.concat_eq_append] at hp
    subst hp
    right
    have h2 : (pre ++ d :: rest) ++ [y] = l ++ [x] := by simpa using h
    have := List.append_inj' h2 rfl
    have hy : y = x := by simpa using this.2
    subst hy
    exact ⟨rest, rfl, this.1.symm⟩

theorem sum_counts_split (f : daisy_drawcall_t → Nat) (pre post : List daisy_drawcall_t)
    (d : daisy_drawcall_t) :
    ((pre ++ d :: post).map f).sum = (pre.map f).sum + f d + (post.map f).sum := by
  simp [List.map_append, List.sum_append, Nat.add_assoc]

/-- One geometry push keeps the queue consistent: given what `ensure_buffers_capacity` left
(`q1`), a result `q2` whose descriptors are those of `end_batch`, whose sizes grew by the
counts, whose index block is the store of `idx` at the old size, with every stored index of
the form `u16 ( additional_indices + k )` for a `k` below the vertices added. -/
theorem batch_step (q q1 q2 : c_renderqueue) (t nv p : Nat) (idx : List Nat)
    (hinv : q.consistent)
    (hs1 : q1.m_idxs.m_size = q.m_idxs.m_size)
    (hslot1 : ∀ s v, q1.m_idxs.slot s = some v → q.m_idxs.slot s = some v ∨ v = 0)
    (hcalls : q2.m_drawcalls = (end_batch q (begin_batch q t) nv idx.length p t).m_drawcalls)
    (hsv : q2.m_vtxs.m_size = q.m_vtxs.m_size + nv)
    (hsi : q2.m_idxs.m_size = q.m_idxs.m_size + idx.length)
    (hdata : q2.m_idxs.m_data = q1.m_idxs.store idx)
    (hidx : ∀ x ∈ idx, ∃ k, k < nv ∧ x = u16 (begin_batch q t + k))
    (hbv : (q.m_drawcalls.map tri_vertex_count).sum + nv < 4294967296)
    (hbi : (q.m_drawcalls.map tri_index_count).sum + idx.length < 4294967296) :
    q2.consistent := by
  obtain ⟨hv, hi, hin, hk⟩ := hinv
  have hslot2 : ∀ s, q2.m_idxs.slot s = ((q1.m_idxs.store idx).getD [])[s]? := by
    intro s; unfold renderbuffer_t.slot; rw [hdata]
  -- a slot below the old size holds an old value or zero
  have hold : ∀ s v, s < q.m_idxs.m_size → q2.m_idxs.slot s = some v →
      q.m_idxs.slot s = some v ∨ v = 0 := by
    intro s v hs h2
    rw [hslot2, store_slot_below _ _ _ (by rw [hs1]; exact hs)] at h2
    exact hslot1 s v h2
  -- a slot in the written range holds a stored index
  have hnew : ∀ s v, q.m_idxs.m_size ≤ s → s < q.m_idxs.m_size + idx.length →
      q2.m_idxs.slot s = some v → ∃ k, k < nv ∧ v = u16 (begin_batch q t + k) := by
    intro s v h1 h2 hs
    rw [hslot2] at hs
    exact hidx v (store_slot_mem _ _ s v (by rw [hs1]; exact h1) (by rw [hs1]; exact h2) hs)
  -- the descriptors before the last one are as before
  have hearlier : ∀ (l : List daisy_drawcall_t) (x0 : daisy_drawcall_t),
      (q.m_drawcalls = l ++ [x0] ∨ (q.m_drawcalls = l)) → ∀ pre d rest, l = pre ++ d :: rest →
      ∀ s v, (pre.map tri_index_count).sum ≤ s →
        s < (pre.map tri_index_count).sum + tri_index_count d →
        q2.m_idxs.slot s = some v → v < tri_vertex_count d := by
    intro l x0 hq pre d rest hl s v h1 h2 hs
    have hsum : (pre.map tri_index_count).sum + tri_index_count d
        ≤ (q.m_drawcalls.map tri_index_count).sum := by
      rcases hq with hq | hq
      · rw [hq, hl, List.map_append, List.sum_append, sum_counts_split]; omega
      · rw [hq, hl, sum_counts_split]; omega
    have hmem : d ∈ q.m_drawcalls := by
      rcases hq with hq | hq <;> rw [hq, hl] <;> simp
    have hq2 : ∃ post, q.m_drawcalls = pre ++ d :: post := by
      rcases hq with hq | hq
      · exact ⟨rest ++ [x0], by rw [hq, hl]; simp⟩
      · exact ⟨rest, by rw [hq, hl]⟩
    obtain ⟨post, hq2⟩ := hq2
    rcases hold s v (by omega) hs with h | h
    · exact hin pre d post hq2 s v h1 h2 h
    · subst h
      have := hk d hmem (by omega)
      omega
  rcases end_batch_cases q t nv idx.length p with ⟨hb, hc⟩ | ⟨l, p0, v0, i0, hq, hv0, hb, hc⟩
  · rw [hc] at hcalls
    refine ⟨?_, ?_, ?_, ?_⟩
    · rw [hcalls, hsv, ← hv]; simp [tri_vertex_count]
    · rw [hcalls, hsi, ← hi]; simp [tri_index_count]
    · intro pre d post hsplit s v h1 h2 hs
      rw [hcalls] at hsplit
      rcases split_last pre post _ d _ hsplit.symm with ⟨_, hpre, hd⟩ | ⟨rest, _, hl⟩
      · subst hpre; subst hd
        simp only [tri_index_count, tri_vertex_count] at h2 ⊢
        obtain ⟨k, hk1, hk2⟩ := hnew s v (by omega) (by omega) hs
        rw [hk2, hb]
        have := Nat.mod_le (0 + k) 65536
        unfold u16; omega
      · exact hearlier q.m_drawcalls d (Or.inr rfl) pre d rest hl s v h1 h2 hs
    · intro d hd
      rw [hcalls] at hd
      rcases List.mem_append.mp hd with h | h
      · exact hk d h
      · simp only [List.mem_singleton] at h
        subst h
        simp only [tri_index_count, tri_vertex_count]
        intro hne
        cases idx with
        | nil => simp at hne
        | cons x xs =>
          obtain ⟨k, hk1, _⟩ := hidx x (List.mem_cons_self _ _)
          omega
  · rw [hc] at hcalls
    have hv0le : v0 ≤ (q.m_drawcalls.map tri_vertex_count).sum := by
      rw [hq]; simp [tri_vertex_count]
    have hi0le : i0 ≤ (q.m_drawcalls.map tri_index_count).sum := by
      rw [hq]; simp [tri_index_count]
    have huv : u32 (v0 + nv) = v0 + nv := u32_of_lt (by omega)
    have hui : u32 (i0 + idx.length) = i0 + idx.length := u32_of_lt (by omega)
    rw [huv, hui] at hcalls
    have hsumi : (q.m_drawcalls.map tri_index_count).sum
        = (l.map tri_index_count).sum + i0 := by
      rw [hq]; simp [tri_index_count]
    refine ⟨?_, ?_, ?_, ?_⟩
    · rw [hcalls, hsv, ← hv, hq]; simp [tri_vertex_count]; omega
    · rw [hcalls, hsi, ← hi, hq]; simp [tri_index_count]; omega
    · intro pre d post hsplit s v h1 h2 hs
      rw [hcalls] at hsplit
      rcases split_last pre post _ d _ hsplit.symm with ⟨_, hpre, hd⟩ | ⟨rest, _, hl⟩
      · subst hpre; subst hd
        simp only [tri_index_count, tri_vertex_count] at h2 ⊢
        by_cases hlt : s < q.m_idxs.m_size
        · rcases hold s v hlt hs with h | h
          · have := hin pre (.CALL_TRI t p0 v0 i0) [] hq s v h1
              (by simp only [tri_index_count]; omega) h
            simp only [tri_vertex_count] at this
            omega
          · omega
        · obtain ⟨k, hk1, hk2⟩ := hnew s v (by omega) (by omega) hs
          rw [hk2, hb]
          have := Nat.mod_le (v0 + k) 65536
          unfold u16; omega
      · exact hearlier l (.CALL_TRI t p0 v0 i0) (Or.inl hq) pre d rest hl s v h1 h2 hs
    · intro d hd
      rw [hcalls] at hd
      rcases List.mem_append.mp hd with h | h
      · exact hk d (by rw [hq]; exact List.mem_append_left _ h)
      · simp only [List.mem_singleton] at h
        subst h
        simp only [tri_index_count, tri_vertex_count]
        intro _
        omega

/-- The step of a geometry push in the shape of the code: after `ensure_buffers_capacity`
returned `q1`, the stores and `end_batch` keep the queue consistent and add the counts to the
sizes. -/
theorem batch_step_of_eq (g : daisy_t) (q q1 : c_renderqueue) (va ia t nv p : Nat)
    (D : Option (List daisy_vtx_t)) (idx : List Nat) (Sv Si cv ci : Nat)
    (hinv : q.consistent) (hens : ensure_buffers_capacity g q va ia = some q1)
    (hbv : (q.m_drawcalls.map tri_vertex_count).sum + nv < 4294967296)
    (hbi : (q.m_drawcalls.map tri_index_count).sum + idx.length < 4294967296)
    (hSv : Sv = u32 (q1.m_vtxs.m_size + nv)) (hSi : Si = u32 (q1.m_idxs.m_size + idx.length))
    (hcv : cv = nv) (hci : ci = idx.length)
    (hidx : ∀ x ∈ idx, ∃ k, k < nv ∧ x = u16 (begin_batch q1 t + k)) :
    (end_batch { q1 with
        m_vtxs := { q1.m_vtxs with m_data := D, m_size := Sv },
        m_idxs := { q1.m_idxs with m_data := q1.m_idxs.store idx, m_size := Si } }
      (begin_batch q1 t) cv ci p t).consistent ∧
    (end_batch { q1 with
        m_vtxs := { q1.m_vtxs with m_data := D, m_size := Sv },
        m_idxs := { q1.m_idxs with m_data := q1.m_idxs.store idx, m_size := Si } }
      (begin_batch q1 t) cv ci p t).m_vtxs.m_size = q.m_vtxs.m_size + nv ∧
    (end_batch { q1 with
        m_vtxs := { q1.m_vtxs with m_data := D, m_size := Sv },
        m_idxs := { q1.m_idxs with m_data := q1.m_idxs.store idx, m_size := Si } }
      (begin_batch q1 t) cv ci p t).m_idxs.m_size = q.m_idxs.m_size + idx.length := by
  obtain ⟨hd, hs1v, hs1i, hslot1⟩ := ensure_buffers_capacity_slot g q q1 va ia hens
  have hb : begin_batch q1 t = begin_batch q t := begin_batch_congr q q1 t hd
  subst hcv; subst hci
  have hsv : Sv = q.m_vtxs.m_size + cv := by
    rw [hSv, hs1v, u32_of_lt (by rw [← hinv.1]; exact hbv)]
  have hsi : Si = q.m_idxs.m_size + idx.length := by
    rw [hSi, hs1i, u32_of_lt (by rw [← hinv.2.1]; exact hbi)]
  obtain ⟨hfv, hfi, _⟩ := end_batch_frame { q1 with
        m_vtxs := { q1.m_vtxs with m_data := D, m_size := Sv },
        m_idxs := { q1.m_idxs with m_data := q1.m_idxs.store idx, m_size := Si } }
      (begin_batch q1 t) cv idx.length p t
  refine ⟨batch_step q q1 _ t cv p idx hinv hs1i hslot1 ?_ ?_ ?_ ?_ ?_ hbv hbi, ?_, ?_⟩
  · rw [hb]
    exact end_batch_congr q _ _ _ _ _ _ hd
  · rw [hfv]; exact hsv
  · rw [hfi]; exact hsi
  · rw [hfi]
  · rw [← hb]; exact hidx
  · rw [hfv]; exact hsv
  · rw [hfi]; exact hsi

/-- The bound a step keeps: the queue is consistent and its sizes grew by at most the given
counts. -/
theorem push_gradient_rectangle_consistent (g : daisy_t) (q q2 : c_renderqueue)
    (position size : point_t) (c1 c2 c3 c4 : color_t) (t : Nat) (uv_mins uv_maxs : point_t)
    (hinv : q.consistent)
    (hbv : (q.m_drawcalls.map tri_vertex_count).sum + 4 < 4294967296)
    (hbi : (q.m_drawcalls.map tri_index_count).sum + 6 < 4294967296)
    (h : push_gradient_rectangle g q position size c1 c2 c3 c4 t uv_mins uv_maxs = some q2) :
    q2.consistent ∧ q2.m_vtxs.m_size = q.m_vtxs.m_size + 4 ∧
      q2.m_idxs.m_size = q.m_idxs.m_size + 6 := by
  unfold push_gradient_rectangle at h
  cases hq1 : ensure_buffers_capacity g q 4 6 with
  | none => simp [hq1] at h
  | some q1 =>
    simp only [hq1] at h
    rw [← Option.some.inj h]
    refine batch_step_of_eq g q q1 4 6 t 4 2 _ (rectangle_indices (begin_batch q1 t)) _ _ 4 6
      hinv hq1 hbv hbi rfl rfl rfl rfl ?_
    intro x hx
    simp only [rectangle_indices, List.mem_cons, List.mem_singleton, List.not_mem_nil,
      or_false] at hx
    rcases hx with rfl | rfl | rfl | rfl | rfl | rfl
    · exact ⟨0, by omega, rfl⟩
    · exact ⟨1, by omega, rfl⟩
    · exact ⟨3, by omega, rfl⟩
    · exact ⟨3, by omega, rfl⟩
    · exact ⟨2, by omega, rfl⟩
    · exact ⟨1, by omega, rfl⟩

theorem push_filled_triangle_consistent (g : daisy_t) (q q2 : c_renderqueue)
    (p1 p2 p3 : point_t) (c1 c2 c3 : color_t) (t : Nat) (uv1 uv2 uv3 : point_t)
    (hinv : q.consistent)
    (hbv : (q.m_drawcalls.map tri_vertex_count).sum + 3 < 4294967296)
    (hbi : (q.m_drawcalls.map tri_index_count).sum + 3 < 4294967296)
    (h : push_filled_triangle g q p1 p2 p3 c1 c2 c3 t uv1 uv2 uv3 = some q2) :
    q2.consistent ∧ q2.m_vtxs.m_size = q.m_vtxs.m_size + 3 ∧
      q2.m_idxs.m_size = q.m_idxs.m_size + 3 := by
  unfold push_filled_triangle at h
  cases hq1 : ensure_buffers_capacity g q 3 3 with
  | none => simp [hq1] at h
  | some q1 =>
    simp only [hq1] at h
    rw [← Option.some.inj h]
    refine batch_step_of_eq g q q1 3 3 t 3 1 _
      [ u16 (begin_batch q1 t), u16 (begin_batch q1 t + 1), u16 (begin_batch q1 t + 2) ] _ _ 3 3
      hinv hq1 hbv hbi rfl rfl rfl rfl ?_
    intro x hx
    simp only [List.mem_cons, List.mem_singleton, List.not_mem_nil, or_false] at hx
    rcases hx with rfl | rfl | rfl
    · exact ⟨0, by omega, rfl⟩
    · exact ⟨1, by omega, rfl⟩
    · exact ⟨2, by omega, rfl⟩

theorem push_line_consistent (g : daisy_t) (q q2 : c_renderqueue) (p1 p2 : point_t)
    (col : color_t) (width : ℚ) (hinv : q.consistent)
    (hbv : (q.m_drawcalls.map tri_vertex_count).sum + 4 < 4294967296)
    (hbi : (q.m_drawcalls.map tri_index_count).sum + 6 < 4294967296)
    (h : push_line g q p1 p2 col width = some q2) :
    q2.consistent ∧ q2.m_vtxs.m_size = q.m_vtxs.m_size + 4 ∧
      q2.m_idxs.m_size = q.m_idxs.m_size + 6 := by
  unfold push_line at h
  cases hq1 : ensure_buffers_capacity g q 4 6 with
  | none => simp [hq1] at h
  | some q1 =>
    simp only [hq1] at h
    rw [← Option.some.inj h]
    refine batch_step_of_eq g q q1 4 6 0 4 2 _
      [ u16 (begin_batch q1 0), u16 (begin_batch q1 0 + 1), u16 (begin_batch q1 0 + 2),
        u16 (begin_batch q1 0 + 2), u16 (begin_batch q1 0 + 3), u16 (begin_batch q1 0 + 1) ]
      _ _ 4 6 hinv hq1 hbv hbi rfl rfl rfl rfl ?_
    intro x hx
    simp only [List.mem_cons, List.mem_singleton, List.not_mem_nil, or_false] at hx
    rcases hx with rfl | rfl | rfl | rfl | rfl | rfl
    · exact ⟨0, by omega, rfl⟩
    · exact ⟨1, by omega, rfl⟩
    · exact ⟨2, by omega, rfl⟩
    · exact ⟨2, by omega, rfl⟩
    · exact ⟨3, by omega, rfl⟩
    · exact ⟨1, by omega, rfl⟩

/-- With no segment the loop of `push_filled_circle` stores nothing after the centre. -/
theorem circle_fold_nonpos (g : daisy_t) (center : point_t) (radius : ℚ) (segments : Int)
    (outer_color : color_t) (a : Nat) (first : List daisy_vtx_t) (hseg : segments ≤ 0) :
    (List.range (Int.toNat (segments + 1))).foldl
        (circle_step g center radius segments outer_color a) (first, []) = (first, []) := by
  rcases lt_or_eq_of_le hseg with hlt | heq
  · have hto : Int.toNat (segments + 1) = 0 := by omega
    rw [hto]; rfl
  · subst heq
    simp [List.range_succ, circle_step]

theorem push_filled_circle_consistent (g : daisy_t) (q q2 : c_renderqueue) (center : point_t)
    (radius : ℚ) (segments : Int) (center_color outer_color : color_t)
    (hinv : q.consistent)
    (hbv : (q.m_drawcalls.map tri_vertex_count).sum + (1 + Int.toNat segments) < 4294967296)
    (hbi : (q.m_drawcalls.map tri_index_count).sum + 3 * Int.toNat segments < 4294967296)
    (h : push_filled_circle g q center radius segments center_color outer_color = some q2) :
    q2.consistent ∧ q2.m_vtxs.m_size = q.m_vtxs.m_size + (1 + Int.toNat segments) ∧
      q2.m_idxs.m_size = q.m_idxs.m_size + 3 * Int.toNat segments := by
  unfold push_filled_circle at h
  cases hq1 : ensure_buffers_capacity g q (u32_of_int (segments + 1))
      (u32_of_int (segments * 3)) with
  | none => simp [hq1] at h
  | some q1 =>
    simp only [hq1] at h
    rw [← Option.some.inj h]
    rcases le_or_lt segments 0 with hseg | hseg
    · have hto : Int.toNat segments = 0 := by omega
      rw [circle_fold_nonpos g center radius segments outer_color _ _ hseg, hto]
      rw [hto] at hbv hbi
      exact batch_step_of_eq g q q1 _ _ 0 1 (u32_of_int segments) _ [] _ _ _ _
        hinv hq1 hbv hbi rfl rfl rfl rfl (by intro x hx; simp at hx)
    · obtain ⟨n, hn⟩ : ∃ n : Nat, segments = (n : Int) := ⟨Int.toNat segments, by omega⟩
      subst hn
      have hn1 : 1 ≤ n := by omega
      have hto : Int.toNat (n : Int) = n := by omega
      rw [hto] at hbv hbi ⊢
      rw [circle_fold g center radius n outer_color _ _ hn1]
      have hlen : ((fan_triangles (begin_batch q1 0) n).flatMap
          (fun t => [u16 t.1, u16 t.2.1, u16 t.2.2])).length = 3 * n := by
        have h3 := flatMap_triple_length (fan_triangles (begin_batch q1 0) n)
          (fun (t : Nat × Nat × Nat) => (u16 t.1, u16 t.2.1, u16 t.2.2))
        rw [fan_triangles_length _ _ hn1] at h3
        exact h3
      have hvlen : (([⟨(center.x, center.y, 0, 1), center_color.bgra, (0, 0)⟩] :
          List daisy_vtx_t) ++ (List.range n).map (rim_vertex g center radius n outer_color)).length
          = 1 + n := by simp; omega
      have hres := batch_step_of_eq g q q1 (u32_of_int ((n : Int) + 1))
        (u32_of_int ((n : Int) * 3)) 0 (1 + n) (u32_of_int (n : Int))
        (q1.m_vtxs.store ([⟨(center.x, center.y, 0, 1), center_color.bgra, (0, 0)⟩] ++
          (List.range n).map (rim_vertex g center radius n outer_color)))
        ((fan_triangles (begin_batch q1 0) n).flatMap (fun t => [u16 t.1, u16 t.2.1, u16 t.2.2]))
        (u32 (q1.m_vtxs.m_size + (1 + n))) (u32 (q1.m_idxs.m_size + 3 * n))
        (u32 (1 + n)) (u32 (3 * n))
        hinv hq1 hbv (by rw [hlen]; exact hbi) rfl (by rw [hlen])
        (u32_of_lt (by omega)) (by rw [hlen]; exact u32_of_lt (by omega))
        (by
          intro x hx
          simp only [List.mem_flatMap, fan_triangles, List.mem_append, List.mem_map,
            List.mem_range, List.mem_singleton, List.mem_cons, List.not_mem_nil, or_false] at hx
          obtain ⟨t, ht, hx⟩ := hx
          rcases ht with ⟨j, hj, rfl⟩ | rfl
          · rcases hx with rfl | rfl | rfl
            · exact ⟨0, by omega, rfl⟩
            · exact ⟨j + 1, by omega, rfl⟩
            · exact ⟨j + 1 + 1, by omega, by rw [Nat.add_assoc, Nat.add_assoc]⟩
          · rcases hx with rfl | rfl | rfl
            · exact ⟨0, by omega, rfl⟩
            · exact ⟨n, by omega, rfl⟩
            · exact ⟨1, by omega, rfl⟩)
      rw [hlen] at hres
      simp only [hvlen, hlen]
      exact hres

/-- One iteration of the loop of `push_text` stores nothing, or one quad: six indices over the
four vertices that follow those stored so far. -/
theorem push_text_step_cases (font : c_fontwrapper) (color : color_t) (a : Nat)
    (start_x : ℚ) (space_coords : uv_t) (st : text_state) (c : Int) :
    ((push_text_step font color a start_x space_coords st c).idx = st.idx ∧
      (push_text_step font color a start_x space_coords st c).cont_vertices = st.cont_vertices ∧
      (push_text_step font color a start_x space_coords st c).cont_indices = st.cont_indices ∧
      (push_text_step font color a start_x space_coords st c).vtx_size = st.vtx_size ∧
      (push_text_step font color a start_x space_coords st c).idx_size = st.idx_size) ∨
    ((push_text_step font color a start_x space_coords st c).idx
        = st.idx ++ [ u16 (a + st.cont_vertices), u16 (a + st.cont_vertices + 1),
            u16 (a + st.cont_vertices + 2), u16 (a + st.cont_vertices + 3),
            u16 (a + st.cont_vertices + 2), u16 (a + st.cont_vertices + 1) ] ∧
      (push_text_step font color a start_x space_coords st c).cont_vertices
        = u32 (st.cont_vertices + 4) ∧
      (push_text_step font color a start_x space_coords st c).cont_indices
        = u32 (st.cont_indices + 6) ∧
      (push_text_step font color a start_x space_coords st c).vtx_size
        = u32 (st.vtx_size + 4) ∧
      (push_text_step font color a start_x space_coords st c).idx_size
        = u32 (st.idx_size + 6)) := by
  unfold push_text_step
  by_cases h10 : c = 10
  · left; simp [h10]
  · by_cases h32 : c = 32
    · left; simp [h32]
    · right; simp [h10, h32]

/-- The loop of `push_text` from a state that holds `G` quads: it ends with `G1` quads, at most
one more per character, with the counters and the sizes in step and every index of the
form `u16 ( additional_indices + k )` for a `k` below the vertex counter. -/
theorem push_text_fold (font : c_fontwrapper) (color : color_t) (a : Nat)
    (start_x : ℚ) (space_coords : uv_t) (sv si : Nat) :
    ∀ (text : List Int) (st : text_state) (G : Nat),
      st.cont_vertices = 4 * G → st.cont_indices = 6 * G → st.idx.length = 6 * G →
      st.vtx_size = sv + 4 * G → st.idx_size = si + 6 * G →
      (∀ x ∈ st.idx, ∃ k, k < 4 * G ∧ x = u16 (a + k)) →
      sv + 4 * (G + text.length) < 4294967296 → si + 6 * (G + text.length) < 4294967296 →
      ∃ G1, G1 ≤ G + text.length ∧
        (text.foldl (push_text_step font color a start_x space_coords) st).cont_vertices
          = 4 * G1 ∧
        (text.foldl (push_text_step font color a start_x space_coords) st).cont_indices
          = 6 * G1 ∧
        (text.foldl (push_text_step font color a start_x space_coords) st).idx.length
          = 6 * G1 ∧
        (text.foldl (push_text_step font color a start_x space_coords) st).vtx_size
          = sv + 4 * G1 ∧
        (text.foldl (push_text_step font color a start_x space_coords) st).idx_size
          = si + 6 * G1 ∧
        ∀ x ∈ (text.foldl (push_text_step font color a start_x space_coords) st).idx,
          ∃ k, k < 4 * G1 ∧ x = u16 (a + k) := by
  intro text
  induction text with
  | nil =>
    intro st G h1 h2 h3 h4 h5 h6 _ _
    exact ⟨G, by simp, h1, h2, h3, h4, h5, h6⟩
  | cons c rest ih =>
    intro st G h1 h2 h3 h4 h5 h6 hbv hbi
    simp only [List.length_cons] at hbv hbi
    rw [List.foldl_cons]
    rcases push_text_step_cases font color a start_x space_coords st c with
      ⟨e1, e2, e3, e4, e5⟩ | ⟨e1, e2, e3, e4, e5⟩
    · obtain ⟨G1, hG, r⟩ := ih (push_text_step font color a start_x space_coords st c) G
        (by rw [e2, h1]) (by rw [e3, h2]) (by rw [e1, h3]) (by rw [e4, h4]) (by rw [e5, h5])
        (by rw [e1]; exact h6) (by omega) (by omega)
      exact ⟨G1, by simp only [List.length_cons]; omega, r⟩
    · obtain ⟨G1, hG, r⟩ := ih (push_text_step font color a start_x space_coords st c) (G + 1)
        (by rw [e2, h1, u32_of_lt (by omega)]; omega)
        (by rw [e3, h2, u32_of_lt (by omega)]; omega)
        (by rw [e1, List.length_append, h3]; simp; omega)
        (by rw [e4, h4, u32_of_lt (by omega)]; omega)
        (by rw [e5, h5, u32_of_lt (by omega)]; omega)
        (by
          intro x hx
          rw [e1, List.mem_append] at hx
          rcases hx with hx | hx
          · obtain ⟨k, hk, rfl⟩ := h6 x hx
            exact ⟨k, by omega, rfl⟩
          · simp only [List.mem_cons, List.mem_singleton, List.not_mem_nil, or_false] at hx
            rw [h1] at hx
            rcases hx with rfl | rfl | rfl | rfl | rfl | rfl
            · exact ⟨4 * G, by omega, rfl⟩
            · exact ⟨4 * G + 1, by omega, by rw [Nat.add_assoc]⟩
            · exact ⟨4 * G + 2, by omega, by rw [Nat.add_assoc]⟩
            · exact ⟨4 * G + 3, by omega, by rw [Nat.add_assoc]⟩
            · exact ⟨4 * G + 2, by omega, by rw [Nat.add_assoc]⟩
            · exact ⟨4 * G + 1, by omega, by rw [Nat.add_assoc]⟩)
        (by omega) (by omega)
      exact ⟨G1, by simp only [List.length_cons]; omega, r⟩

/-- The stores and the `end_batch` of `push_text`, for the state its loop ends in. -/
theorem text_batch_consistent (g : daisy_t) (q q1 : c_renderqueue) (va ia t : Nat)
    (font : c_fontwrapper) (color : color_t) (start_x : ℚ) (space_coords : uv_t)
    (position : point_t) (text : List Int)
    (hinv : q.consistent) (hens : ensure_buffers_capacity g q va ia = some q1)
    (hbv : (q.m_drawcalls.map tri_vertex_count).sum + 4 * text.length < 4294967296)
    (hbi : (q.m_drawcalls.map tri_index_count).sum + 6 * text.length < 4294967296) :
    (end_batch { q1 with
        m_vtxs := { q1.m_vtxs with
          m_data := q1.m_vtxs.store (text.foldl
            (push_text_step font color (begin_batch q1 t) start_x space_coords)
            { corrected_position := position,
              vtx_size := q1.m_vtxs.m_size, idx_size := q1.m_idxs.m_size }).vtx,
          m_size := (text.foldl
            (push_text_step font color (begin_batch q1 t) start_x space_coords)
            { corrected_position := position,
              vtx_size := q1.m_vtxs.m_size, idx_size := q1.m_idxs.m_size }).vtx_size },
        m_idxs := { q1.m_idxs with
          m_data := q1.m_idxs.store (text.foldl
            (push_text_step font color (begin_batch q1 t) start_x space_coords)
            { corrected_position := position,
              vtx_size := q1.m_vtxs.m_size, idx_size := q1.m_idxs.m_size }).idx,
          m_size := (text.foldl
            (push_text_step font color (begin_batch q1 t) start_x space_coords)
            { corrected_position := position,
              vtx_size := q1.m_vtxs.m_size, idx_size := q1.m_idxs.m_size }).idx_size } }
      (begin_batch q1 t)
      (text.foldl (push_text_step font color (begin_batch q1 t) start_x space_coords)
        { corrected_position := position,
          vtx_size := q1.m_vtxs.m_size, idx_size := q1.m_idxs.m_size }).cont_vertices
      (text.foldl (push_text_step font color (begin_batch q1 t) start_x space_coords)
        { corrected_position := position,
          vtx_size := q1.m_vtxs.m_size, idx_size := q1.m_idxs.m_size }).cont_indices
      (text.foldl (push_text_step font color (begin_batch q1 t) start_x space_coords)
        { corrected_position := position,
          vtx_size := q1.m_vtxs.m_size, idx_size := q1.m_idxs.m_size }).cont_primitives
      t).consistent := by
  obtain ⟨hd, hs1v, hs1i, _⟩ := ensure_buffers_capacity_slot g q q1 va ia hens
  have hv := hinv.1
  have hi := hinv.2.1
  obtain ⟨G1, hG, f1, f2, f3, f4, f5, f6⟩ := push_text_fold font color (begin_batch q1 t)
    start_x space_coords q1.m_vtxs.m_size q1.m_idxs.m_size text
    { corrected_position := position,
      vtx_size := q1.m_vtxs.m_size, idx_size := q1.m_idxs.m_size } 0
    rfl rfl rfl rfl rfl (by intro x hx; simp at hx)
    (by rw [hs1v, ← hv]; omega) (by rw [hs1i, ← hi]; omega)
  exact (batch_step_of_eq g q q1 va ia t (4 * G1) _ _ _ _ _ _ _ hinv hens
    (by omega) (by rw [f3]; omega)
    (by rw [f4, u32_of_lt (by rw [hs1v, ← hv]; omega)])
    (by rw [f5, f3, u32_of_lt (by rw [hs1i, ← hi]; omega)])
    f1 (by rw [f2, f3]) f6).1

/-- The sizes the loop of `push_text` ends with are at most 4 vertices and 6 indices per
character above the old ones. -/
theorem text_fold_sizes (g : daisy_t) (q q1 : c_renderqueue) (va ia a : Nat)
    (font : c_fontwrapper) (color : color_t) (start_x : ℚ) (space_coords : uv_t)
    (position : point_t) (text : List Int)
    (hinv : q.consistent) (hens : ensure_buffers_capacity g q va ia = some q1)
    (hbv : (q.m_drawcalls.map tri_vertex_count).sum + 4 * text.length < 4294967296)
    (hbi : (q.m_drawcalls.map tri_index_count).sum + 6 * text.length < 4294967296) :
    (text.foldl (push_text_step font color a start_x space_coords)
        { corrected_position := position,
          vtx_size := q1.m_vtxs.m_size, idx_size := q1.m_idxs.m_size }).vtx_size
      ≤ q.m_vtxs.m_size + 4 * text.length ∧
    (text.foldl (push_text_step font color a start_x space_coords)
        { corrected_position := position,
          vtx_size := q1.m_vtxs.m_size, idx_size := q1.m_idxs.m_size }).idx_size
      ≤ q.m_idxs.m_size + 6 * text.length := by
  obtain ⟨hd, hs1v, hs1i, _⟩ := ensure_buffers_capacity_slot g q q1 va ia hens
  have hv := hinv.1
  have hi := hinv.2.1
  obtain ⟨G1, hG, f1, f2, f3, f4, f5, f6⟩ := push_text_fold font color a
    start_x space_coords q1.m_vtxs.m_size q1.m_idxs.m_size text
    { corrected_position := position,
      vtx_size := q1.m_vtxs.m_size, idx_size := q1.m_idxs.m_size } 0
    rfl rfl rfl rfl rfl (by intro x hx; simp at hx)
    (by rw [hs1v, ← hv]; omega) (by rw [hs1i, ← hi]; omega)
  rw [f4, f5, hs1v, hs1i]
  omega

theorem push_text_consistent (g : daisy_t) (q : c_renderqueue) (font : c_fontwrapper)
    (position : point_t) (text : List Int) (color : color_t) (alignment : Nat)
    (r : c_renderqueue × c_fontwrapper) (hinv : q.consistent)
    (hbv : (q.m_drawcalls.map tri_vertex_count).sum + 4 * text.length < 4294967296)
    (hbi : (q.m_drawcalls.map tri_index_count).sum + 6 * text.length < 4294967296)
    (h : push_text g q font position text color alignment = some r) :
    r.1.consistent ∧ r.1.m_vtxs.m_size ≤ q.m_vtxs.m_size + 4 * text.length ∧
      r.1.m_idxs.m_size ≤ q.m_idxs.m_size + 6 * text.length := by
  unfold push_text at h
  cases hq1 : ensure_buffers_capacity g q (u32 (text.length * 4)) (u32 (text.length * 6)) with
  | none => simp [hq1] at h
  | some q1 =>
    simp only [hq1] at h
    rw [← Option.some.inj h]
    by_cases ha : alignment = 0
    · simp only [ha, if_true]
      refine ⟨text_batch_consistent g q q1 _ _ _ _ _ _ _ _ _ hinv hq1 hbv hbi, ?_, ?_⟩
      · rw [(end_batch_frame _ _ _ _ _ _).1]
        exact (text_fold_sizes g q q1 _ _ _ _ _ _ _ _ _ hinv hq1 hbv hbi).1
      · rw [(end_batch_frame _ _ _ _ _ _).2.1]
        exact (text_fold_sizes g q q1 _ _ _ _ _ _ _ _ _ hinv hq1 hbv hbi).2
    · have hsrv : (font.text_extent text).2.m_texture_srv = font.m_texture_srv := rfl
      simp only [ha, if_false, hsrv]
      refine ⟨text_batch_consistent g q q1 _ _ _ _ _ _ _ _ _ hinv hq1 hbv hbi, ?_, ?_⟩
      · rw [(end_batch_frame _ _ _ _ _ _).1]
        exact (text_fold_sizes g q q1 _ _ _ _ _ _ _ _ _ hinv hq1 hbv hbi).1
      · rw [(end_batch_frame _ _ _ _ _ _).2.1]
        exact (text_fold_sizes g q q1 _ _ _ _ _ _ _ _ _ hinv hq1 hbv hbi).2

theorem push_scissor_consistent (q : c_renderqueue) (position size : point_t)
    (hinv : q.consistent) : (push_scissor q position size).consistent := by
  obtain ⟨hv, hi, hin, hk⟩ := hinv
  refine ⟨?_, ?_, ?_, ?_⟩
  · simpa [push_scissor, tri_vertex_count] using hv
  · simpa [push_scissor, tri_index_count] using hi
  · intro pre d post hsplit s v h1 h2 hs
    have hsplit2 : pre ++ d :: post = q.m_drawcalls ++ [.CALL_SCISSOR position size] :=
      hsplit.symm
    rcases split_last pre post _ d _ hsplit2 with ⟨_, _, hd⟩ | ⟨rest, hpost, hl⟩
    · subst hd
      simp only [tri_index_count] at h2
      omega
    · exact hin pre d rest hl s v h1 h2 hs
  · intro d hd
    have hd2 : d ∈ q.m_drawcalls ++ [.CALL_SCISSOR position size] := hd
    rcases List.mem_append.mp hd2 with h | h
    · exact hk d h
    · simp only [List.mem_singleton] at h
      subst h
      simp [tri_index_count]

theorem clear_consistent (q : c_renderqueue) : (clear q).consistent := by
  have hd : (clear q).m_drawcalls = [] := by
    cases h : q.m_drawcalls <;> simp [clear, h]
  refine ⟨?_, ?_, ?_, ?_⟩
  · rw [hd]; rfl
  · rw [hd]; rfl
  · intro pre d post hsplit
    rw [hd] at hsplit
    simp at hsplit
  · intro d hmem
    rw [hd] at hmem
    simp at hmem

/-- A queue with no descriptor and both sizes zero is consistent. -/
theorem empty_consistent (q : c_renderqueue) (hd : q.m_drawcalls = [])
    (hv : q.m_vtxs.m_size = 0) (hi : q.m_idxs.m_size = 0) : q.consistent := by
  refine ⟨by rw [hd, hv]; rfl, by rw [hd, hi]; rfl, ?_, ?_⟩
  · intro pre d post hsplit
    rw [hd] at hsplit
    simp at hsplit
  · intro d hmem
    rw [hd] at hmem
    simp at hmem

/-- One call keeps the queue consistent, and the sums of the counts grow by at most the
vertices and indices the call can store. -/
theorem run_op_consistent (g : daisy_t) (q q2 : c_renderqueue) (op : queue_op)
    (hinv : q.consistent)
    (hbv : (q.m_drawcalls.map tri_vertex_count).sum + op_vertices op < 4294967296)
    (hbi : (q.m_drawcalls.map tri_index_count).sum + op_indices op < 4294967296)
    (h : run_op g q op = some q2) :
    q2.consistent ∧
    (q2.m_drawcalls.map tri_vertex_count).sum
      ≤ (q.m_drawcalls.map tri_vertex_count).sum + op_vertices op ∧
    (q2.m_drawcalls.map tri_index_count).sum
      ≤ (q.m_drawcalls.map tri_index_count).sum + op_indices op := by
  have hv := hinv.1
  have hi := hinv.2.1
  have key : q2.consistent ∧ q2.m_vtxs.m_size ≤ q.m_vtxs.m_size + op_vertices op ∧
      q2.m_idxs.m_size ≤ q.m_idxs.m_size + op_indices op := by
    cases op with
    | gradient_rectangle position size c1 c2 c3 c4 t uv_mins uv_maxs =>
      obtain ⟨r1, r2, r3⟩ := push_gradient_rectangle_consistent g q q2 position size c1 c2 c3 c4
        t uv_mins uv_maxs hinv hbv hbi h
      exact ⟨r1, le_of_eq r2, le_of_eq r3⟩
    | filled_rectangle position size col t uv_mins uv_maxs =>
      obtain ⟨r1, r2, r3⟩ := push_gradient_rectangle_consistent g q q2 position size col col col
        col t uv_mins uv_maxs hinv hbv hbi h
      exact ⟨r1, le_of_eq r2, le_of_eq r3⟩
    | filled_triangle p1 p2 p3 c1 c2 c3 t uv1 uv2 uv3 =>
      obtain ⟨r1, r2, r3⟩ := push_filled_triangle_consistent g q q2 p1 p2 p3 c1 c2 c3 t uv1 uv2
        uv3 hinv hbv hbi h
      exact ⟨r1, le_of_eq r2, le_of_eq r3⟩
    | line p1 p2 col width =>
      obtain ⟨r1, r2, r3⟩ := push_line_consistent g q q2 p1 p2 col width hinv hbv hbi h
      exact ⟨r1, le_of_eq r2, le_of_eq r3⟩
    | filled_circle center radius segments center_color outer_color =>
      obtain ⟨r1, r2, r3⟩ := push_filled_circle_consistent g q q2 center radius segments
        center_color outer_color hinv hbv hbi h
      exact ⟨r1, le_of_eq r2, le_of_eq r3⟩
    | text font position text color alignment =>
      simp only [run_op, Option.map_eq_some'] at h
      obtain ⟨r, hr, rfl⟩ := h
      exact push_text_consistent g q font position text color alignment r hinv hbv hbi hr
    | scissor position size =>
      simp only [run_op, Option.some.injEq] at h
      subst h
      exact ⟨push_scissor_consistent q position size hinv, le_of_eq rfl, le_of_eq rfl⟩
    | clear =>
      simp only [run_op, Option.some.injEq] at h
      subst h
      exact ⟨clear_consistent q, by simp [clear], by simp [clear]⟩
  obtain ⟨k1, k2, k3⟩ := key
  exact ⟨k1, by rw [k1.1, hv]; exact k2, by rw [k1.2.1, hi]; exact k3⟩

/-- A sequence of calls from a consistent queue ends in a consistent queue, when the vertices
and indices the calls can store stay within the 32-bit range; the sums of the counts grow by
at most those numbers. -/
theorem run_ops_consistent (g : daisy_t) :
    ∀ (ops : List queue_op) (q q2 : c_renderqueue), q.consistent →
      (q.m_drawcalls.map tri_vertex_count).sum + (ops.map op_vertices).sum < 4294967296 →
      (q.m_drawcalls.map tri_index_count).sum + (ops.map op_indices).sum < 4294967296 →
      run_ops g q ops = some q2 →
      q2.consistent ∧
      (q2.m_drawcalls.map tri_vertex_count).sum
        ≤ (q.m_drawcalls.map tri_vertex_count).sum + (ops.map op_vertices).sum ∧
      (q2.m_drawcalls.map tri_index_count).sum
        ≤ (q.m_drawcalls.map tri_index_count).sum + (ops.map op_indices).sum := by
  intro ops
  induction ops with
  | nil =>
    intro q q2 hinv _ _ h
    simp only [run_ops, Option.some.injEq] at h
    subst h
    exact ⟨hinv, by simp, by simp⟩
  | cons op rest ih =>
    intro q q2 hinv hbv hbi h
    simp only [List.map_cons, List.sum_cons] at hbv hbi ⊢
    rw [run_ops] at h
    cases h1 : run_op g q op with
    | none => simp [h1] at h
    | some q1 =>
      simp only [h1] at h
      obtain ⟨r1, r2, r3⟩ := run_op_consistent g q q1 op hinv (by omega) (by omega) h1
      obtain ⟨k1, k2, k3⟩ := ih q1 q2 r1 (by omega) (by omega) h
      exact ⟨k1, by omega, by omega⟩

/-- C31: in every state reached from an empty queue (no descriptor, both sizes zero) by a
sequence of geometry pushes, `push_scissor` and `clear` calls that all return, the vertices
and indices the calls can store staying within the 32-bit range of the counters: the vertex
counts of the descriptors add up to the size of the vertex buffer and their index counts to
the size of the index buffer; and the replay loop of `flush` passes to each indexed draw, as
start index and base vertex, the sums of the counts of the descriptors before it, so the
draws cut the written part of both buffers into consecutive ranges that end at the sizes. -/
theorem batch_counts_partition_buffers (g : daisy_t) (q0 q : c_renderqueue)
    (ops : List queue_op) (hd : q0.m_drawcalls = []) (hv : q0.m_vtxs.m_size = 0)
    (hi : q0.m_idxs.m_size = 0)
    (hbv : (ops.map op_vertices).sum < 4294967296)
    (hbi : (ops.map op_indices).sum < 4294967296)
    (hrun : run_ops g q0 ops = some q) :
    (q.m_drawcalls.map tri_vertex_count).sum = q.m_vtxs.m_size ∧
    (q.m_drawcalls.map tri_index_count).sum = q.m_idxs.m_size ∧
    replay g q.m_drawcalls 0 0 = prescribed_calls g [] q.m_drawcalls ∧
    ∀ pre d post, q.m_drawcalls = pre ++ d :: post →
      (pre.map tri_vertex_count).sum + tri_vertex_count d ≤ q.m_vtxs.m_size ∧
      (pre.map tri_index_count).sum + tri_index_count d ≤ q.m_idxs.m_size := by
  have h0 := empty_consistent q0 hd hv hi
  obtain ⟨hc, hsv, hsi⟩ := run_ops_consistent g ops q0 q h0 (by rw [hd]; simpa using hbv)
    (by rw [hd]; simpa using hbi) hrun
  rw [hd] at hsv hsi
  simp only [List.map_nil, List.sum_nil, Nat.zero_add] at hsv hsi
  refine ⟨hc.1, hc.2.1, ?_, ?_⟩
  · exact replay_prescribed g q.m_drawcalls [] (by simpa using lt_of_le_of_lt hsv hbv)
      (by simpa using lt_of_le_of_lt hsi hbi)
  · intro pre d post hsplit
    rw [← hc.1, ← hc.2.1, hsplit, sum_counts_split, sum_counts_split]
    omega

/-- Witness of C31: a rectangle, a scissor, a triangle with texture 7, a circle of 5 segments
and a line on the empty queue with two-slot buffers. -/
theorem batch_counts_partition_buffers_witness :
    ∃ q, run_ops {} sample_empty_queue sample_ops = some q ∧
      (q.m_drawcalls.map tri_vertex_count).sum = q.m_vtxs.m_size ∧
      (q.m_drawcalls.map tri_index_count).sum = q.m_idxs.m_size ∧
      replay {} q.m_drawcalls 0 0 = prescribed_calls {} [] q.m_drawcalls ∧
      ∀ pre d post, q.m_drawcalls = pre ++ d :: post →
        (pre.map tri_vertex_count).sum + tri_vertex_count d ≤ q.m_vtxs.m_size ∧
        (pre.map tri_index_count).sum + tri_index_count d ≤ q.m_idxs.m_size := by
  have hs : (run_ops {} sample_empty_queue sample_ops).isSome = true := by decide
  obtain ⟨q, hq⟩ := Option.isSome_iff_exists.mp hs
  exact ⟨q, hq, batch_counts_partition_buffers {} sample_empty_queue q sample_ops rfl rfl rfl
    (by decide) (by decide) hq⟩

/-- C32: in every state reached from an empty queue by a sequence of geometry pushes,
`push_scissor` and `clear` calls that all return, the vertices and indices the calls can
store staying within the 32-bit range of the counters: every index found in the index range
of a descriptor (the slots from the sum of the index counts of the descriptors before it, as
many as its own index count) is below the vertex count of that descriptor; added to the base
vertex `flush` passes for the batch, the sum of the vertex counts of the descriptors before
it, it names a slot of the vertex range of that same batch, inside the written part of the
vertex buffer. No bound on the size of a batch is assumed: the stored index is
`u16 ( additional_indices + k )` for a vertex `k` of the push, which is at most
`additional_indices + k`, below the vertex count of the batch. -/
theorem stored_indices_below_vertex_count (g : daisy_t) (q0 q : c_renderqueue)
    (ops : List queue_op) (hd : q0.m_drawcalls = []) (hv : q0.m_vtxs.m_size = 0)
    (hi : q0.m_idxs.m_size = 0)
    (hbv : (ops.map op_vertices).sum < 4294967296)
    (hbi : (ops.map op_indices).sum < 4294967296)
    (hrun : run_ops g q0 ops = some q) :
    ∀ pre d post, q.m_drawcalls = pre ++ d :: post →
      ∀ s v, (pre.map tri_index_count).sum ≤ s →
        s < (pre.map tri_index_count).sum + tri_index_count d →
        q.m_idxs.slot s = some v →
        v < tri_vertex_count d ∧
        (pre.map tri_vertex_count).sum + v
          < (pre.map tri_vertex_count).sum + tri_vertex_count d ∧
        (pre.map tri_vertex_count).sum + tri_vertex_count d ≤ q.m_vtxs.m_size := by
  have h0 := empty_consistent q0 hd hv hi
  obtain ⟨hc, _, _⟩ := run_ops_consistent g ops q0 q h0 (by rw [hd]; simpa using hbv)
    (by rw [hd]; simpa using hbi) hrun
  intro pre d post hsplit s v h1 h2 hs
  have hlt := hc.2.2.1 pre d post hsplit s v h1 h2 hs
  refine ⟨hlt, by omega, ?_⟩
  rw [← hc.1, hsplit, sum_counts_split]
  omega

/-- Witness of C32: the same calls; the index block then holds 30 indices in three batches
of 4, 3 and 10 vertices. -/
theorem stored_indices_below_vertex_count_witness :
    ∃ q, run_ops {} sample_empty_queue sample_ops = some q ∧
      q.m_drawcalls.map tri_vertex_count = [4, 0, 3, 10] ∧
      q.m_drawcalls.map tri_index_count = [6, 0, 3, 21] ∧
      ∀ pre d post, q.m_drawcalls = pre ++ d :: post →
        ∀ s v, (pre.map tri_index_count).sum ≤ s →
          s < (pre.map tri_index_count).sum + tri_index_count d →
          q.m_idxs.slot s = some v →
          v < tri_vertex_count d ∧
          (pre.map tri_vertex_count).sum + v
            < (pre.map tri_vertex_count).sum + tri_vertex_count d ∧
          (pre.map tri_vertex_count).sum + tri_vertex_count d ≤ q.m_vtxs.m_size := by
  have hs : (run_ops {} sample_empty_queue sample_ops).map
      (fun q => (q.m_drawcalls.map tri_vertex_count, q.m_drawcalls.map tri_index_count))
      = some ([4, 0, 3, 10], [6, 0, 3, 21]) := by decide
  obtain ⟨q, hq, hcounts⟩ := Option.map_eq_some'.mp hs
  exact ⟨q, hq, (Prod.mk.inj hcounts).1, (Prod.mk.inj hcounts).2,
    stored_indices_below_vertex_count {} sample_empty_queue q sample_ops rfl rfl rfl
      (by decide) (by decide) hq⟩

/-- The indices of a rectangle pushed into a batch that holds 65534 vertices: the cast to
`uint16_t` keeps the low 16 bits, so the corners 65536 and 65537 of the batch are stored as
0 and 1. The stored values are below the vertex count of the batch all the same. -/
theorem rectangle_indices_wrap : rectangle_indices 65534 = [65534, 65535, 1, 1, 0, 65535] := by
  decide

/-! ### The slots after a push: rectangle, line and circle -/

end daisy
